import Mathlib

/-!
Convolution with an interpolated, spatially varying kernel.

A shallow embedding of `src/math/ConvolveWithInterpolation.cc` (and of the
coordinate predicates of `geom/CoordinateExpr.h` it uses), followed by theorems
about the embedded functions.

Conventions of the embedding
* pixel arithmetic is exact: kernel weights and pixels are rationals;
* an image is its dimensions together with a total pixel function on `ℤ × ℤ`
  (parent coordinates); a sub-image view over a box is the same pixel function
  shifted by the box minimum, so writing through a view writes the parent;
* a read through a locator that has left its view returns the parent's pixel
  there, and a read outside `width × height`, which is out of bounds in the
  source, returns whatever the pixel function holds there: statements about
  an input image constrain its pixels inside `width × height` only;
* C++ exceptions and undefined behaviour are explicit `Outcome`s next to the
  final output image, so what was written before a failure stays visible;
* the recursion of `convolveRegionWithRecursiveInterpolation` is driven by a
  fuel counter, and running out of fuel is `none`.
-/

set_option autoImplicit false

namespace afw

/-! ## Geometry -/

/-- Integer box `afwGeom::BoxI`: minimum corner and dimensions. -/
structure BoxI where
  minX : Int
  minY : Int
  width : Int
  height : Int
deriving DecidableEq

/-- Pixel membership in a box: `minX ≤ x < minX + width`, `minY ≤ y < minY + height`. -/
def BoxI.contains (b : BoxI) (x y : Int) : Prop :=
  b.minX ≤ x ∧ x < b.minX + b.width ∧ b.minY ≤ y ∧ y < b.minY + b.height

instance (b : BoxI) (x y : Int) : Decidable (b.contains x y) := by
  unfold BoxI.contains; infer_instance

/-- The boolean pair `CoordinateExpr<2>`. -/
structure CoordinateExpr2 where
  x : Bool
  y : Bool
deriving DecidableEq

/-- Element access `expr[n]` of a `CoordinateExpr<2>`. -/
def CoordinateExpr2.get (e : CoordinateExpr2) (n : Nat) : Bool :=
  if n = 0 then e.x else e.y

/-- The loop of `any`, from index `n` with `k` indices left:
`for (n; n<N; ++n) if (expr[n]) return true; return false;`. -/
def anyLoop (e : CoordinateExpr2) : Nat → Nat → Bool
  | 0, _ => false
  | k + 1, n => if e.get n then true else anyLoop e k (n + 1)

/-- The function `any(CoordinateExpr<2>)` of CoordinateExpr.h. -/
def any (e : CoordinateExpr2) : Bool := anyLoop e 2 0

/-- The extent `afwGeom::Extent2I`. -/
structure Extent2I where
  x : Int
  y : Int
deriving DecidableEq

/-- `Extent2I::make(v)` with a single value: both components are `v`. -/
def Extent2I.make (v : Int) : Extent2I := ⟨v, v⟩

/-- Element-wise comparison `a.lt(b)` of two extents. -/
def Extent2I.lt (a b : Extent2I) : CoordinateExpr2 :=
  ⟨decide (a.x < b.x), decide (a.y < b.y)⟩

/-- The dimensions `BoxI::getDimensions()`. -/
def BoxI.getDimensions (b : BoxI) : Extent2I := ⟨b.width, b.height⟩

/-! ## Images and kernel images -/

/-- Kernel image: weights indexed by (column, row). -/
abbrev KernelImage := Int → Int → ℚ

/-- An image: dimensions and pixel function (parent coordinates). -/
structure Image (α : Type) where
  width : Int
  height : Int
  pix : Int → Int → α

/-- Store `v` at pixel `(x, y)`. -/
def Image.set {α : Type} (img : Image α) (x y : Int) (v : α) : Image α :=
  { img with pix := fun x' y' => if x' = x ∧ y' = y then v else img.pix x' y' }

/-- Read access to the sub-image view of `img` over `bbox`: view pixel `(x, y)` is
parent pixel `(bbox.minX + x, bbox.minY + y)`, also when `(x, y)` is outside the
view. -/
def Image.view {α : Type} (img : Image α) (bbox : BoxI) : Int → Int → α :=
  fun x y => img.pix (bbox.minX + x) (bbox.minY + y)

/-- Modelled from the spec: `afwMath::scaledPlus(out, c1, in1, c2, in2)`, which is
not in the sources; the spec's deltas `(top - bottom) * yfrac` and
`(right - left) * xfrac` are `out = c1 * in1 + c2 * in2` pixel by pixel. -/
def scaledPlus (c1 : ℚ) (in1 : KernelImage) (c2 : ℚ) (in2 : KernelImage) : KernelImage :=
  fun i j => c1 * in1 i j + c2 * in2 i j

/-- Image `lhs += rhs`, pixel by pixel. -/
def plusAssign (lhs rhs : KernelImage) : KernelImage := fun i j => lhs i j + rhs i j

/-- Image `lhs -= rhs`, pixel by pixel. -/
def minusAssign (lhs rhs : KernelImage) : KernelImage := fun i j => lhs i j - rhs i j

/-- Modelled from the spec: `afwMath::convolveAtAPoint`, which is not in the
sources: the "dot product of kernel weights and aligned input pixels", the
`kWidth × kHeight` block of the input starting at the locator `(locX, locY)`
against the kernel image starting at its `(0, 0)`. -/
def convolveAtAPoint (inView : Int → Int → ℚ) (locX locY : Int) (kernelImage : KernelImage)
    (kWidth kHeight : Nat) : ℚ :=
  ∑ kRow ∈ Finset.range kHeight, ∑ kCol ∈ Finset.range kWidth,
    inView (locX + kCol) (locY + kRow) * kernelImage kCol kRow

/-! ## Kernels and regions -/

/-- The part of `afwMath::Kernel` the convolution uses. The kernel classes are
not in the sources; their dimensions, centre, image at a pixel position, the
smallest region size for interpolation and the adequacy test of
`KernelImagesForRegion::isInterpolationOk` are taken as parameters. -/
structure Kernel where
  width : Nat
  height : Nat
  ctrX : Int
  ctrY : Int
  computeImage : Int → Int → Bool → KernelImage
  minInterpolationSize : Int
  isInterpolationOk : BoxI → ℚ → Bool

/-- Modelled from the spec: `Kernel::growBBox`, which is not in the sources; it
grows a box "by the kernel's footprint radius to obtain the required input
support": the pixels under the footprint of any pixel of the box. -/
def Kernel.growBBox (k : Kernel) (b : BoxI) : BoxI :=
  ⟨b.minX - k.ctrX, b.minY - k.ctrY, b.width + (k.width - 1), b.height + (k.height - 1)⟩

/-- Modelled from the spec: `Kernel::shrinkBBox`, which is not in the sources;
"the region where the kernel's full footprint fits entirely inside the input". -/
def Kernel.shrinkBBox (k : Kernel) (b : BoxI) : BoxI :=
  ⟨b.minX + k.ctrX, b.minY + k.ctrY, b.width - (k.width - 1), b.height - (k.height - 1)⟩

/-- Corner names `KernelImagesForRegion::Location` used by the convolution. -/
inductive Location
  | BOTTOM_LEFT
  | BOTTOM_RIGHT
  | TOP_LEFT
  | TOP_RIGHT
deriving DecidableEq

/-- A region `KernelImagesForRegion`: kernel, box of output pixels, normalisation flag. -/
structure KernelImagesForRegion where
  kernel : Kernel
  bbox : BoxI
  doNormalize : Bool

/-- Modelled from the spec: `KernelImagesForRegion::getImage`, which is not in
the sources: the "four corner KernelImage samples, one per bounding-box corner,
each the kernel's exact footprint evaluated at that output pixel". -/
def KernelImagesForRegion.getImage (region : KernelImagesForRegion) : Location → KernelImage
  | .BOTTOM_LEFT => region.kernel.computeImage region.bbox.minX region.bbox.minY region.doNormalize
  | .BOTTOM_RIGHT =>
      region.kernel.computeImage (region.bbox.minX + region.bbox.width - 1) region.bbox.minY
        region.doNormalize
  | .TOP_LEFT =>
      region.kernel.computeImage region.bbox.minX (region.bbox.minY + region.bbox.height - 1)
        region.doNormalize
  | .TOP_RIGHT =>
      region.kernel.computeImage (region.bbox.minX + region.bbox.width - 1)
        (region.bbox.minY + region.bbox.height - 1) region.doNormalize

/-! ## convolveRegionWithInterpolation -/

/-- What `convolveRegionWithInterpolation` leaves behind: the output image, the
running `kernelImage`, and the kernel images handed to `writeFits`, in order. -/
structure SweepResult (α : Type) where
  outImage : Image α
  kernelImage : KernelImage
  fits : List (String × KernelImage)

/-- The inner loop `for ( ; outIter != outEnd; ++outIter, ++inLocator.x())` over
the `n` pixels left in row `row` of the output view, `col` being the column of
`outIter` and `(locX, locY)` the position of `inLocator` in the input view.
`conv` is `afwMath::convolveAtAPoint<OutImageT, InImageT>`. -/
def sweepRow {α β : Type}
    (conv : (Int → Int → β) → Int → Int → KernelImage → Nat → Nat → α)
    (inView : Int → Int → β) (outBBox : BoxI) (kWidth kHeight : Nat) (row : Int)
    (deltaKernelImage : KernelImage) :
    Nat → Int → Int → Int → Image α → KernelImage → Image α × KernelImage
  | 0, _, _, _, outImage, kernelImage => (outImage, kernelImage)
  | n + 1, col, locX, locY, outImage, kernelImage =>
      sweepRow conv inView outBBox kWidth kHeight row deltaKernelImage n (col + 1) (locX + 1) locY
        (outImage.set (outBBox.minX + col) (outBBox.minY + row)
          (conv inView locX locY kernelImage kWidth kHeight))
        (plusAssign kernelImage deltaKernelImage)

/-- The loop `for (int row = 0; ; )` of `convolveRegionWithInterpolation`, entered
at `row` with the running images; `height` is `outView.getHeight()` and `width`
the number of pixels of a row of the output view. -/
def sweepRows {α β : Type}
    (conv : (Int → Int → β) → Int → Int → KernelImage → Nat → Nat → α)
    (inView : Int → Int → β) (outBBox : BoxI) (kWidth kHeight : Nat) (xfrac : ℚ)
    (leftDeltaKernelImage rightDeltaKernelImage : KernelImage) (width : Nat) (height : Int)
    (row : Int) (outImage : Image α) (leftKernelImage rightKernelImage kernelImage : KernelImage)
    (fits : List (String × KernelImage)) : SweepResult α :=
  let deltaKernelImage := scaledPlus xfrac rightKernelImage (-xfrac) leftKernelImage
  -- InLocator inLocator = inView.xy_at(row, 0): xy_at takes (x, y), as in
  -- kernelImage.xy_at(0, 0), so the locator starts at x = row, y = 0
  let swept := sweepRow conv inView outBBox kWidth kHeight row deltaKernelImage width 0 row 0
    outImage kernelImage
  let kernelImage1 := if row = 0 then minusAssign swept.2 deltaKernelImage else swept.2
  let fits1 := if row = 0 then
      fits ++ [("kernelImageAtBottomRight.fits", kernelImage1),
        ("deltaKernelImageBottomRow.fits", deltaKernelImage)]
    else fits
  if row + 1 ≥ height then
    let kernelImage2 := minusAssign kernelImage1 deltaKernelImage
    ⟨swept.1, kernelImage2,
      fits1 ++ [("deltaKernelImageTopRow.fits", deltaKernelImage),
        ("kernelImageAtTopRight.fits", kernelImage2)]⟩
  else
    let leftKernelImage1 := plusAssign leftKernelImage leftDeltaKernelImage
    let rightKernelImage1 := plusAssign rightKernelImage rightDeltaKernelImage
    sweepRows conv inView outBBox kWidth kHeight xfrac leftDeltaKernelImage rightDeltaKernelImage
      width height (row + 1) swept.1 leftKernelImage1 rightKernelImage1 leftKernelImage1 fits1
termination_by (height - row).toNat
decreasing_by omega

/-- The function `convolveRegionWithInterpolation(outImage, inImage, region)`,
for any pixel types; `conv` is `afwMath::convolveAtAPoint<OutImageT, InImageT>`. -/
def convolveRegionWithInterpolationWith {α β : Type}
    (conv : (Int → Int → β) → Int → Int → KernelImage → Nat → Nat → α)
    (outImage : Image α) (inImage : Image β) (region : KernelImagesForRegion) : SweepResult α :=
  let kernelPtr := region.kernel
  let leftKernelImage := region.getImage .BOTTOM_LEFT
  let rightKernelImage := region.getImage .BOTTOM_RIGHT
  let kernelImage := leftKernelImage
  let outBBox := region.bbox
  let inBBox := kernelPtr.growBBox outBBox
  let xfrac : ℚ := 1 / ((outBBox.width - 1 : Int) : ℚ)
  let yfrac : ℚ := 1 / ((outBBox.height - 1 : Int) : ℚ)
  let leftDeltaKernelImage :=
    scaledPlus yfrac (region.getImage .TOP_LEFT) (-yfrac) leftKernelImage
  let rightDeltaKernelImage :=
    scaledPlus yfrac (region.getImage .TOP_RIGHT) (-yfrac) rightKernelImage
  let fits := [("bottomLeftKernelImage.fits", leftKernelImage),
    ("bottomRightKernelImage.fits", rightKernelImage),
    ("leftDeltaKernelImage.fits", leftDeltaKernelImage),
    ("rightDeltaKernelImage.fits", rightDeltaKernelImage)]
  sweepRows conv (inImage.view inBBox) outBBox kernelPtr.width kernelPtr.height xfrac
    leftDeltaKernelImage rightDeltaKernelImage outBBox.width.toNat outBBox.height 0 outImage
    leftKernelImage rightKernelImage kernelImage fits

/-- The function `convolveRegionWithInterpolation` on rational pixels. -/
def convolveRegionWithInterpolation (outImage inImage : Image ℚ)
    (region : KernelImagesForRegion) : SweepResult ℚ :=
  convolveRegionWithInterpolationWith convolveAtAPoint outImage inImage region

/-- The kernel image current when output pixel `(c, r)` of the region is
computed: the pixel left by the sweep when `convolveAtAPoint` is replaced by
the function that returns the kernel image it is given. -/
def kernelImageUsed (region : KernelImagesForRegion) (c r : Nat) : KernelImage :=
  (convolveRegionWithInterpolationWith (fun _ _ _ kernelImage _ _ => kernelImage)
    (⟨0, 0, fun _ _ _ _ => 0⟩ : Image KernelImage) (⟨0, 0, fun _ _ => ()⟩ : Image Unit)
    region).outImage.pix (region.bbox.minX + c) (region.bbox.minY + r)

/-- The position of the input locator, in the grown input view, when output
pixel `(c, r)` of the region is computed: the pixel left by the sweep when
`convolveAtAPoint` is replaced by the function that returns the locator. -/
def locatorUsed (region : KernelImagesForRegion) (c r : Nat) : Int × Int :=
  (convolveRegionWithInterpolationWith (fun _ locX locY _ _ _ => (locX, locY))
    (⟨0, 0, fun _ _ => (0, 0)⟩ : Image (Int × Int)) (⟨0, 0, fun _ _ => ()⟩ : Image Unit)
    region).outImage.pix (region.bbox.minX + c) (region.bbox.minY + r)

/-- Bilinear interpolation of four corner images, in the spec's words:
`(1-v)*((1-u)*BL + u*BR) + v*((1-u)*TL + u*TR)`. -/
def bilinear (u v : ℚ) (bl br tl tr : KernelImage) : KernelImage :=
  fun i j => (1 - v) * ((1 - u) * bl i j + u * br i j) + v * ((1 - u) * tl i j + u * tr i j)

/-- Sum of the weights of a `kWidth × kHeight` kernel image. -/
def kernelSum (kernelImage : KernelImage) (kWidth kHeight : Nat) : ℚ :=
  ∑ kRow ∈ Finset.range kHeight, ∑ kCol ∈ Finset.range kWidth, kernelImage kCol kRow

/-- The kernel image the sweep holds at column offset `dx` of the row at offset
`dy` above the row where the running images were `left` and `right`. -/
def sweptKernelImage (xfrac : ℚ) (leftDelta rightDelta left right : KernelImage)
    (dx dy : Int) : KernelImage :=
  fun i j => (left i j + (dy : ℚ) * leftDelta i j) +
    (dx : ℚ) * (xfrac * (right i j + (dy : ℚ) * rightDelta i j) +
      -xfrac * (left i j + (dy : ℚ) * leftDelta i j))

/-! ## Brute force, the recursive solver and the driver -/

/-- Modelled from the spec: `mathDetail::convolveWithBruteForce(outView, inView,
kernel, doNormalize)`, which is not in the sources, called on the views over
`viewBBox`: it "evaluates the kernel exactly at each output pixel's position and
performs the direct weighted sum with the input neighborhood", and being
low-level it sets no edge pixel, only the pixels of `shrinkBBox` of the view. -/
def convolveWithBruteForce (outImage inImage : Image ℚ) (viewBBox : BoxI) (kernel : Kernel)
    (doNormalize : Bool) : Image ℚ :=
  { outImage with
    pix := fun x y =>
      if (kernel.shrinkBBox viewBBox).contains x y then
        convolveAtAPoint inImage.pix (x - kernel.ctrX) (y - kernel.ctrY)
          (kernel.computeImage x y doNormalize) kernel.width kernel.height
      else outImage.pix x y }

/-- Start offset of cell `i` when a side of length `extent` is cut into `n` cells. -/
def cellStart (extent : Int) (n i : Nat) : Int := (i * extent) / n

/-- Cell `(ix, iy)` of the `nx × ny` grid over a region: cell `i` of a side of
length `w` cut into `n` spans `[⌊i*w/n⌋, ⌊(i+1)*w/n⌋)`. -/
def KernelImagesForRegion.cell (region : KernelImagesForRegion) (nx ny ix iy : Nat) :
    KernelImagesForRegion :=
  { region with
    bbox :=
      ⟨region.bbox.minX + cellStart region.bbox.width nx ix,
        region.bbox.minY + cellStart region.bbox.height ny iy,
        cellStart region.bbox.width nx (ix + 1) - cellStart region.bbox.width nx ix,
        cellStart region.bbox.height ny (iy + 1) - cellStart region.bbox.height ny iy⟩ }

/-- Modelled from the spec: `KernelImagesForRegion::getSubregions(nx, ny)`, which
is not in the sources: an `nx × ny` grid of "approximately-equal-size cells"
that tile the box with "no overlap, no gap", each side cut as in `cell`, so
that a cell's length is `⌊w/n⌋` or `⌈w/n⌉`. Cells are listed bottom row first,
left to right. -/
def KernelImagesForRegion.getSubregionsGrid (region : KernelImagesForRegion) (nx ny : Int) :
    List KernelImagesForRegion :=
  (List.range ny.toNat).flatMap fun iy =>
    (List.range nx.toNat).map fun ix => region.cell nx.toNat ny.toNat ix iy

/-- Modelled from the spec: `KernelImagesForRegion::getSubregions()`, which is
not in the sources: the four children that "exactly tile its bounding box into
a 2×2 grid". -/
def KernelImagesForRegion.getSubregions (region : KernelImagesForRegion) :
    List KernelImagesForRegion :=
  region.getSubregionsGrid 2 2

/-- The method `KernelImagesForRegion::getMinInterpolationSize()`. -/
def KernelImagesForRegion.getMinInterpolationSize (region : KernelImagesForRegion) : Int :=
  region.kernel.minInterpolationSize

/-- The method `KernelImagesForRegion::isInterpolationOk(maxInterpolationError)`. -/
def KernelImagesForRegion.isInterpolationOk (region : KernelImagesForRegion)
    (maxInterpolationError : ℚ) : Bool :=
  region.kernel.isInterpolationOk region.bbox maxInterpolationError

/-- A call of one of the two convolvers. -/
inductive Call
  | bruteForce (region : KernelImagesForRegion)
  | interpolation (region : KernelImagesForRegion)

/-- The output image together with the calls of the two convolvers made so far. -/
structure ConvState where
  outImage : Image ℚ
  calls : List Call

/-- The brute-force branch: views of both images over the grown box, then
`convolveWithBruteForce(outView, inView, *kernelPtr, region.getDoNormalize())`. -/
def ConvState.bruteForce (st : ConvState) (inImage : Image ℚ)
    (region : KernelImagesForRegion) : ConvState :=
  let kernelPtr := region.kernel
  let bbox := kernelPtr.growBBox region.bbox
  ⟨convolveWithBruteForce st.outImage inImage bbox kernelPtr region.doNormalize,
    st.calls ++ [Call.bruteForce region]⟩

/-- One call `convolveRegionWithInterpolation(outImage, inImage, region)`. -/
def ConvState.interpolation (st : ConvState) (inImage : Image ℚ)
    (region : KernelImagesForRegion) : ConvState :=
  ⟨(convolveRegionWithInterpolation st.outImage inImage region).outImage,
    st.calls ++ [Call.interpolation region]⟩

/-- The function `convolveRegionWithRecursiveInterpolation(outImage, inImage,
region, maxInterpolationError)`; `none` when the fuel does not cover the depth
of the recursion. -/
def convolveRegionWithRecursiveInterpolation :
    Nat → ConvState → Image ℚ → KernelImagesForRegion → ℚ → Option ConvState
  | 0, _, _, _, _ => none
  | fuel + 1, st, inImage, region, maxInterpolationError =>
    if any (region.bbox.getDimensions.lt (Extent2I.make region.getMinInterpolationSize)) then
      some (st.bruteForce inImage region)
    else if region.isInterpolationOk maxInterpolationError then
      some (region.getSubregions.foldl (fun s r => s.interpolation inImage r) st)
    else
      region.getSubregions.foldlM
        (fun s r => convolveRegionWithRecursiveInterpolation fuel s inImage r maxInterpolationError)
        st

/-- The getters of `afwMath::ConvolutionControl` the driver reads. -/
structure ConvolutionControl where
  doNormalize : Bool
  maxInterpolationDistance : Int
  maxInterpolationError : ℚ

/-- How a call of the driver ends. -/
inductive Outcome
  | ok
  | invalidParameter
  | undefinedBehaviour
deriving DecidableEq

/-- The good box `kernel.shrinkBBox(fullBBox)` of an output image. -/
def goodBBox (outImage : Image ℚ) (kernel : Kernel) : BoxI :=
  kernel.shrinkBBox ⟨0, 0, outImage.width, outImage.height⟩

/-- The count `1 + (extent / maxInterpolationDistance)` with C++ integer division. -/
def subregionCount (extent maxInterpolationDistance : Int) : Int :=
  1 + Int.tdiv extent maxInterpolationDistance

/-- The list `subregionList = goodRegion.getSubregions(nx, ny)` of the driver. -/
def subregionList (outImage : Image ℚ) (kernel : Kernel) (ctrl : ConvolutionControl) :
    List KernelImagesForRegion :=
  let goodBBox := goodBBox outImage kernel
  let goodRegion : KernelImagesForRegion := ⟨kernel, goodBBox, ctrl.doNormalize⟩
  let nx := subregionCount goodBBox.width ctrl.maxInterpolationDistance
  let ny := subregionCount goodBBox.height ctrl.maxInterpolationDistance
  goodRegion.getSubregionsGrid nx ny

/-- The function `convolveWithInterpolation(outImage, inImage, kernel,
convolutionControl)`: how the call ends and the state it leaves; `none` when the
fuel does not cover the recursion of some region. A zero
`maxInterpolationDistance` is an integer division by zero. -/
def convolveWithInterpolation (fuel : Nat) (outImage inImage : Image ℚ) (kernel : Kernel)
    (ctrl : ConvolutionControl) : Option (Outcome × ConvState) :=
  if (outImage.width, outImage.height) ≠ (inImage.width, inImage.height) then
    some (Outcome.invalidParameter, ⟨outImage, []⟩)
  else if ctrl.maxInterpolationDistance = 0 then
    some (Outcome.undefinedBehaviour, ⟨outImage, []⟩)
  else
    ((subregionList outImage kernel ctrl).foldlM
      (fun s r => convolveRegionWithRecursiveInterpolation fuel s inImage r
        ctrl.maxInterpolationError) ⟨outImage, []⟩).map fun s => (Outcome.ok, s)

/-! ## Concrete inputs -/

/-- A 1×1 kernel of weight 1 everywhere, with the given minimum interpolation
size and a constant adequacy verdict. -/
def unitKernel (minSize : Int) (ok : Bool) : Kernel :=
  ⟨1, 1, 0, 0, fun _ _ _ _ _ => 1, minSize, fun _ _ => ok⟩

/-- A 2×2 image whose pixel `(x, y)` holds `y`. -/
def rampY : Image ℚ := ⟨2, 2, fun _ y => y⟩

/-- A 2×2 image of zeros. -/
def zeroImage : Image ℚ := ⟨2, 2, fun _ _ => 0⟩

/-- The 2×2 region at the origin under the unit kernel. -/
def region22 : KernelImagesForRegion := ⟨unitKernel 2 true, ⟨0, 0, 2, 2⟩, false⟩

/-- A 2×2 kernel centred at (0, 0) whose weights vary with position. -/
def varyingKernel : Kernel :=
  ⟨2, 2, 0, 0, fun x y _ i j => (x : ℚ) * i + (y : ℚ) * (y : ℚ) * j + 1, 10, fun _ _ => true⟩

/-- The 3×4 region at (5, 7) under the varying kernel. -/
def region34 : KernelImagesForRegion := ⟨varyingKernel, ⟨5, 7, 3, 4⟩, false⟩

/-- A 2×1 kernel whose two weights sum to 1 at every position. -/
def normalizedKernel : Kernel :=
  ⟨2, 1, 0, 0, fun x _ _ i _ => if i = 0 then 1 / ((x : ℚ) * x + 2) else 1 - 1 / ((x : ℚ) * x + 2),
    10, fun _ _ => true⟩

/-- The 3×3 region at the origin under the normalized kernel. -/
def region33 : KernelImagesForRegion := ⟨normalizedKernel, ⟨0, 0, 3, 3⟩, true⟩

/-- A 3×3 image of zeros. -/
def zeroImage33 : Image ℚ := ⟨3, 3, fun _ _ => 0⟩

/-- Control block: no normalisation, interpolation distance 10, error bound 0. -/
def control10 : ConvolutionControl := ⟨false, 10, 0⟩

/-- A 100×100 image of zeros. -/
def zeroImage100 : Image ℚ := ⟨100, 100, fun _ _ => 0⟩

/-- A 5×5 kernel of radius 2 with constant weights `1/25`, minimum interpolation size 10. -/
def boxKernel5 : Kernel :=
  ⟨5, 5, 2, 2, fun _ _ _ _ _ => 1 / 25, 10, fun _ _ => true⟩

/-- Control block: normalisation, interpolation distance 50, error bound 0. -/
def control50 : ConvolutionControl := ⟨true, 50, 0⟩

/-- A 4×4 image whose pixel `(x, y)` holds `x + 4 * y`. -/
def countImage44 : Image ℚ := ⟨4, 4, fun x y => x + 4 * y⟩

/-- A 3×3 kernel of radius 1 with constant weights `1/9`, with the given minimum
interpolation size and a constant adequacy verdict. -/
def boxKernel3 (minSize : Int) (ok : Bool) : Kernel :=
  ⟨3, 3, 1, 1, fun _ _ _ _ _ => 1 / 9, minSize, fun _ _ => ok⟩

/-- A 1×1 kernel whose weight at pixel `(x, y)` is `x² + y²`, with minimum
interpolation size 1. Over a `W × H` region the bilinear interpolation of the
weight between the corners is off by at most `⌊(W-1)²/4⌋ + ⌊(H-1)²/4⌋` at a
pixel, and the adequacy test compares that number with the tolerance. -/
def paraboloidKernel : Kernel :=
  ⟨1, 1, 0, 0, fun x y _ _ _ => (x : ℚ) * x + (y : ℚ) * y, 1,
    fun b e => decide ((((b.width - 1) * (b.width - 1) / 4 +
      (b.height - 1) * (b.height - 1) / 4 : Int) : ℚ) ≤ e)⟩

/-- The 9×9 region at the origin under the paraboloid kernel. -/
def region99 : KernelImagesForRegion := ⟨paraboloidKernel, ⟨0, 0, 9, 9⟩, false⟩

/-- The 5×4 region at the origin under the unit kernel with minimum
interpolation size 2 and an adequacy test that never passes. -/
def region54 : KernelImagesForRegion := ⟨unitKernel 2 false, ⟨0, 0, 5, 4⟩, false⟩

/-- The 9×8 region at the origin under the unit kernel with minimum
interpolation size 4 and an adequacy test that always passes. -/
def region98 : KernelImagesForRegion := ⟨unitKernel 4 true, ⟨0, 0, 9, 8⟩, false⟩

/-! ## CoordinateExpr for any dimension -/

/-- The boolean coordinate `CoordinateExpr<N>`: its `N` elements `expr[n]`. -/
abbrev CoordinateExpr (N : Nat) := Fin N → Bool

/-- The loop of `all`, at index `n` with `k` rounds left:
`for (n; n<N; ++n) if (expr[n]) return false; return true;`. -/
def CoordinateExpr.allLoop {N : Nat} (expr : CoordinateExpr N) : Nat → Nat → Bool
  | 0, _ => true
  | k + 1, n =>
    if h : n < N then
      if expr ⟨n, h⟩ then false else CoordinateExpr.allLoop expr k (n + 1)
    else true

/-- The function `all(CoordinateExpr<N> const & expr)` of CoordinateExpr.h. -/
def CoordinateExpr.all {N : Nat} (expr : CoordinateExpr N) : Bool :=
  CoordinateExpr.allLoop expr N 0

/-- The loop of `any`, at index `n` with `k` rounds left:
`for (n; n<N; ++n) if (expr[n]) return true; return false;`. -/
def CoordinateExpr.anyLoop {N : Nat} (expr : CoordinateExpr N) : Nat → Nat → Bool
  | 0, _ => false
  | k + 1, n =>
    if h : n < N then
      if expr ⟨n, h⟩ then true else CoordinateExpr.anyLoop expr k (n + 1)
    else false

/-- The function `any(CoordinateExpr<N> const & expr)` of CoordinateExpr.h. -/
def CoordinateExpr.any {N : Nat} (expr : CoordinateExpr N) : Bool :=
  CoordinateExpr.anyLoop expr N 0

/-- The `CoordinateExpr<2>` (true, true). -/
def bothTrue : CoordinateExpr 2 := fun _ => true

/-- The `CoordinateExpr<2>` (false, false). -/
def bothFalse : CoordinateExpr 2 := fun _ => false

/-! ## warpImageGPU -/

/-- What `WarpImageGpuWrapper` can throw. -/
inductive WrapperError
  | gpuMemory
  | gpuRuntimeError
deriving DecidableEq

/-- What the GPU warping reads from outside its arguments: whether the library
is a GPU build (`isGpuBuild()`, `GPU_BUILD`), the answer of
`TryToSelectCudaDevice(noExceptions)`, the constant `gpu::cWarpingKernelMaxSize`
(not in the sources) and what the call of `WarpImageGpuWrapper` gives for the
dimensions of the two images, the kernel order, the interpolation length and
the pad value. -/
structure GpuEnv where
  isGpuBuild : Bool
  tryToSelectCudaDevice : Bool → Bool
  cWarpingKernelMaxSize : Int
  warpImageGpuWrapper : Int → Int → Int → Int → Int → Int → ℚ → Except WrapperError Int

/-- The calls `warpImageGPU` makes, in order. -/
inductive WarpStep
  | isGpuBuild
  | tryToSelectCudaDevice (noExceptions : Bool)
  | getOrder
  | warpImageGpuWrapper (order interpLength : Int)
deriving DecidableEq

/-- How a call of `warpImageGPU` ends: one of its two exceptions, an exception of
the wrapper, or the pair it returns. -/
inductive WarpOutcome
  | invalidParameter
  | notGpuBuild
  | wrapperThrew (e : WrapperError)
  | returned (numGoodPixels : Int) (processed : Bool)
deriving DecidableEq

/-- The function `warpImageGPU(destImage, srcImage, lanczosKernel, computeSrcPos,
interpLength, padValue, forceProcessing)`: how it ends and the calls it made.
Of the images only the dimensions are kept; `order` is
`lanczosKernel.getOrder()`. -/
def warpImageGPU (env : GpuEnv) (destWidth destHeight srcWidth srcHeight : Int) (order : Int)
    (interpLength : Int) (padValue : ℚ) (forceProcessing : Bool) : WarpOutcome × List WarpStep :=
  if interpLength < 1 then
    (WarpOutcome.invalidParameter, [])
  else if !env.isGpuBuild then
    (WarpOutcome.notGpuBuild, [WarpStep.isGpuBuild])
  else if env.tryToSelectCudaDevice (!forceProcessing) == false then
    (WarpOutcome.returned (-1) false,
      [WarpStep.isGpuBuild, WarpStep.tryToSelectCudaDevice (!forceProcessing)])
  else if order * 2 > env.cWarpingKernelMaxSize then
    (WarpOutcome.returned (-1) false,
      [WarpStep.isGpuBuild, WarpStep.tryToSelectCudaDevice (!forceProcessing), WarpStep.getOrder])
  else if !forceProcessing && decide (interpLength < 3) then
    (WarpOutcome.returned (-1) false,
      [WarpStep.isGpuBuild, WarpStep.tryToSelectCudaDevice (!forceProcessing), WarpStep.getOrder])
  else
    match env.warpImageGpuWrapper destWidth destHeight srcWidth srcHeight order interpLength
        padValue with
    | Except.error e =>
      (WarpOutcome.wrapperThrew e,
        [WarpStep.isGpuBuild, WarpStep.tryToSelectCudaDevice (!forceProcessing), WarpStep.getOrder,
          WarpStep.warpImageGpuWrapper order interpLength])
    | Except.ok numGoodPixels =>
      (WarpOutcome.returned numGoodPixels true,
        [WarpStep.isGpuBuild, WarpStep.tryToSelectCudaDevice (!forceProcessing), WarpStep.getOrder,
          WarpStep.warpImageGpuWrapper order interpLength])

/-- A GPU build whose device selection succeeds, with kernel size limit 100 and a
wrapper that reports 42 good pixels. -/
def gpuEnv : GpuEnv := ⟨true, fun _ => true, 100, fun _ _ _ _ _ _ _ => Except.ok 42⟩

/-- Two boxes share no pixel. -/
def BoxI.disjoint (a b : BoxI) : Prop := ∀ x y : Int, ¬ (a.contains x y ∧ b.contains x y)

/-- A 4×4 image of zeros. -/
def zeroImage44 : Image ℚ := ⟨4, 4, fun _ _ => 0⟩

/-- Control block: no normalisation, interpolation distance -10, error bound 0. -/
def controlNeg10 : ConvolutionControl := ⟨false, -10, 0⟩

/-- Control block: no normalisation, interpolation distance 0, error bound 0. -/
def controlZero : ConvolutionControl := ⟨false, 0, 0⟩

/-- A 6×6 image whose pixel `(x, y)` holds `x`. -/
def rampX66 : Image ℚ := ⟨6, 6, fun x _ => x⟩

/-- A 6×6 image of zeros. -/
def zeroImage66 : Image ℚ := ⟨6, 6, fun _ _ => 0⟩

/-- The good region of a 6×6 image under the 3×3 box kernel with minimum
interpolation size 2: the 4×4 box at (1, 1). -/
def goodRegion66 : KernelImagesForRegion := ⟨boxKernel3 2 true, ⟨1, 1, 4, 4⟩, false⟩

/-- Sum of the absolute values of the `kWidth × kHeight` block of the input
starting at the locator `(locX, locY)`. -/
def blockAbsSum (inView : Int → Int → ℚ) (locX locY : Int) (kWidth kHeight : Nat) : ℚ :=
  ∑ kRow ∈ Finset.range kHeight, ∑ kCol ∈ Finset.range kWidth,
    |inView (locX + kCol) (locY + kRow)|

/-- A 6×6 image whose pixels all hold 10. -/
def constImage66 : Image ℚ := ⟨6, 6, fun _ _ => 10⟩

/-- A 1×1 kernel whose weight at column `x` is `x²`, with minimum interpolation
size 4; over a run of three columns the linear interpolation of `x²` is off by
1 in the middle, and the adequacy test passes from tolerance 1 on. -/
def squareKernel : Kernel :=
  ⟨1, 1, 0, 0, fun x _ _ _ _ => (x : ℚ) * x, 4, fun _ e => decide (1 ≤ e)⟩

/-- The 6×6 region at the origin under the square kernel. -/
def region66 : KernelImagesForRegion := ⟨squareKernel, ⟨0, 0, 6, 6⟩, false⟩

/-- From state `st` to state `st'` every pixel either took the value `v` gives
for it or kept its value. -/
def Paints (v : Int → Int → ℚ) (st st' : ConvState) : Prop :=
  ∀ x y : Int, st'.outImage.pix x y = v x y ∨ st'.outImage.pix x y = st.outImage.pix x y

/-- Every pixel of the box `b` holds in `st` the value `v` gives for it. -/
def Covers (v : Int → Int → ℚ) (b : BoxI) (st : ConvState) : Prop :=
  ∀ x y : Int, b.contains x y → st.outImage.pix x y = v x y

/-- The value brute force gives pixel `(x, y)`: the exact kernel image at the
pixel against the input block under its footprint. -/
def bruteForceValue (inImage : Image ℚ) (kernel : Kernel) (doNormalize : Bool) (x y : Int) : ℚ :=
  convolveAtAPoint inImage.pix (x - kernel.ctrX) (y - kernel.ctrY)
    (kernel.computeImage x y doNormalize) kernel.width kernel.height

/-- The box of the region of an interpolation call; `none` for a brute-force call. -/
def Call.interpolatedBox : Call → Option BoxI
  | .bruteForce _ => none
  | .interpolation region => some region.bbox

/-- Control block: no normalisation, interpolation distance 1, error bound 0. -/
def controlOne : ConvolutionControl := ⟨false, 1, 0⟩

/-! ## The wrappers of the GPU kernel -/

/-- Which GPU buffers `WarpImageGpuWrapper` (plain Image) obtains: true when the
pointer is not NULL; whether the kernel run leaves `cudaSuccess`; and the count
of `NumGoodPixels`. -/
structure ImageGpuState where
  destBufImg : Bool
  srcBufImg : Bool
  srcBlk : Bool
  srcPosInterp : Bool
  kernelSucceeds : Bool
  numGoodPixels : Int

/-- How a call of a wrapper ends: the exception thrown with its message, or the
count returned; and whether `WarpImageGpuCallKernel` was called. -/
structure WrapperRun where
  result : Except (WrapperError × String) Int
  kernelCalled : Bool

/-- The function `WarpImageGpuWrapper` for `afwImage::Image`. -/
def warpImageGpuWrapperImage (gpu : ImageGpuState) : WrapperRun :=
  if gpu.destBufImg == false then
    ⟨Except.error (WrapperError.gpuMemory, "Not enough memory on GPU for output image"), false⟩
  else if gpu.srcBufImg == false then
    ⟨Except.error (WrapperError.gpuMemory, "Not enough memory on GPU for input image"), false⟩
  else if gpu.srcBlk == false then
    ⟨Except.error (WrapperError.gpuMemory, "Not enough memory on GPU for source block sizes"),
      false⟩
  -- srcPosInterpGpu.Transfer(srcPosInterp); if (srcBlkGpu.ptr == NULL)
  else if gpu.srcBlk == false then
    ⟨Except.error (WrapperError.gpuMemory,
      "Not enough memory on GPU for interpolation data for coorinate transformation"), false⟩
  else if gpu.kernelSucceeds == false then
    ⟨Except.error (WrapperError.gpuRuntimeError, "GPU calculation failed to run"), true⟩
  else
    ⟨Except.ok gpu.numGoodPixels, true⟩

/-- Which GPU buffers `WarpImageGpuWrapper` (MaskedImage) obtains, as in
`ImageGpuState`, with the variance and mask planes. -/
structure MaskedImageGpuState where
  destBufImg : Bool
  destBufVar : Bool
  destBufMsk : Bool
  srcBufImg : Bool
  srcBufVar : Bool
  srcBufMsk : Bool
  srcBlk : Bool
  srcPosInterp : Bool
  kernelSucceeds : Bool
  numGoodPixels : Int

/-- The function `WarpImageGpuWrapper` for `afwImage::MaskedImage`. -/
def warpImageGpuWrapperMaskedImage (gpu : MaskedImageGpuState) : WrapperRun :=
  if gpu.destBufImg == false then
    ⟨Except.error (WrapperError.gpuMemory, "Not enough memory on GPU for input image"), false⟩
  else if gpu.destBufVar == false then
    ⟨Except.error (WrapperError.gpuMemory, "Not enough memory on GPU for input variance"), false⟩
  else if gpu.destBufMsk == false then
    ⟨Except.error (WrapperError.gpuMemory, "Not enough memory on GPU for input mask"), false⟩
  else if gpu.srcBufImg == false then
    ⟨Except.error (WrapperError.gpuMemory, "Not enough memory on GPU for input image"), false⟩
  else if gpu.srcBufVar == false then
    ⟨Except.error (WrapperError.gpuMemory, "Not enough memory on GPU for input variance"), false⟩
  else if gpu.srcBufMsk == false then
    ⟨Except.error (WrapperError.gpuMemory, "Not enough memory on GPU for input mask"), false⟩
  else if gpu.srcBlk == false then
    ⟨Except.error (WrapperError.gpuMemory, "Not enough memory on GPU for source block sizes"),
      false⟩
  -- srcPosInterpGpu.Transfer(srcPosInterp); if (srcBlkGpu.ptr == NULL)
  else if gpu.srcBlk == false then
    ⟨Except.error (WrapperError.gpuMemory,
      "Not enough memory on GPU for interpolation data for coorinate transformation"), false⟩
  else if gpu.kernelSucceeds == false then
    ⟨Except.error (WrapperError.gpuRuntimeError, "GPU calculation failed to run"), true⟩
  else
    ⟨Except.ok gpu.numGoodPixels, true⟩

/-- All buffers obtained except the interpolation data; the kernel run succeeds. -/
def interpTransferFailsImage : ImageGpuState := ⟨true, true, true, false, true, 42⟩

/-- All buffers obtained except the interpolation data; the kernel run succeeds. -/
def interpTransferFailsMaskedImage : MaskedImageGpuState :=
  ⟨true, true, true, true, true, true, true, false, true, 42⟩

/-! ## The Python name of a Transform class -/

/-- The name `pyClassName` of `declareTransform<FromEndpoint, ToEndpoint>`:
`"Transform" + FromEndpoint::getPrefix() + "To" + ToEndpoint::getPrefix()`; the
two prefixes (the endpoint classes are not in the sources) are parameters. -/
def pyClassName (fromPrefix toPrefix : String) : String :=
  "Transform" ++ fromPrefix ++ "To" ++ toPrefix

/-- The function `formatStr(self, pyClassName)`; `nIn` and `nOut` are
`frameSet->getNin()` and `frameSet->getNout()`. -/
def formatStr (nIn nOut : Nat) (pyClassName : String) : String :=
  pyClassName ++ "[" ++ toString nIn ++ "->" ++ toString nOut ++ "]"

/-- The function `declareTransform<FromEndpoint, ToEndpoint>(mod)`, as far as
names go: the class is registered in the module under `pyClassName`. -/
def declareTransform (mod : List String) (fromPrefix toPrefix : String) : List String :=
  mod ++ [pyClassName fromPrefix toPrefix]

/-! ## TanWcsFormatter -/

/-- A value held by a `PropertySet`. -/
inductive PropertyValue
  | int (v : Int)
  | double (v : ℚ)
  | string (v : String)
deriving DecidableEq

/-- One `add` to a `PropertySet`: name, value and comment (empty when none). -/
structure Property where
  key : String
  value : PropertyValue
  comment : String
deriving DecidableEq

/-- A `PropertySet` / `PropertyList`: the entries added, in order. -/
abbrev PropertyList := List Property

/-- The call `props->add(name, value)`. -/
def PropertyList.add (props : PropertyList) (key : String) (value : PropertyValue) :
    PropertyList :=
  props ++ [⟨key, value, ""⟩]

/-- The call `props->add(name, value, comment)`. -/
def PropertyList.addWithComment (props : PropertyList) (key : String) (value : PropertyValue)
    (comment : String) : PropertyList :=
  props ++ [⟨key, value, comment⟩]

/-- A dynamic Eigen matrix: its dimensions and coefficients `m(i, j)`. -/
structure SipMatrix where
  rows : Nat
  cols : Nat
  coeff : Nat → Nat → ℚ

/-- The key `(boost::format("%1%_%2%_%3%") % which % i % j).str()`. -/
def sipKey (which : String) (i j : Nat) : String :=
  which ++ "_" ++ toString i ++ "_" ++ toString j

/-- The inner loop `for (j; j <= order; ++j)` of `encodeSipHeader` in row `i`, at
column `j` with `k` columns left. -/
def encodeSipRow (which : String) (m : SipMatrix) (i : Nat) :
    Nat → Nat → PropertyList → PropertyList
  | 0, _, wcsProps => wcsProps
  | k + 1, j, wcsProps =>
    encodeSipRow which m i k (j + 1)
      (if m.coeff i j ≠ 0 then wcsProps.add (sipKey which i j) (.double (m.coeff i j))
        else wcsProps)

/-- The outer loop `for (i; i <= order; ++i)` of `encodeSipHeader`, at row `i`
with `k` rows left; `order` is the decremented order. -/
def encodeSipRows (which : String) (m : SipMatrix) (order : Nat) :
    Nat → Nat → PropertyList → PropertyList
  | 0, _, wcsProps => wcsProps
  | k + 1, i, wcsProps =>
    encodeSipRows which m order k (i + 1) (encodeSipRow which m i (order + 1) 0 wcsProps)

/-- How `encodeSipHeader` ends. -/
inductive SipOutcome
  | ok
  | domainError (message : String)
deriving DecidableEq

/-- The function `encodeSipHeader(wcsProps, which, m)`: how it ends and the
property set it leaves. -/
def encodeSipHeader (wcsProps : PropertyList) (which : String) (m : SipMatrix) :
    SipOutcome × PropertyList :=
  let order := m.rows
  if m.cols ≠ order then
    (SipOutcome.domainError ("sip" ++ which ++ " matrix is not square"), wcsProps)
  else if order > 0 then
    let order1 := order - 1
    (SipOutcome.ok,
      encodeSipRows which m order1 (order1 + 1) 0
        (wcsProps.add (which ++ "_ORDER") (.int (order1 : Nat))))
  else (SipOutcome.ok, wcsProps)

/-- The entries `encodeSipHeader` adds after the order, in the claim's words: for
each `(i, j)` with `i, j < n`, row by row, the key `<which>_<i>_<j>` with value
`m(i, j)` when `m(i, j) ≠ 0`. -/
def sipEntries (which : String) (m : SipMatrix) (n : Nat) : PropertyList :=
  (List.range n).flatMap fun i =>
    ((List.range n).filter fun j => decide (m.coeff i j ≠ 0)).map fun j =>
      ⟨sipKey which i j, .double (m.coeff i j), ""⟩

/-- A 2×2 matrix with coefficients 0, 3 / 0, 5. -/
def sipExample : SipMatrix := ⟨2, 2, fun i j => if j = 0 then 0 else if i = 0 then 3 else 5⟩

/-- A 2×3 matrix. -/
def sipNotSquare : SipMatrix := ⟨2, 3, fun _ _ => 1⟩

/-- The empty matrix. -/
def sipEmpty : SipMatrix := ⟨0, 0, fun _ _ => 0⟩

/-- Whether `pat` occurs in `s` at position `i`. -/
def occursAt (s pat : List Char) (i : Nat) : Bool := pat.isPrefixOf (s.drop i)

/-- The call `s.rfind(pat)` of `std::string`: the position of the last occurrence
of `pat` in `s`, `none` for `npos`. -/
def rfind (s pat : String) : Option Nat :=
  (List.range (s.data.length + 1)).reverse.find? fun i => occursAt s.data pat.data i

/-- The fields of `wcsprm` that `generatePropertySet` reads. -/
structure WcsInfo where
  naxis : Int
  radesys : String
  equinox : ℚ
  crpix1 : ℚ
  crpix2 : ℚ
  cd11 : ℚ
  cd12 : ℚ
  cd21 : ℚ
  cd22 : ℚ
  crval1 : ℚ
  crval2 : ℚ
  cunit1 : String
  cunit2 : String
  ctype1 : String
  ctype2 : String

/-- The members of `image::TanWcs` that `generatePropertySet` reads; `wcsInfo` is
`none` when `_wcsInfo` is the null pointer, else `_wcsInfo[0]`. -/
structure TanWcs where
  wcsInfo : Option WcsInfo
  hasDistortion : Bool
  sipA : SipMatrix
  sipB : SipMatrix
  sipAp : SipMatrix
  sipBp : SipMatrix

/-- The statement `if (ctype.rfind("-SIP") == std::string::npos) ctype += "-SIP";`. -/
def appendSip (ctype : String) : String :=
  if rfind ctype "-SIP" = none then ctype ++ "-SIP" else ctype

/-- The four calls of `encodeSipHeader` for A, B, AP and BP; an exception of one
ends the sequence. -/
def encodeSipHeaders (wcsProps : PropertyList) (wcs : TanWcs) : Except String PropertyList :=
  match encodeSipHeader wcsProps "A" wcs.sipA with
  | (SipOutcome.domainError msg, _) => Except.error msg
  | (SipOutcome.ok, p1) =>
    match encodeSipHeader p1 "B" wcs.sipB with
    | (SipOutcome.domainError msg, _) => Except.error msg
    | (SipOutcome.ok, p2) =>
      match encodeSipHeader p2 "AP" wcs.sipAp with
      | (SipOutcome.domainError msg, _) => Except.error msg
      | (SipOutcome.ok, p3) =>
        match encodeSipHeader p3 "BP" wcs.sipBp with
        | (SipOutcome.domainError msg, _) => Except.error msg
        | (SipOutcome.ok, p4) => Except.ok p4

/-- The method `TanWcsFormatter::generatePropertySet(wcs)`: the property list it
returns, or the message of the exception that ends it. -/
def generatePropertySet (wcs : TanWcs) : Except String PropertyList :=
  let wcsProps : PropertyList := []
  match wcs.wcsInfo with
  | none => Except.ok wcsProps
  | some info =>
    let p := wcsProps.addWithComment "NAXIS" (.int info.naxis) "number of data axes"
    let p := if info.radesys.data.take 4 ≠ "ICRS".data then
        p.addWithComment "EQUINOX" (.double info.equinox) "Equinox of coordinates"
      else p
    let p := p.addWithComment "RADESYS" (.string info.radesys) "Coordinate system for equinox"
    let p := p.addWithComment "CRPIX1" (.double info.crpix1) "WCS Coordinate reference pixel"
    let p := p.addWithComment "CRPIX2" (.double info.crpix2) "WCS Coordinate reference pixel"
    let p := p.addWithComment "CD1_1" (.double info.cd11) "WCS Coordinate scale matrix"
    let p := p.addWithComment "CD1_2" (.double info.cd12) "WCS Coordinate scale matrix"
    let p := p.addWithComment "CD2_1" (.double info.cd21) "WCS Coordinate scale matrix"
    let p := p.addWithComment "CD2_2" (.double info.cd22) "WCS Coordinate scale matrix"
    let p := p.addWithComment "CRVAL1" (.double info.crval1)
      "WCS Ref value (RA in decimal degrees)"
    let p := p.addWithComment "CRVAL2" (.double info.crval2)
      "WCS Ref value (DEC in decimal degrees)"
    let p := p.add "CUNIT1" (.string info.cunit1)
    let p := p.add "CUNIT2" (.string info.cunit2)
    if wcs.hasDistortion then
      match encodeSipHeaders p wcs with
      | Except.error msg => Except.error msg
      | Except.ok p' =>
        Except.ok ((p'.addWithComment "CTYPE1" (.string (appendSip info.ctype1))
          "WCS Coordinate type").addWithComment "CTYPE2" (.string (appendSip info.ctype2))
          "WCS Coordinate type")
    else
      Except.ok ((p.addWithComment "CTYPE1" (.string info.ctype1)
        "WCS Coordinate type").addWithComment "CTYPE2" (.string info.ctype2)
        "WCS Coordinate type")

/-- A `wcsprm` with the given coordinate types, ICRS, unit scale. -/
def wcsInfoWith (ctype1 ctype2 : String) : WcsInfo :=
  ⟨2, "ICRS", 2000, 0, 0, 1, 0, 0, 1, 0, 0, "deg", "deg", ctype1, ctype2⟩

/-- A distorted Wcs with empty SIP matrices whose first coordinate type holds
`-SIP` before its end. -/
def wcsInnerSip : TanWcs :=
  ⟨some (wcsInfoWith "RA-SIP-X" "DEC--TAN"), true, sipEmpty, sipEmpty, sipEmpty, sipEmpty⟩

/-- A distorted Wcs with coordinate types `RA---TAN` and `DEC--TAN-SIP`. -/
def wcsTanSip : TanWcs :=
  ⟨some (wcsInfoWith "RA---TAN" "DEC--TAN-SIP"), true, sipExample, sipEmpty, sipEmpty, sipEmpty⟩

/-- Pixel `(x, y)` lies inside the image: `0 ≤ x < width` and `0 ≤ y < height`. -/
def Image.contains {α : Type} (img : Image α) (x y : Int) : Prop :=
  0 ≤ x ∧ x < img.width ∧ 0 ≤ y ∧ y < img.height

instance {α : Type} (img : Image α) (x y : Int) : Decidable (img.contains x y) := by
  unfold Image.contains; infer_instance

/-- Modelled from the spec: what "linear interpolation is adequate" for a region
at `maxInterpolationError` means, the adequacy test not being in the sources:
"the maximum pixel-wise deviation that linear (bilinear) interpolation between
those corners would introduce relative to the exact kernel" is at most
`maxInterpolationError`, at every pixel of the region and for every weight. -/
def KernelImagesForRegion.interpolationWithin (region : KernelImagesForRegion)
    (maxInterpolationError : ℚ) : Prop :=
  ∀ c r : Nat, (c : Int) < region.bbox.width → (r : Int) < region.bbox.height →
    ∀ i j : Nat, i < region.kernel.width → j < region.kernel.height →
      |bilinear ((c : ℚ) / ((region.bbox.width : ℚ) - 1))
          ((r : ℚ) / ((region.bbox.height : ℚ) - 1))
          (region.getImage .BOTTOM_LEFT) (region.getImage .BOTTOM_RIGHT)
          (region.getImage .TOP_LEFT) (region.getImage .TOP_RIGHT) i j -
        region.kernel.computeImage (region.bbox.minX + c) (region.bbox.minY + r)
          region.doNormalize i j| ≤ maxInterpolationError

/-- Modelled from the spec: what the adequacy test, which is not in the sources,
promises for a region it accepts: linear interpolation is adequate on each of
the four subregions, which are the regions interpolated ("adequacy at the
parent implies adequacy at children of equal-or-finer resolution"). -/
def KernelImagesForRegion.adequacyIsSound (region : KernelImagesForRegion)
    (maxInterpolationError : ℚ) : Prop :=
  region.isInterpolationOk maxInterpolationError = true →
    ∀ q ∈ region.getSubregions, q.interpolationWithin maxInterpolationError

/-! ## The sweep in closed form -/

theorem Image.set_pix {α : Type} (img : Image α) (x y x' y' : Int) (v : α) :
    (img.set x y v).pix x' y' = if x' = x ∧ y' = y then v else img.pix x' y' := rfl

theorem sweepRow_kernelImage {α β : Type}
    (conv : (Int → Int → β) → Int → Int → KernelImage → Nat → Nat → α)
    (inView : Int → Int → β) (outBBox : BoxI) (kWidth kHeight : Nat) (row : Int)
    (delta : KernelImage) (n : Nat) (col locX locY : Int) (outImage : Image α)
    (kernelImage : KernelImage) :
    (sweepRow conv inView outBBox kWidth kHeight row delta n col locX locY outImage
      kernelImage).2 = fun i j => kernelImage i j + (n : ℚ) * delta i j := by
  induction n generalizing col locX outImage kernelImage with
  | zero => funext i j; simp [sweepRow]
  | succ n ih =>
    rw [sweepRow, ih]
    funext i j
    simp only [plusAssign]
    push_cast
    ring

theorem sweepRow_pix {α β : Type}
    (conv : (Int → Int → β) → Int → Int → KernelImage → Nat → Nat → α)
    (inView : Int → Int → β) (outBBox : BoxI) (kWidth kHeight : Nat) (row : Int)
    (delta : KernelImage) (n : Nat) (col locX locY : Int) (outImage : Image α)
    (kernelImage : KernelImage) (x y : Int) :
    (sweepRow conv inView outBBox kWidth kHeight row delta n col locX locY outImage
      kernelImage).1.pix x y =
      if y = outBBox.minY + row ∧ outBBox.minX + col ≤ x ∧ x < outBBox.minX + col + n then
        conv inView (locX + (x - outBBox.minX - col)) locY
          (fun i j => kernelImage i j + ((x - outBBox.minX - col : Int) : ℚ) * delta i j)
          kWidth kHeight
      else outImage.pix x y := by
  induction n generalizing col locX outImage kernelImage with
  | zero =>
    rw [sweepRow]
    have : ¬ (y = outBBox.minY + row ∧ outBBox.minX + col ≤ x ∧
        x < outBBox.minX + col + ((0 : Nat) : Int)) := by
      push_cast; omega
    rw [if_neg this]
  | succ n ih =>
    rw [sweepRow, ih, Image.set_pix]
    by_cases hy : y = outBBox.minY + row
    · by_cases hx : x = outBBox.minX + col
      · subst hx
        have h1 : ¬ (y = outBBox.minY + row ∧ outBBox.minX + (col + 1) ≤ outBBox.minX + col ∧
            outBBox.minX + col < outBBox.minX + (col + 1) + (n : Int)) := by omega
        have h2 : (y = outBBox.minY + row ∧ outBBox.minX + col ≤ outBBox.minX + col ∧
            outBBox.minX + col < outBBox.minX + col + ((n + 1 : Nat) : Int)) := by
          push_cast; omega
        rw [if_neg h1, if_pos h2, if_pos ⟨rfl, hy⟩]
        have e1 : locX + (outBBox.minX + col - outBBox.minX - col) = locX := by omega
        have e2 : (fun i j => kernelImage i j +
            ((outBBox.minX + col - outBBox.minX - col : Int) : ℚ) * delta i j) = kernelImage := by
          funext i j
          have : outBBox.minX + col - outBBox.minX - col = 0 := by omega
          rw [this]; simp
        rw [e1, e2]
      · by_cases hin : outBBox.minX + (col + 1) ≤ x ∧ x < outBBox.minX + (col + 1) + (n : Int)
        · have h2 : (y = outBBox.minY + row ∧ outBBox.minX + col ≤ x ∧
              x < outBBox.minX + col + ((n + 1 : Nat) : Int)) := by
            push_cast; omega
          rw [if_pos ⟨hy, hin⟩, if_pos h2]
          have e1 : locX + 1 + (x - outBBox.minX - (col + 1)) = locX + (x - outBBox.minX - col) := by
            omega
          have e2 : (fun i j => plusAssign kernelImage delta i j +
              ((x - outBBox.minX - (col + 1) : Int) : ℚ) * delta i j) =
              (fun i j => kernelImage i j + ((x - outBBox.minX - col : Int) : ℚ) * delta i j) := by
            funext i j
            simp only [plusAssign]
            push_cast
            ring
          rw [e1, e2]
        · have h1 : ¬ (y = outBBox.minY + row ∧ outBBox.minX + (col + 1) ≤ x ∧
              x < outBBox.minX + (col + 1) + (n : Int)) := fun h => hin h.2
          have h2 : ¬ (y = outBBox.minY + row ∧ outBBox.minX + col ≤ x ∧
              x < outBBox.minX + col + ((n + 1 : Nat) : Int)) := by
            push_cast; omega
          rw [if_neg h1, if_neg h2, if_neg (fun h => hx h.1)]
    · have h1 : ¬ (y = outBBox.minY + row ∧ outBBox.minX + (col + 1) ≤ x ∧
          x < outBBox.minX + (col + 1) + (n : Int)) := fun h => hy h.1
      have h2 : ¬ (y = outBBox.minY + row ∧ outBBox.minX + col ≤ x ∧
          x < outBBox.minX + col + ((n + 1 : Nat) : Int)) := fun h => hy h.1
      rw [if_neg h1, if_neg h2, if_neg (fun h => hy h.2)]

theorem sweepRows_pix {α β : Type}
    (conv : (Int → Int → β) → Int → Int → KernelImage → Nat → Nat → α)
    (inView : Int → Int → β) (outBBox : BoxI) (kWidth kHeight : Nat) (xfrac : ℚ)
    (leftDelta rightDelta : KernelImage) (width : Nat) (height : Int) (n : Nat) :
    ∀ (row : Int) (outImage : Image α) (left right : KernelImage)
      (fits : List (String × KernelImage)) (x y : Int),
      (height - row).toNat = n →
      (sweepRows conv inView outBBox kWidth kHeight xfrac leftDelta rightDelta width height row
        outImage left right left fits).outImage.pix x y =
      if outBBox.minX ≤ x ∧ x < outBBox.minX + width ∧ outBBox.minY + row ≤ y ∧
          y < outBBox.minY + max height (row + 1) then
        conv inView (y - outBBox.minY + (x - outBBox.minX)) 0
          (sweptKernelImage xfrac leftDelta rightDelta left right (x - outBBox.minX)
            (y - outBBox.minY - row)) kWidth kHeight
      else outImage.pix x y := by
  have hrow : ∀ (row : Int) (outImage : Image α) (left right : KernelImage) (x y : Int),
      (sweepRow conv inView outBBox kWidth kHeight row
          (scaledPlus xfrac right (-xfrac) left) width 0 row 0 outImage left).1.pix x y =
        if y = outBBox.minY + row ∧ outBBox.minX ≤ x ∧ x < outBBox.minX + width then
          conv inView (y - outBBox.minY + (x - outBBox.minX)) 0
            (sweptKernelImage xfrac leftDelta rightDelta left right (x - outBBox.minX) 0)
            kWidth kHeight
        else outImage.pix x y := by
    intro row outImage left right x y
    rw [sweepRow_pix]
    by_cases h : y = outBBox.minY + row ∧ outBBox.minX ≤ x ∧ x < outBBox.minX + width
    · have h' : y = outBBox.minY + row ∧ outBBox.minX + 0 ≤ x ∧
          x < outBBox.minX + 0 + (width : Int) := by omega
      rw [if_pos h, if_pos h']
      have e1 : row + (x - outBBox.minX - 0) = y - outBBox.minY + (x - outBBox.minX) := by omega
      have e2 : (fun i j => left i j + ((x - outBBox.minX - 0 : Int) : ℚ) *
          scaledPlus xfrac right (-xfrac) left i j) =
          sweptKernelImage xfrac leftDelta rightDelta left right (x - outBBox.minX) 0 := by
        funext i j
        simp only [sweptKernelImage, scaledPlus, sub_zero]
        push_cast
        ring
      rw [e1, e2]
    · have h' : ¬ (y = outBBox.minY + row ∧ outBBox.minX + 0 ≤ x ∧
          x < outBBox.minX + 0 + (width : Int)) := by omega
      rw [if_neg h, if_neg h']
  have hlastCase : ∀ (row : Int) (outImage : Image α) (left right : KernelImage)
      (fits : List (String × KernelImage)) (x y : Int), row + 1 ≥ height →
      (sweepRows conv inView outBBox kWidth kHeight xfrac leftDelta rightDelta width height row
        outImage left right left fits).outImage.pix x y =
      if outBBox.minX ≤ x ∧ x < outBBox.minX + width ∧ outBBox.minY + row ≤ y ∧
          y < outBBox.minY + max height (row + 1) then
        conv inView (y - outBBox.minY + (x - outBBox.minX)) 0
          (sweptKernelImage xfrac leftDelta rightDelta left right (x - outBBox.minX)
            (y - outBBox.minY - row)) kWidth kHeight
      else outImage.pix x y := by
    intro row outImage left right fits x y hlast
    rw [sweepRows]
    simp only []
    rw [if_pos hlast]
    simp only []
    rw [hrow]
    by_cases h : y = outBBox.minY + row ∧ outBBox.minX ≤ x ∧ x < outBBox.minX + width
    · have h' : outBBox.minX ≤ x ∧ x < outBBox.minX + width ∧ outBBox.minY + row ≤ y ∧
          y < outBBox.minY + max height (row + 1) := by omega
      have e : y - outBBox.minY - row = 0 := by omega
      rw [if_pos h, if_pos h', e]
    · have h' : ¬ (outBBox.minX ≤ x ∧ x < outBBox.minX + width ∧ outBBox.minY + row ≤ y ∧
          y < outBBox.minY + max height (row + 1)) := by omega
      rw [if_neg h, if_neg h']
  induction n with
  | zero =>
    intro row outImage left right fits x y hn
    exact hlastCase row outImage left right fits x y (by omega)
  | succ n ih =>
    intro row outImage left right fits x y hn
    by_cases hlast : row + 1 ≥ height
    · exact hlastCase row outImage left right fits x y hlast
    · rw [sweepRows]
      simp only []
      rw [if_neg hlast]
      rw [ih (row + 1) _ _ _ _ x y (by omega), hrow]
      by_cases hup : outBBox.minX ≤ x ∧ x < outBBox.minX + width ∧ outBBox.minY + (row + 1) ≤ y ∧
          y < outBBox.minY + max height (row + 1 + 1)
      · have h' : outBBox.minX ≤ x ∧ x < outBBox.minX + width ∧ outBBox.minY + row ≤ y ∧
            y < outBBox.minY + max height (row + 1) := by omega
        rw [if_pos hup, if_pos h']
        congr 1
        funext i j
        simp only [sweptKernelImage, plusAssign]
        push_cast
        ring
      · rw [if_neg hup]
        by_cases h : y = outBBox.minY + row ∧ outBBox.minX ≤ x ∧ x < outBBox.minX + width
        · have h' : outBBox.minX ≤ x ∧ x < outBBox.minX + width ∧ outBBox.minY + row ≤ y ∧
              y < outBBox.minY + max height (row + 1) := by omega
          have e : y - outBBox.minY - row = 0 := by omega
          rw [if_pos h, if_pos h', e]
        · have h' : ¬ (outBBox.minX ≤ x ∧ x < outBBox.minX + width ∧ outBBox.minY + row ≤ y ∧
              y < outBBox.minY + max height (row + 1)) := by omega
          rw [if_neg h, if_neg h']

/-- Pixels the sweep does not touch: those outside the columns of the region's
box or outside its rows, the rows counting at least one (row 0 is swept before
the height is looked at). -/
theorem convolveRegionWithInterpolationWith_frame {α β : Type}
    (conv : (Int → Int → β) → Int → Int → KernelImage → Nat → Nat → α)
    (outImage : Image α) (inImage : Image β) (region : KernelImagesForRegion) (x y : Int)
    (hout : ¬ (region.bbox.minX ≤ x ∧ x < region.bbox.minX + region.bbox.width ∧
      region.bbox.minY ≤ y ∧ y < region.bbox.minY + max region.bbox.height 1)) :
    (convolveRegionWithInterpolationWith conv outImage inImage region).outImage.pix x y =
      outImage.pix x y := by
  unfold convolveRegionWithInterpolationWith
  simp only []
  rw [sweepRows_pix conv _ _ _ _ _ _ _ _ _ (region.bbox.height - 0).toNat 0 _ _ _ _ x y rfl]
  have h2 : ¬ (region.bbox.minX ≤ x ∧ x < region.bbox.minX + (region.bbox.width.toNat : Int) ∧
      region.bbox.minY + 0 ≤ y ∧ y < region.bbox.minY + max region.bbox.height (0 + 1)) := by
    omega
  rw [if_neg h2]

/-- Every pixel after `convolveRegionWithInterpolation`, for a region of positive
height: inside the region's box it is `conv` at the locator `(r + c, 0)` with the
swept kernel image, elsewhere it is what it was. -/
theorem convolveRegionWithInterpolationWith_pix {α β : Type}
    (conv : (Int → Int → β) → Int → Int → KernelImage → Nat → Nat → α)
    (outImage : Image α) (inImage : Image β) (region : KernelImagesForRegion)
    (hH : 0 < region.bbox.height) (x y : Int) :
    (convolveRegionWithInterpolationWith conv outImage inImage region).outImage.pix x y =
      if region.bbox.contains x y then
        conv (inImage.view (region.kernel.growBBox region.bbox))
          (y - region.bbox.minY + (x - region.bbox.minX)) 0
          (sweptKernelImage (1 / ((region.bbox.width - 1 : Int) : ℚ))
            (scaledPlus (1 / ((region.bbox.height - 1 : Int) : ℚ)) (region.getImage .TOP_LEFT)
              (-(1 / ((region.bbox.height - 1 : Int) : ℚ))) (region.getImage .BOTTOM_LEFT))
            (scaledPlus (1 / ((region.bbox.height - 1 : Int) : ℚ)) (region.getImage .TOP_RIGHT)
              (-(1 / ((region.bbox.height - 1 : Int) : ℚ))) (region.getImage .BOTTOM_RIGHT))
            (region.getImage .BOTTOM_LEFT) (region.getImage .BOTTOM_RIGHT)
            (x - region.bbox.minX) (y - region.bbox.minY))
          region.kernel.width region.kernel.height
      else outImage.pix x y := by
  unfold convolveRegionWithInterpolationWith
  simp only []
  rw [sweepRows_pix conv _ _ _ _ _ _ _ _ _ (region.bbox.height - 0).toNat 0 _ _ _ _ x y rfl]
  by_cases h : region.bbox.contains x y
  · have h' := h
    unfold BoxI.contains at h'
    have h2 : region.bbox.minX ≤ x ∧ x < region.bbox.minX + (region.bbox.width.toNat : Int) ∧
        region.bbox.minY + 0 ≤ y ∧ y < region.bbox.minY + max region.bbox.height (0 + 1) := by
      omega
    rw [if_pos h, if_pos h2, sub_zero]
  · have h' := h
    unfold BoxI.contains at h'
    have h2 : ¬ (region.bbox.minX ≤ x ∧ x < region.bbox.minX + (region.bbox.width.toNat : Int) ∧
        region.bbox.minY + 0 ≤ y ∧ y < region.bbox.minY + max region.bbox.height (0 + 1)) := by
      omega
    rw [if_neg h, if_neg h2]

/-- The swept kernel image is the bilinear blend of the corners when both
divisors are non-zero. -/
theorem sweptKernelImage_eq_bilinear (w h : Int) (hw : 2 ≤ w) (hh : 2 ≤ h)
    (bl br tl tr : KernelImage) (dx dy : Int) :
    sweptKernelImage (1 / ((w - 1 : Int) : ℚ))
      (scaledPlus (1 / ((h - 1 : Int) : ℚ)) tl (-(1 / ((h - 1 : Int) : ℚ))) bl)
      (scaledPlus (1 / ((h - 1 : Int) : ℚ)) tr (-(1 / ((h - 1 : Int) : ℚ))) br)
      bl br dx dy =
    bilinear ((dx : ℚ) / ((w : ℚ) - 1)) ((dy : ℚ) / ((h : ℚ) - 1)) bl br tl tr := by
  have hw' : ((w : ℚ) - 1) ≠ 0 := by
    have : (2 : ℚ) ≤ (w : ℚ) := by exact_mod_cast hw
    linarith
  have hh' : ((h : ℚ) - 1) ≠ 0 := by
    have : (2 : ℚ) ≤ (h : ℚ) := by exact_mod_cast hh
    linarith
  funext i j
  simp only [sweptKernelImage, scaledPlus, bilinear]
  push_cast
  field_simp
  ring

theorem kernelImageUsed_eq (region : KernelImagesForRegion) (c r : Nat)
    (hW : 2 ≤ region.bbox.width) (hH : 2 ≤ region.bbox.height)
    (hc : (c : Int) < region.bbox.width) (hr : (r : Int) < region.bbox.height) :
    kernelImageUsed region c r =
      bilinear ((c : ℚ) / ((region.bbox.width : ℚ) - 1)) ((r : ℚ) / ((region.bbox.height : ℚ) - 1))
        (region.getImage .BOTTOM_LEFT) (region.getImage .BOTTOM_RIGHT)
        (region.getImage .TOP_LEFT) (region.getImage .TOP_RIGHT) := by
  unfold kernelImageUsed
  rw [convolveRegionWithInterpolationWith_pix _ _ _ _ (by omega)]
  have hin : region.bbox.contains (region.bbox.minX + c) (region.bbox.minY + r) := by
    unfold BoxI.contains; omega
  rw [if_pos hin, sweptKernelImage_eq_bilinear _ _ hW hH]
  simp

/-! ## Claims about convolveRegionWithInterpolation -/

/-- C1 (code defect): on the 2×2 region at the origin, unit 1×1 kernel, input
`rampY` (pixel `(x, y)` holds `y`), the sweep computes output pixel `(0, 1)` with
the input locator at `(1, 0)` and writes `0`, whereas the dot product of the
kernel image used there with the block at view position `x = 0, y = 1` is `1`. -/
theorem C1_second_row_reads_first_row :
    locatorUsed region22 0 1 = (1, 0) ∧
    (convolveRegionWithInterpolation zeroImage rampY region22).outImage.pix 0 1 = 0 ∧
    convolveAtAPoint (rampY.view (region22.kernel.growBBox region22.bbox)) 0 1
      (kernelImageUsed region22 0 1) region22.kernel.width region22.kernel.height = 1 := by
  have hH : 0 < region22.bbox.height := by decide
  have hin : region22.bbox.contains 0 1 := by decide
  refine ⟨?_, ?_, ?_⟩
  · have := convolveRegionWithInterpolationWith_pix (fun _ locX locY _ _ _ => (locX, locY))
      (⟨0, 0, fun _ _ => (0, 0)⟩ : Image (Int × Int)) (⟨0, 0, fun _ _ => ()⟩ : Image Unit)
      region22 hH 0 1
    rw [if_pos hin] at this
    simpa [locatorUsed, region22] using this
  · unfold convolveRegionWithInterpolation
    rw [convolveRegionWithInterpolationWith_pix _ _ _ _ hH, if_pos hin]
    simp [convolveAtAPoint, region22, unitKernel, rampY, Image.view, Kernel.growBBox]
  · rw [kernelImageUsed_eq region22 0 1 (by decide) (by decide) (by decide) (by decide)]
    simp [convolveAtAPoint, region22, unitKernel, rampY, Image.view, Kernel.growBBox, bilinear,
      KernelImagesForRegion.getImage]

/-- C2: in a region of width `W ≥ 2` and height `H ≥ 2`, the kernel image used at
output pixel `(c, r)` is the bilinear interpolation of the four corner images
with `u = c/(W-1)`, `v = r/(H-1)`; at the four corner pixels it is the corner
image itself. -/
theorem C2_kernel_image_is_bilinear (region : KernelImagesForRegion) (c r : Nat)
    (hW : 2 ≤ region.bbox.width) (hH : 2 ≤ region.bbox.height)
    (hc : (c : Int) < region.bbox.width) (hr : (r : Int) < region.bbox.height) :
    kernelImageUsed region c r =
      bilinear ((c : ℚ) / ((region.bbox.width : ℚ) - 1)) ((r : ℚ) / ((region.bbox.height : ℚ) - 1))
        (region.getImage .BOTTOM_LEFT) (region.getImage .BOTTOM_RIGHT)
        (region.getImage .TOP_LEFT) (region.getImage .TOP_RIGHT) ∧
    kernelImageUsed region 0 0 = region.getImage .BOTTOM_LEFT ∧
    kernelImageUsed region (region.bbox.width - 1).toNat 0 = region.getImage .BOTTOM_RIGHT ∧
    kernelImageUsed region 0 (region.bbox.height - 1).toNat = region.getImage .TOP_LEFT ∧
    kernelImageUsed region (region.bbox.width - 1).toNat (region.bbox.height - 1).toNat =
      region.getImage .TOP_RIGHT := by
  have hw' : ((region.bbox.width : ℚ) - 1) ≠ 0 := by
    have : (2 : ℚ) ≤ (region.bbox.width : ℚ) := by exact_mod_cast hW
    linarith
  have hh' : ((region.bbox.height : ℚ) - 1) ≠ 0 := by
    have : (2 : ℚ) ≤ (region.bbox.height : ℚ) := by exact_mod_cast hH
    linarith
  have cw : (((region.bbox.width - 1).toNat : Nat) : ℚ) = (region.bbox.width : ℚ) - 1 := by
    have : (((region.bbox.width - 1).toNat : Nat) : Int) = region.bbox.width - 1 :=
      Int.toNat_of_nonneg (by omega)
    have h2 := congrArg (fun z : Int => (z : ℚ)) this
    simpa using h2
  have ch : (((region.bbox.height - 1).toNat : Nat) : ℚ) = (region.bbox.height : ℚ) - 1 := by
    have : (((region.bbox.height - 1).toNat : Nat) : Int) = region.bbox.height - 1 :=
      Int.toNat_of_nonneg (by omega)
    have h2 := congrArg (fun z : Int => (z : ℚ)) this
    simpa using h2
  refine ⟨kernelImageUsed_eq region c r hW hH hc hr, ?_, ?_, ?_, ?_⟩
  · rw [kernelImageUsed_eq region 0 0 hW hH (by omega) (by omega)]
    funext i j; simp [bilinear]
  · rw [kernelImageUsed_eq region _ 0 hW hH (by omega) (by omega), cw]
    funext i j; simp [bilinear, div_self hw']
  · rw [kernelImageUsed_eq region 0 _ hW hH (by omega) (by omega), ch]
    funext i j; simp [bilinear, div_self hh']
  · rw [kernelImageUsed_eq region _ _ hW hH (by omega) (by omega), cw, ch]
    funext i j; simp [bilinear, div_self hw', div_self hh']

/-- C2 at a concrete region: the 3×4 region at (5, 7) under a kernel whose
weights vary with position, output pixel (1, 2). -/
theorem C2_kernel_image_is_bilinear_witness :
    kernelImageUsed region34 1 2 =
      bilinear (((1 : Nat) : ℚ) / ((region34.bbox.width : ℚ) - 1))
        (((2 : Nat) : ℚ) / ((region34.bbox.height : ℚ) - 1))
        (region34.getImage .BOTTOM_LEFT) (region34.getImage .BOTTOM_RIGHT)
        (region34.getImage .TOP_LEFT) (region34.getImage .TOP_RIGHT) ∧
    kernelImageUsed region34 0 0 = region34.getImage .BOTTOM_LEFT ∧
    kernelImageUsed region34 (region34.bbox.width - 1).toNat 0 =
      region34.getImage .BOTTOM_RIGHT ∧
    kernelImageUsed region34 0 (region34.bbox.height - 1).toNat = region34.getImage .TOP_LEFT ∧
    kernelImageUsed region34 (region34.bbox.width - 1).toNat (region34.bbox.height - 1).toNat =
      region34.getImage .TOP_RIGHT :=
  C2_kernel_image_is_bilinear region34 1 2 (by decide) (by decide) (by decide) (by decide)

theorem kernelSum_bilinear (u v : ℚ) (bl br tl tr : KernelImage) (kWidth kHeight : Nat) :
    kernelSum (bilinear u v bl br tl tr) kWidth kHeight =
      (1 - v) * ((1 - u) * kernelSum bl kWidth kHeight + u * kernelSum br kWidth kHeight) +
        v * ((1 - u) * kernelSum tl kWidth kHeight + u * kernelSum tr kWidth kHeight) := by
  simp only [kernelSum, bilinear, Finset.sum_add_distrib, ← Finset.mul_sum]

/-- C8: when the four corner kernel images of a region each sum to 1 (what
`doNormalize` gives), the kernel image used at every output pixel of a region
with `W, H ≥ 2` has weights that sum to 1. -/
theorem C8_interpolated_kernel_sums_to_one (region : KernelImagesForRegion) (c r : Nat)
    (hW : 2 ≤ region.bbox.width) (hH : 2 ≤ region.bbox.height)
    (hc : (c : Int) < region.bbox.width) (hr : (r : Int) < region.bbox.height)
    (hnorm : ∀ loc : Location,
      kernelSum (region.getImage loc) region.kernel.width region.kernel.height = 1) :
    kernelSum (kernelImageUsed region c r) region.kernel.width region.kernel.height = 1 := by
  rw [kernelImageUsed_eq region c r hW hH hc hr, kernelSum_bilinear, hnorm, hnorm, hnorm, hnorm]
  ring

/-- C8 at a concrete region: the 3×3 region under a 2×1 kernel whose weights sum
to 1 at every position, output pixel (1, 2). -/
theorem C8_interpolated_kernel_sums_to_one_witness :
    (∀ loc : Location,
      kernelSum (region33.getImage loc) region33.kernel.width region33.kernel.height = 1) ∧
    kernelSum (kernelImageUsed region33 1 2) region33.kernel.width region33.kernel.height = 1 :=
  have hnorm : ∀ loc : Location,
      kernelSum (region33.getImage loc) region33.kernel.width region33.kernel.height = 1 := by
    intro loc
    cases loc <;>
      simp [kernelSum, KernelImagesForRegion.getImage, region33, normalizedKernel,
        Finset.sum_range_succ]
  ⟨hnorm, C8_interpolated_kernel_sums_to_one region33 1 2 (by decide) (by decide) (by decide)
    (by decide) hnorm⟩

/-! ## Claims about the recursive solver and the driver -/

theorem any_lt_make (b : BoxI) (m : Int) :
    any (b.getDimensions.lt (Extent2I.make m)) = true ↔ (b.width < m ∨ b.height < m) := by
  simp [any, anyLoop, CoordinateExpr2.get, Extent2I.lt, Extent2I.make, BoxI.getDimensions]

theorem getSubregions_eq (region : KernelImagesForRegion) :
    region.getSubregions =
      [region.cell 2 2 0 0, region.cell 2 2 1 0, region.cell 2 2 0 1, region.cell 2 2 1 1] := rfl

theorem foldlM_four {σ ρ : Type} (f : σ → ρ → Option σ) (s : σ) (a b c d : ρ) :
    [a, b, c, d].foldlM f s =
      (f s a).bind fun s0 => (f s0 b).bind fun s1 => (f s1 c).bind fun s2 => f s2 d := by
  simp only [List.foldlM, Option.bind_eq_bind, bind_pure]

/-- C3: the branch order of `convolveRegionWithRecursiveInterpolation`. The
region has four subregions; when its width or height is below the minimum
interpolation size the only effect is one brute-force call on the region;
otherwise, when `isInterpolationOk(maxInterpolationError)` holds, the effect is
one `convolveRegionWithInterpolation` call on each subregion in turn; otherwise
it is one recursive call on each subregion in turn with the same error bound. -/
theorem C3_branch_order (fuel : Nat) (st : ConvState) (inImage : Image ℚ)
    (region : KernelImagesForRegion) (maxInterpolationError : ℚ) :
    ∃ c0 c1 c2 c3 : KernelImagesForRegion,
      region.getSubregions = [c0, c1, c2, c3] ∧
      (st.bruteForce inImage region).calls = st.calls ++ [Call.bruteForce region] ∧
      ((((st.interpolation inImage c0).interpolation inImage c1).interpolation inImage
          c2).interpolation inImage c3).calls =
        st.calls ++ [Call.interpolation c0, Call.interpolation c1, Call.interpolation c2,
          Call.interpolation c3] ∧
      convolveRegionWithRecursiveInterpolation (fuel + 1) st inImage region
          maxInterpolationError =
        if region.bbox.width < region.getMinInterpolationSize ∨
            region.bbox.height < region.getMinInterpolationSize then
          some (st.bruteForce inImage region)
        else if region.isInterpolationOk maxInterpolationError = true then
          some ((((st.interpolation inImage c0).interpolation inImage c1).interpolation inImage
            c2).interpolation inImage c3)
        else
          (convolveRegionWithRecursiveInterpolation fuel st inImage c0
            maxInterpolationError).bind fun s0 =>
          (convolveRegionWithRecursiveInterpolation fuel s0 inImage c1
            maxInterpolationError).bind fun s1 =>
          (convolveRegionWithRecursiveInterpolation fuel s1 inImage c2
            maxInterpolationError).bind fun s2 =>
          convolveRegionWithRecursiveInterpolation fuel s2 inImage c3 maxInterpolationError := by
  refine ⟨_, _, _, _, getSubregions_eq region, rfl, ?_, ?_⟩
  · simp [ConvState.interpolation]
  · rw [convolveRegionWithRecursiveInterpolation, getSubregions_eq]
    by_cases hsmall : region.bbox.width < region.getMinInterpolationSize ∨
        region.bbox.height < region.getMinInterpolationSize
    · rw [if_pos ((any_lt_make _ _).2 hsmall), if_pos hsmall]
    · rw [if_neg (fun h => hsmall ((any_lt_make _ _).1 h)), if_neg hsmall]
      by_cases hok : region.isInterpolationOk maxInterpolationError = true
      · rw [if_pos hok, if_pos hok]
        rfl
      · rw [if_neg hok, if_neg hok, foldlM_four]

/-- C4: when the dimensions of `outImage` and `inImage` differ,
`convolveWithInterpolation` ends with the invalid-parameter error and the output
image it was given, no call made; when they are equal the call does not end
with that error. -/
theorem C4_dimension_check (fuel : Nat) (outImage inImage : Image ℚ) (kernel : Kernel)
    (ctrl : ConvolutionControl) :
    ((outImage.width, outImage.height) ≠ (inImage.width, inImage.height) →
      convolveWithInterpolation fuel outImage inImage kernel ctrl =
        some (Outcome.invalidParameter, ⟨outImage, []⟩)) ∧
    ((outImage.width, outImage.height) = (inImage.width, inImage.height) →
      ∀ r, convolveWithInterpolation fuel outImage inImage kernel ctrl = some r →
        r.1 ≠ Outcome.invalidParameter) := by
  constructor
  · intro h
    rw [convolveWithInterpolation, if_pos h]
  · intro h r hr
    rw [convolveWithInterpolation, if_neg (fun hne => hne h)] at hr
    by_cases hd : ctrl.maxInterpolationDistance = 0
    · rw [if_pos hd] at hr
      cases hr
      simp
    · rw [if_neg hd] at hr
      rcases Option.map_eq_some'.1 hr with ⟨s, _, hs⟩
      rw [← hs]
      simp

/-- C4 at concrete images: a 2×2 output against a 3×3 input fails and leaves the
output image; a 2×2 output against a 2×2 input does not fail that way. -/
theorem C4_dimension_check_witness :
    convolveWithInterpolation 5 zeroImage zeroImage33 (unitKernel 2 true) control10 =
      some (Outcome.invalidParameter, ⟨zeroImage, []⟩) ∧
    ∀ r, convolveWithInterpolation 5 zeroImage rampY (unitKernel 2 true) control10 = some r →
      r.1 ≠ Outcome.invalidParameter :=
  ⟨(C4_dimension_check 5 zeroImage zeroImage33 (unitKernel 2 true) control10).1 (by decide),
    (C4_dimension_check 5 zeroImage rampY (unitKernel 2 true) control10).2 (by decide)⟩

/-! ## Claims about the grid of the driver -/

theorem floor_div_eq_ediv (w d : Int) (hd : 1 ≤ d) : ⌊(w : ℚ) / (d : ℚ)⌋ = w / d := by
  obtain ⟨n, rfl⟩ := Int.eq_ofNat_of_zero_le (show 0 ≤ d by omega)
  have := Rat.floor_intCast_div_natCast w n
  simpa using this

theorem subregionCount_eq_floor (w d : Int) (hw : 0 ≤ w) (hd : 1 ≤ d) :
    subregionCount w d = 1 + ⌊(w : ℚ) / (d : ℚ)⌋ := by
  rw [subregionCount, Int.tdiv_eq_ediv hw (by omega), floor_div_eq_ediv w d hd]

theorem length_grid {ρ : Type} (f : Nat → Nat → ρ) (k m : Nat) :
    ((List.range m).flatMap fun iy => (List.range k).map fun ix => f ix iy).length = k * m := by
  induction m with
  | zero => simp
  | succ m ih =>
    rw [List.range_succ, List.flatMap_append, List.length_append, ih]
    simp [Nat.mul_succ]

theorem length_getSubregionsGrid (region : KernelImagesForRegion) (nx ny : Int) :
    (region.getSubregionsGrid nx ny).length = nx.toNat * ny.toNat :=
  length_grid (fun ix iy => region.cell nx.toNat ny.toNat ix iy) nx.toNat ny.toNat

/-- C5: for a good box of width `w ≥ 0` and height `h ≥ 0` and
`maxInterpolationDistance = d ≥ 1`, the regions `convolveWithInterpolation` works
through are the `nx × ny` grid over the good region with `nx = 1 + ⌊w / d⌋` and
`ny = 1 + ⌊h / d⌋`, `nx * ny` cells in all. -/
theorem C5_grid_counts (fuel : Nat) (outImage inImage : Image ℚ) (kernel : Kernel)
    (ctrl : ConvolutionControl)
    (hdim : (outImage.width, outImage.height) = (inImage.width, inImage.height))
    (hw : 0 ≤ (goodBBox outImage kernel).width) (hh : 0 ≤ (goodBBox outImage kernel).height)
    (hd : 1 ≤ ctrl.maxInterpolationDistance) :
    subregionCount (goodBBox outImage kernel).width ctrl.maxInterpolationDistance =
      1 + ⌊((goodBBox outImage kernel).width : ℚ) / (ctrl.maxInterpolationDistance : ℚ)⌋ ∧
    subregionCount (goodBBox outImage kernel).height ctrl.maxInterpolationDistance =
      1 + ⌊((goodBBox outImage kernel).height : ℚ) / (ctrl.maxInterpolationDistance : ℚ)⌋ ∧
    subregionList outImage kernel ctrl =
      (⟨kernel, goodBBox outImage kernel, ctrl.doNormalize⟩ :
        KernelImagesForRegion).getSubregionsGrid
        (1 + ⌊((goodBBox outImage kernel).width : ℚ) / (ctrl.maxInterpolationDistance : ℚ)⌋)
        (1 + ⌊((goodBBox outImage kernel).height : ℚ) / (ctrl.maxInterpolationDistance : ℚ)⌋) ∧
    (subregionList outImage kernel ctrl).length =
      (1 + ⌊((goodBBox outImage kernel).width : ℚ) /
          (ctrl.maxInterpolationDistance : ℚ)⌋).toNat *
        (1 + ⌊((goodBBox outImage kernel).height : ℚ) /
          (ctrl.maxInterpolationDistance : ℚ)⌋).toNat ∧
    convolveWithInterpolation fuel outImage inImage kernel ctrl =
      ((subregionList outImage kernel ctrl).foldlM
        (fun s r => convolveRegionWithRecursiveInterpolation fuel s inImage r
          ctrl.maxInterpolationError) ⟨outImage, []⟩).map fun s => (Outcome.ok, s) := by
  have hx := subregionCount_eq_floor _ _ hw hd
  have hy := subregionCount_eq_floor _ _ hh hd
  have hlist : subregionList outImage kernel ctrl =
      (⟨kernel, goodBBox outImage kernel, ctrl.doNormalize⟩ :
        KernelImagesForRegion).getSubregionsGrid
        (1 + ⌊((goodBBox outImage kernel).width : ℚ) / (ctrl.maxInterpolationDistance : ℚ)⌋)
        (1 + ⌊((goodBBox outImage kernel).height : ℚ) / (ctrl.maxInterpolationDistance : ℚ)⌋) := by
    rw [← hx, ← hy]
    rfl
  refine ⟨hx, hy, hlist, ?_, ?_⟩
  · rw [hlist, length_getSubregionsGrid]
  · rw [convolveWithInterpolation, if_neg (fun hne => hne hdim), if_neg (by omega)]

/-- C5 at a concrete input: a 100×100 image, a kernel of radius 2 and
`maxInterpolationDistance = 50` give a good box of 96×96 and a 2×2 grid. -/
theorem C5_grid_counts_witness :
    (goodBBox zeroImage100 boxKernel5).width = 96 ∧
    (goodBBox zeroImage100 boxKernel5).height = 96 ∧
    (subregionList zeroImage100 boxKernel5 control50).length =
      (1 + ⌊((goodBBox zeroImage100 boxKernel5).width : ℚ) /
          (control50.maxInterpolationDistance : ℚ)⌋).toNat *
        (1 + ⌊((goodBBox zeroImage100 boxKernel5).height : ℚ) /
          (control50.maxInterpolationDistance : ℚ)⌋).toNat :=
  ⟨by decide, by decide,
    (C5_grid_counts 0 zeroImage100 zeroImage100 boxKernel5 control50 rfl (by decide) (by decide)
      (by decide)).2.2.2.1⟩

theorem cellStart_eq_floor (w : Int) (n i : Nat) :
    cellStart w n i = ⌊((i : ℚ) * (w : ℚ)) / (n : ℚ)⌋ := by
  have := Rat.floor_intCast_div_natCast ((i : Int) * w) n
  rw [cellStart, ← this]
  push_cast
  rfl

theorem cell_length_bounds (w : Int) (n i : Nat) :
    ⌊(w : ℚ) / (n : ℚ)⌋ ≤ cellStart w n (i + 1) - cellStart w n i ∧
      cellStart w n (i + 1) - cellStart w n i ≤ ⌈(w : ℚ) / (n : ℚ)⌉ := by
  rw [cellStart_eq_floor, cellStart_eq_floor]
  have hsplit : (((i + 1 : Nat) : ℚ) * (w : ℚ)) / (n : ℚ) =
      ((i : ℚ) * (w : ℚ)) / (n : ℚ) + (w : ℚ) / (n : ℚ) := by
    push_cast
    ring
  rw [hsplit]
  constructor
  · have := Int.le_floor_add (((i : ℚ) * (w : ℚ)) / (n : ℚ)) ((w : ℚ) / (n : ℚ))
    omega
  · have h1 : ⌊((i : ℚ) * (w : ℚ)) / (n : ℚ) + (w : ℚ) / (n : ℚ)⌋ ≤
        ⌊((i : ℚ) * (w : ℚ)) / (n : ℚ) + ((⌈(w : ℚ) / (n : ℚ)⌉ : Int) : ℚ)⌋ :=
      Int.floor_mono (add_le_add_left (Int.le_ceil _) _)
    rw [Int.floor_add_int] at h1
    omega

theorem ceil_div_subregionCount_le (w d : Int) (hw : 1 ≤ w) (hd : 1 ≤ d) :
    ⌈(w : ℚ) / ((subregionCount w d : Int) : ℚ)⌉ ≤ d := by
  have hcount : subregionCount w d = 1 + w / d := by
    rw [subregionCount, Int.tdiv_eq_ediv (by omega) (by omega)]
  have hq : 0 ≤ w / d := Int.ediv_nonneg (by omega) (by omega)
  have hmod := Int.emod_add_ediv w d
  have hlt := Int.emod_lt_of_pos w (show 0 < d by omega)
  have hmul : w < d * (1 + w / d) := by
    have : d * (1 + w / d) = d + d * (w / d) := by ring
    omega
  rw [Int.ceil_le, hcount]
  have hpos : (0 : ℚ) < ((1 + w / d : Int) : ℚ) := by
    have : (0 : Int) < 1 + w / d := by omega
    exact_mod_cast this
  rw [div_le_iff₀ hpos]
  have : ((w : Int) : ℚ) ≤ ((d * (1 + w / d) : Int) : ℚ) := by
    exact_mod_cast le_of_lt hmul
  simpa using this

/-- C6: for a side of length `w ≥ 1` and `maxInterpolationDistance = d ≥ 1`, cut
into `nx = 1 + w / d` cells, `⌈w / nx⌉ ≤ d`; every cell of the cut has length
between `⌊w / nx⌋` and `⌈w / nx⌉`, so no cell is longer than `d`. -/
theorem C6_no_cell_longer_than_distance (w d : Int) (hw : 1 ≤ w) (hd : 1 ≤ d) (i : Nat) :
    ⌈(w : ℚ) / ((subregionCount w d : Int) : ℚ)⌉ ≤ d ∧
    ⌊(w : ℚ) / ((subregionCount w d : Int) : ℚ)⌋ ≤
      cellStart w (subregionCount w d).toNat (i + 1) - cellStart w (subregionCount w d).toNat i ∧
    cellStart w (subregionCount w d).toNat (i + 1) - cellStart w (subregionCount w d).toNat i ≤
      ⌈(w : ℚ) / ((subregionCount w d : Int) : ℚ)⌉ ∧
    cellStart w (subregionCount w d).toNat (i + 1) - cellStart w (subregionCount w d).toNat i ≤ d := by
  have hceil := ceil_div_subregionCount_le w d hw hd
  have hcount : 0 ≤ subregionCount w d := by
    rw [subregionCount, Int.tdiv_eq_ediv (by omega) (by omega)]
    have := Int.ediv_nonneg (show 0 ≤ w by omega) (show 0 ≤ d by omega)
    omega
  have hcast : (((subregionCount w d).toNat : Nat) : ℚ) = ((subregionCount w d : Int) : ℚ) := by
    have := Int.toNat_of_nonneg hcount
    exact_mod_cast congrArg (fun z : Int => (z : ℚ)) this
  have hb := cell_length_bounds w (subregionCount w d).toNat i
  rw [hcast] at hb
  exact ⟨hceil, hb.1, hb.2, le_trans hb.2 hceil⟩

/-- C6 at a concrete side: length 96 with distance 50 is cut into 2 cells, the
second of which has length 48. -/
theorem C6_no_cell_longer_than_distance_witness :
    subregionCount 96 50 = 2 ∧
    ⌈((96 : Int) : ℚ) / ((subregionCount 96 50 : Int) : ℚ)⌉ ≤ 50 ∧
    cellStart 96 (subregionCount 96 50).toNat (1 + 1) -
      cellStart 96 (subregionCount 96 50).toNat 1 ≤ 50 :=
  ⟨by decide, (C6_no_cell_longer_than_distance 96 50 (by decide) (by decide) 1).1,
    (C6_no_cell_longer_than_distance 96 50 (by decide) (by decide) 1).2.2.2⟩

/-! ## Frame: pixels outside the good box -/

theorem shrinkBBox_growBBox (k : Kernel) (b : BoxI) : k.shrinkBBox (k.growBBox b) = b := by
  cases b
  simp [Kernel.shrinkBBox, Kernel.growBBox]

theorem bruteForce_frame (st : ConvState) (inImage : Image ℚ) (region : KernelImagesForRegion)
    (x y : Int) (hout : ¬ region.bbox.contains x y) :
    (st.bruteForce inImage region).outImage.pix x y = st.outImage.pix x y := by
  simp only [ConvState.bruteForce, convolveWithBruteForce, shrinkBBox_growBBox]
  rw [if_neg hout]

theorem interpolation_frame (st : ConvState) (inImage : Image ℚ) (region : KernelImagesForRegion)
    (x y : Int)
    (hout : ¬ (region.bbox.minX ≤ x ∧ x < region.bbox.minX + region.bbox.width ∧
      region.bbox.minY ≤ y ∧ y < region.bbox.minY + max region.bbox.height 1)) :
    (st.interpolation inImage region).outImage.pix x y = st.outImage.pix x y :=
  convolveRegionWithInterpolationWith_frame convolveAtAPoint st.outImage inImage region x y hout

theorem cellStart_range (w : Int) (n i : Nat) (hi : i < n) (t : Int)
    (h1 : cellStart w n i ≤ t) (h2 : t < cellStart w n (i + 1)) : 0 ≤ t ∧ t < w := by
  have hn : (0 : Int) < (n : Int) := by omega
  unfold cellStart at h1 h2
  by_cases hw : 0 ≤ w
  · have ha : 0 ≤ ((i : Int) * w) / (n : Int) :=
      Int.ediv_nonneg (Int.mul_nonneg (by omega) hw) (by omega)
    have hb : (((i + 1 : Nat) : Int) * w) / (n : Int) ≤ w := by
      apply Int.ediv_le_of_le_mul hn
      have : ((i + 1 : Nat) : Int) ≤ (n : Int) := by omega
      have := Int.mul_le_mul_of_nonneg_right this hw
      linarith
    omega
  · exfalso
    have hle : (((i + 1 : Nat) : Int) * w) / (n : Int) ≤ ((i : Int) * w) / (n : Int) := by
      apply Int.ediv_le_ediv hn
      push_cast
      nlinarith
    omega

theorem cell_contains (region : KernelImagesForRegion) (nx ny ix iy : Nat) (hx : ix < nx)
    (hy : iy < ny) (x y : Int) (h : (region.cell nx ny ix iy).bbox.contains x y) :
    region.bbox.contains x y := by
  simp only [KernelImagesForRegion.cell, BoxI.contains] at h
  have h1 := cellStart_range region.bbox.width nx ix hx (x - region.bbox.minX) (by omega) (by omega)
  have h2 := cellStart_range region.bbox.height ny iy hy (y - region.bbox.minY) (by omega)
    (by omega)
  unfold BoxI.contains
  omega

theorem cellStart_two (w : Int) :
    cellStart w 2 0 = 0 ∧ cellStart w 2 1 = w / 2 ∧ cellStart w 2 2 = w := by
  refine ⟨?_, ?_, ?_⟩
  · simp [cellStart]
  · simp [cellStart]
  · simp only [cellStart]
    push_cast
    omega

theorem child_swept_rows (region : KernelImagesForRegion) (ix iy : Nat) (hx : ix < 2)
    (hy : iy < 2) (hH : 1 ≤ region.bbox.height) (x y : Int)
    (h : (region.cell 2 2 ix iy).bbox.minX ≤ x ∧
      x < (region.cell 2 2 ix iy).bbox.minX + (region.cell 2 2 ix iy).bbox.width ∧
      (region.cell 2 2 ix iy).bbox.minY ≤ y ∧
      y < (region.cell 2 2 ix iy).bbox.minY + max (region.cell 2 2 ix iy).bbox.height 1) :
    region.bbox.contains x y := by
  simp only [KernelImagesForRegion.cell] at h
  have h1 := cellStart_range region.bbox.width 2 ix hx (x - region.bbox.minX) (by omega) (by omega)
  obtain ⟨e0, e1, e2⟩ := cellStart_two region.bbox.height
  unfold BoxI.contains
  have hiy : iy = 0 ∨ iy = 1 := by omega
  rcases hiy with rfl | rfl
  · simp only [Nat.zero_add, e0, e1] at h
    omega
  · simp only [e1, e2] at h
    omega

theorem solver_step (fuel : Nat) (st : ConvState) (inImage : Image ℚ)
    (region : KernelImagesForRegion) (maxInterpolationError : ℚ) :
    convolveRegionWithRecursiveInterpolation (fuel + 1) st inImage region
        maxInterpolationError =
      if region.bbox.width < region.kernel.minInterpolationSize ∨
          region.bbox.height < region.kernel.minInterpolationSize then
        some (st.bruteForce inImage region)
      else if region.isInterpolationOk maxInterpolationError = true then
        some ((((st.interpolation inImage (region.cell 2 2 0 0)).interpolation inImage
          (region.cell 2 2 1 0)).interpolation inImage (region.cell 2 2 0 1)).interpolation
          inImage (region.cell 2 2 1 1))
      else
        (convolveRegionWithRecursiveInterpolation fuel st inImage (region.cell 2 2 0 0)
          maxInterpolationError).bind fun s0 =>
        (convolveRegionWithRecursiveInterpolation fuel s0 inImage (region.cell 2 2 1 0)
          maxInterpolationError).bind fun s1 =>
        (convolveRegionWithRecursiveInterpolation fuel s1 inImage (region.cell 2 2 0 1)
          maxInterpolationError).bind fun s2 =>
        convolveRegionWithRecursiveInterpolation fuel s2 inImage (region.cell 2 2 1 1)
          maxInterpolationError := by
  rw [convolveRegionWithRecursiveInterpolation, getSubregions_eq]
  by_cases hsmall : region.bbox.width < region.kernel.minInterpolationSize ∨
      region.bbox.height < region.kernel.minInterpolationSize
  · rw [if_pos ((any_lt_make region.bbox region.getMinInterpolationSize).2 hsmall),
      if_pos hsmall]
  · rw [if_neg (fun h => hsmall ((any_lt_make region.bbox region.getMinInterpolationSize).1 h)),
      if_neg hsmall]
    by_cases hok : region.isInterpolationOk maxInterpolationError = true
    · rw [if_pos hok, if_pos hok]
      rfl
    · rw [if_neg hok, if_neg hok, foldlM_four]

theorem solver_frame (inImage : Image ℚ) (maxInterpolationError : ℚ) (fuel : Nat) :
    ∀ (st st' : ConvState) (region : KernelImagesForRegion),
      1 ≤ region.kernel.minInterpolationSize →
      convolveRegionWithRecursiveInterpolation fuel st inImage region maxInterpolationError =
        some st' →
      ∀ x y : Int, ¬ region.bbox.contains x y → st'.outImage.pix x y = st.outImage.pix x y := by
  induction fuel with
  | zero =>
    intro st st' region _ hrun
    simp [convolveRegionWithRecursiveInterpolation] at hrun
  | succ fuel ih =>
    intro st st' region hmin hrun x y hout
    rw [solver_step] at hrun
    by_cases hsmall : region.bbox.width < region.kernel.minInterpolationSize ∨
        region.bbox.height < region.kernel.minInterpolationSize
    · rw [if_pos hsmall] at hrun
      cases hrun
      exact bruteForce_frame st inImage region x y hout
    · rw [if_neg hsmall] at hrun
      have hH : 1 ≤ region.bbox.height := by omega
      have hchild : ∀ ix iy : Nat, ix < 2 → iy < 2 →
          ¬ ((region.cell 2 2 ix iy).bbox.minX ≤ x ∧
            x < (region.cell 2 2 ix iy).bbox.minX + (region.cell 2 2 ix iy).bbox.width ∧
            (region.cell 2 2 ix iy).bbox.minY ≤ y ∧
            y < (region.cell 2 2 ix iy).bbox.minY + max (region.cell 2 2 ix iy).bbox.height 1) :=
        fun ix iy hx hy h => hout (child_swept_rows region ix iy hx hy hH x y h)
      have hcell : ∀ ix iy : Nat, ix < 2 → iy < 2 →
          ¬ (region.cell 2 2 ix iy).bbox.contains x y :=
        fun ix iy hx hy h => hout (cell_contains region 2 2 ix iy hx hy x y h)
      by_cases hok : region.isInterpolationOk maxInterpolationError = true
      · rw [if_pos hok] at hrun
        cases hrun
        rw [interpolation_frame _ _ _ _ _ (hchild 1 1 (by omega) (by omega)),
          interpolation_frame _ _ _ _ _ (hchild 0 1 (by omega) (by omega)),
          interpolation_frame _ _ _ _ _ (hchild 1 0 (by omega) (by omega)),
          interpolation_frame _ _ _ _ _ (hchild 0 0 (by omega) (by omega))]
      · rw [if_neg hok] at hrun
        obtain ⟨s0, h0, hrun⟩ := Option.bind_eq_some.1 hrun
        obtain ⟨s1, h1, hrun⟩ := Option.bind_eq_some.1 hrun
        obtain ⟨s2, h2, h3⟩ := Option.bind_eq_some.1 hrun
        rw [ih s2 st' (region.cell 2 2 1 1) hmin h3 x y (hcell 1 1 (by omega) (by omega)),
          ih s1 s2 (region.cell 2 2 0 1) hmin h2 x y (hcell 0 1 (by omega) (by omega)),
          ih s0 s1 (region.cell 2 2 1 0) hmin h1 x y (hcell 1 0 (by omega) (by omega)),
          ih st s0 (region.cell 2 2 0 0) hmin h0 x y (hcell 0 0 (by omega) (by omega))]

theorem foldlM_frame (inImage : Image ℚ) (maxInterpolationError : ℚ) (fuel : Nat) (x y : Int)
    (regions : List KernelImagesForRegion) :
    ∀ (st st' : ConvState),
      (∀ r ∈ regions, 1 ≤ r.kernel.minInterpolationSize ∧ ¬ r.bbox.contains x y) →
      regions.foldlM (fun s r => convolveRegionWithRecursiveInterpolation fuel s inImage r
        maxInterpolationError) st = some st' →
      st'.outImage.pix x y = st.outImage.pix x y := by
  induction regions with
  | nil =>
    intro st st' _ hrun
    simp only [List.foldlM, Option.pure_def, Option.some.injEq] at hrun
    rw [hrun]
  | cons r rest ih =>
    intro st st' hall hrun
    rw [List.foldlM_cons] at hrun
    obtain ⟨s, hs, hrest⟩ := Option.bind_eq_some.1 hrun
    have hr := hall r (List.mem_cons_self _ _)
    rw [ih s st' (fun r' hr' => hall r' (List.mem_cons_of_mem _ hr')) hrest,
      solver_frame inImage maxInterpolationError fuel st s r hr.1 hs x y hr.2]

theorem mem_getSubregionsGrid (region : KernelImagesForRegion) (nx ny : Int)
    (r : KernelImagesForRegion) (hr : r ∈ region.getSubregionsGrid nx ny) :
    ∃ ix iy : Nat, ix < nx.toNat ∧ iy < ny.toNat ∧ r = region.cell nx.toNat ny.toNat ix iy := by
  simp only [KernelImagesForRegion.getSubregionsGrid, List.mem_flatMap, List.mem_map,
    List.mem_range] at hr
  obtain ⟨iy, hy, ix, hx, rfl⟩ := hr
  exact ⟨ix, iy, hx, hy, rfl⟩

/-- C7: for a kernel whose minimum interpolation size is positive, every pixel
outside `goodBBox = kernel.shrinkBBox(full output box)` holds after
`convolveWithInterpolation` the value it held before, however the call ends and
whichever branch each region takes. -/
theorem C7_outside_good_box_unchanged (fuel : Nat) (outImage inImage : Image ℚ)
    (kernel : Kernel) (ctrl : ConvolutionControl) (hmin : 1 ≤ kernel.minInterpolationSize)
    (r : Outcome × ConvState)
    (hrun : convolveWithInterpolation fuel outImage inImage kernel ctrl = some r)
    (x y : Int) (hout : ¬ (goodBBox outImage kernel).contains x y) :
    r.2.outImage.pix x y = outImage.pix x y := by
  rw [convolveWithInterpolation] at hrun
  by_cases hdim : (outImage.width, outImage.height) ≠ (inImage.width, inImage.height)
  · rw [if_pos hdim] at hrun
    cases hrun
    rfl
  · rw [if_neg hdim] at hrun
    by_cases hd : ctrl.maxInterpolationDistance = 0
    · rw [if_pos hd] at hrun
      cases hrun
      rfl
    · rw [if_neg hd] at hrun
      obtain ⟨s, hs, hr⟩ := Option.map_eq_some'.1 hrun
      rw [← hr]
      refine foldlM_frame inImage ctrl.maxInterpolationError fuel x y _ ⟨outImage, []⟩ s ?_ hs
      intro c hc
      obtain ⟨ix, iy, hx, hy, rfl⟩ := mem_getSubregionsGrid _ _ _ c hc
      exact ⟨hmin, fun h => hout (cell_contains _ _ _ ix iy hx hy x y h)⟩

/-- C7 at concrete runs: a 4×4 image under a 3×3 kernel has the good box
`(1, 1) 2×2`; with minimum interpolation size 2 the region is interpolated (four
calls), with 10 it is convolved by brute force (one call), and either way pixel
`(0, 3)` keeps its value. -/
theorem C7_outside_good_box_unchanged_witness :
    (∃ r, convolveWithInterpolation 1 countImage44 countImage44 (boxKernel3 2 true) control10 =
        some r ∧ r.2.calls.length = 4 ∧ r.2.outImage.pix 0 3 = countImage44.pix 0 3) ∧
    (∃ r, convolveWithInterpolation 1 countImage44 countImage44 (boxKernel3 10 true) control10 =
        some r ∧ r.2.calls.length = 1 ∧ r.2.outImage.pix 0 3 = countImage44.pix 0 3) :=
  ⟨⟨_, rfl, rfl, C7_outside_good_box_unchanged 1 countImage44 countImage44 (boxKernel3 2 true)
      control10 (by decide) _ rfl 0 3 (by decide)⟩,
    ⟨_, rfl, rfl, C7_outside_good_box_unchanged 1 countImage44 countImage44 (boxKernel3 10 true)
      control10 (by decide) _ rfl 0 3 (by decide)⟩⟩

/-! ## Termination of the recursion -/

theorem child_dims (region : KernelImagesForRegion) (ix iy : Nat) (hx : ix < 2) (hy : iy < 2) :
    region.bbox.width / 2 ≤ (region.cell 2 2 ix iy).bbox.width ∧
    (region.cell 2 2 ix iy).bbox.width ≤ (region.bbox.width + 1) / 2 ∧
    region.bbox.height / 2 ≤ (region.cell 2 2 ix iy).bbox.height ∧
    (region.cell 2 2 ix iy).bbox.height ≤ (region.bbox.height + 1) / 2 := by
  obtain ⟨w0, w1, w2⟩ := cellStart_two region.bbox.width
  obtain ⟨h0, h1, h2⟩ := cellStart_two region.bbox.height
  have hix : ix = 0 ∨ ix = 1 := by omega
  have hiy : iy = 0 ∨ iy = 1 := by omega
  rcases hix with rfl | rfl <;> rcases hiy with rfl | rfl <;>
    simp only [KernelImagesForRegion.cell, Nat.zero_add, Nat.reduceAdd, w0, w1, w2, h0, h1, h2] <;>
    omega

/-- On a region of a single pixel linear interpolation is exact: the four corner
images are the exact image of the pixel. -/
theorem interpolationWithin_of_single_pixel (kernel : Kernel) (x y : Int) (doNormalize : Bool)
    (e : ℚ) (he : 0 ≤ e) :
    (⟨kernel, ⟨x, y, 1, 1⟩, doNormalize⟩ : KernelImagesForRegion).interpolationWithin e := by
  intro c r hc hr i j _ _
  simp only [] at hc hr
  have hc0 : c = 0 := by omega
  have hr0 : r = 0 := by omega
  subst hc0
  subst hr0
  simpa [bilinear, KernelImagesForRegion.getImage] using he

/-- A region that the adequacy test rejects has more than one pixel, when the
test accepts every region of a single pixel. -/
theorem two_le_of_rejected (region : KernelImagesForRegion) (maxInterpolationError : ℚ)
    (hmin : 1 ≤ region.kernel.minInterpolationSize)
    (hone : 2 ≤ region.kernel.minInterpolationSize ∨
      ∀ x y : Int, region.kernel.isInterpolationOk ⟨x, y, 1, 1⟩ maxInterpolationError = true)
    (hbig : ¬ (region.bbox.width < region.kernel.minInterpolationSize ∨
      region.bbox.height < region.kernel.minInterpolationSize))
    (hok : ¬ region.isInterpolationOk maxInterpolationError = true) :
    2 ≤ region.bbox.width ∨ 2 ≤ region.bbox.height := by
  rcases hone with h2 | hone
  · omega
  · by_contra hsmall
    apply hok
    have hb : region.bbox = ⟨region.bbox.minX, region.bbox.minY, 1, 1⟩ := by
      cases hbox : region.bbox with
      | mk minX minY width height =>
        rw [hbox] at hbig hsmall
        simp only [BoxI.mk.injEq, true_and]
        simp only [] at hbig hsmall
        constructor <;> omega
    unfold KernelImagesForRegion.isInterpolationOk
    rw [hb]
    exact hone _ _

/-- C9: for a kernel whose minimum interpolation size is positive, and whose
adequacy test accepts a region of a single pixel when that size is 1 (the four
corner images of such a region are the exact image of its pixel, so that
interpolation is exact there), every subregion of a region on which
`convolveRegionWithRecursiveInterpolation` recurses is no wider and no higher
than the region and strictly narrower or strictly lower (strictly narrower when
the region has two columns or more, strictly lower when it has two rows or
more), and the function returns for every region, state and input once the
fuel exceeds the larger side of the region: the depth of the recursion is
bounded. -/
theorem C9_recursion_terminates (inImage : Image ℚ) (maxInterpolationError : ℚ) (fuel : Nat)
    (st : ConvState) (region : KernelImagesForRegion)
    (hmin : 1 ≤ region.kernel.minInterpolationSize)
    (hone : 2 ≤ region.kernel.minInterpolationSize ∨
      ∀ x y : Int, region.kernel.isInterpolationOk ⟨x, y, 1, 1⟩ maxInterpolationError = true)
    (hfuel : (max region.bbox.width region.bbox.height).toNat < fuel) :
    (∀ c ∈ region.getSubregions,
      ¬ (region.bbox.width < region.kernel.minInterpolationSize ∨
        region.bbox.height < region.kernel.minInterpolationSize) →
      ¬ region.isInterpolationOk maxInterpolationError = true →
      c.bbox.width ≤ region.bbox.width ∧ c.bbox.height ≤ region.bbox.height ∧
        (c.bbox.width < region.bbox.width ∨ c.bbox.height < region.bbox.height) ∧
        (2 ≤ region.bbox.width → c.bbox.width < region.bbox.width) ∧
        (2 ≤ region.bbox.height → c.bbox.height < region.bbox.height)) ∧
    ∃ st', convolveRegionWithRecursiveInterpolation fuel st inImage region
      maxInterpolationError = some st' := by
  constructor
  · intro c hc hbig hok
    have h2 := two_le_of_rejected region maxInterpolationError hmin hone hbig hok
    rw [getSubregions_eq] at hc
    simp only [List.mem_cons, List.mem_singleton, List.not_mem_nil, or_false] at hc
    rcases hc with rfl | rfl | rfl | rfl
    · have := child_dims region 0 0 (by omega) (by omega); omega
    · have := child_dims region 1 0 (by omega) (by omega); omega
    · have := child_dims region 0 1 (by omega) (by omega); omega
    · have := child_dims region 1 1 (by omega) (by omega); omega
  · induction fuel generalizing st region with
    | zero => omega
    | succ fuel ih =>
      rw [solver_step]
      by_cases hsmall : region.bbox.width < region.kernel.minInterpolationSize ∨
          region.bbox.height < region.kernel.minInterpolationSize
      · rw [if_pos hsmall]; exact ⟨_, rfl⟩
      · rw [if_neg hsmall]
        by_cases hok : region.isInterpolationOk maxInterpolationError = true
        · rw [if_pos hok]; exact ⟨_, rfl⟩
        · rw [if_neg hok]
          have h2 := two_le_of_rejected region maxInterpolationError hmin hone hsmall hok
          have hc : ∀ ix iy : Nat, ix < 2 → iy < 2 →
              (max (region.cell 2 2 ix iy).bbox.width (region.cell 2 2 ix iy).bbox.height).toNat <
                fuel := by
            intro ix iy hx hy
            have := child_dims region ix iy hx hy
            omega
          obtain ⟨s0, h0⟩ := ih st (region.cell 2 2 0 0) hmin hone (hc 0 0 (by omega) (by omega))
          obtain ⟨s1, h1⟩ := ih s0 (region.cell 2 2 1 0) hmin hone (hc 1 0 (by omega) (by omega))
          obtain ⟨s2, h2⟩ := ih s1 (region.cell 2 2 0 1) hmin hone (hc 0 1 (by omega) (by omega))
          obtain ⟨s3, h3⟩ := ih s2 (region.cell 2 2 1 1) hmin hone (hc 1 1 (by omega) (by omega))
          exact ⟨s3, by rw [h0, Option.some_bind, h1, Option.some_bind, h2, Option.some_bind, h3]⟩

/-- C9 at a concrete region: 9×9 under the paraboloid kernel, minimum
interpolation size 1, tolerance 8, fuel 10. The region is rejected by the
adequacy test (the interpolated weight is off by up to 32) and its four
subregions, of four or five pixels a side, are accepted. -/
theorem C9_recursion_terminates_witness :
    region99.isInterpolationOk 8 = false ∧
    (∀ c ∈ region99.getSubregions, c.isInterpolationOk 8 = true) ∧
    ∃ st', convolveRegionWithRecursiveInterpolation 10 ⟨zeroImage100, []⟩ zeroImage100 region99 8 =
      some st' :=
  ⟨by simp [KernelImagesForRegion.isInterpolationOk, region99, paraboloidKernel]; norm_num,
    by
      intro c hc
      rw [getSubregions_eq] at hc
      simp only [List.mem_cons, List.mem_singleton, List.not_mem_nil, or_false] at hc
      rcases hc with rfl | rfl | rfl | rfl <;>
        simp [KernelImagesForRegion.isInterpolationOk, KernelImagesForRegion.cell, cellStart,
          region99, paraboloidKernel] <;> norm_num,
    (C9_recursion_terminates zeroImage100 8 10 ⟨zeroImage100, []⟩ region99 (by decide)
      (Or.inr (fun _ _ => by simp [region99, paraboloidKernel])) (by decide)).2⟩

/-! ## Regions handed to convolveRegionWithInterpolation -/

/-- C10 as stated fails: with minimum interpolation size 2, a 2×2 region whose
interpolation is adequate is not too small, and its four 1×1 subregions are
passed to `convolveRegionWithInterpolation`, where `W - 1 = 0` and `H - 1 = 0`. -/
theorem C10_unit_regions_are_interpolated :
    ∃ (st' : ConvState) (r : KernelImagesForRegion),
      convolveRegionWithRecursiveInterpolation 1 ⟨zeroImage, []⟩ rampY region22 0 = some st' ∧
      Call.interpolation r ∈ st'.calls ∧ r.bbox.width - 1 = 0 ∧ r.bbox.height - 1 = 0 := by
  have hrun : convolveRegionWithRecursiveInterpolation 1 ⟨zeroImage, []⟩ rampY region22 0 =
      some ((((ConvState.mk zeroImage []).interpolation rampY
        (region22.cell 2 2 0 0)).interpolation rampY (region22.cell 2 2 1 0)).interpolation rampY
        (region22.cell 2 2 0 1) |>.interpolation rampY (region22.cell 2 2 1 1)) := by
    rw [solver_step, if_neg (by decide), if_pos (by decide)]
  refine ⟨_, region22.cell 2 2 0 0, hrun, ?_, by decide, by decide⟩
  simp [ConvState.interpolation]

theorem solver_calls (inImage : Image ℚ) (maxInterpolationError : ℚ) (fuel : Nat) :
    ∀ (st st' : ConvState) (region : KernelImagesForRegion),
      4 ≤ region.kernel.minInterpolationSize →
      convolveRegionWithRecursiveInterpolation fuel st inImage region maxInterpolationError =
        some st' →
      ∀ r : KernelImagesForRegion, Call.interpolation r ∈ st'.calls →
        Call.interpolation r ∈ st.calls ∨ (2 ≤ r.bbox.width ∧ 2 ≤ r.bbox.height) := by
  induction fuel with
  | zero =>
    intro st st' region _ hrun
    simp [convolveRegionWithRecursiveInterpolation] at hrun
  | succ fuel ih =>
    intro st st' region hmin hrun r hr
    rw [solver_step] at hrun
    by_cases hsmall : region.bbox.width < region.kernel.minInterpolationSize ∨
        region.bbox.height < region.kernel.minInterpolationSize
    · rw [if_pos hsmall] at hrun
      cases hrun
      simp only [ConvState.bruteForce, List.mem_append, List.mem_singleton] at hr
      rcases hr with hr | hr
      · exact Or.inl hr
      · cases hr
    · rw [if_neg hsmall] at hrun
      by_cases hok : region.isInterpolationOk maxInterpolationError = true
      · rw [if_pos hok] at hrun
        cases hrun
        simp only [ConvState.interpolation, List.mem_append, List.mem_singleton,
          Call.interpolation.injEq] at hr
        have hdim : ∀ ix iy : Nat, ix < 2 → iy < 2 →
            2 ≤ (region.cell 2 2 ix iy).bbox.width ∧ 2 ≤ (region.cell 2 2 ix iy).bbox.height := by
          intro ix iy hx hy
          have := child_dims region ix iy hx hy
          omega
        rcases hr with (((hr | rfl) | rfl) | rfl) | rfl
        · exact Or.inl hr
        · exact Or.inr (hdim 0 0 (by omega) (by omega))
        · exact Or.inr (hdim 1 0 (by omega) (by omega))
        · exact Or.inr (hdim 0 1 (by omega) (by omega))
        · exact Or.inr (hdim 1 1 (by omega) (by omega))
      · rw [if_neg hok] at hrun
        obtain ⟨s0, h0, hrun⟩ := Option.bind_eq_some.1 hrun
        obtain ⟨s1, h1, hrun⟩ := Option.bind_eq_some.1 hrun
        obtain ⟨s2, h2, h3⟩ := Option.bind_eq_some.1 hrun
        rcases ih s2 st' (region.cell 2 2 1 1) hmin h3 r hr with hr | hr
        · rcases ih s1 s2 (region.cell 2 2 0 1) hmin h2 r hr with hr | hr
          · rcases ih s0 s1 (region.cell 2 2 1 0) hmin h1 r hr with hr | hr
            · exact ih st s0 (region.cell 2 2 0 0) hmin h0 r hr
            · exact Or.inr hr
          · exact Or.inr hr
        · exact Or.inr hr

/-- C10 as amended: when the minimum interpolation size is at least 4, every
region `convolveRegionWithRecursiveInterpolation` passes to
`convolveRegionWithInterpolation` has width `W ≥ 2` and height `H ≥ 2`, so the
divisors `W - 1` and `H - 1` are not zero. -/
theorem C10_interpolated_regions_at_least_two (fuel : Nat) (outImage inImage : Image ℚ)
    (region : KernelImagesForRegion) (maxInterpolationError : ℚ) (st' : ConvState)
    (hmin : 4 ≤ region.kernel.minInterpolationSize)
    (hrun : convolveRegionWithRecursiveInterpolation fuel ⟨outImage, []⟩ inImage region
      maxInterpolationError = some st')
    (r : KernelImagesForRegion) (hr : Call.interpolation r ∈ st'.calls) :
    2 ≤ r.bbox.width ∧ 2 ≤ r.bbox.height ∧ r.bbox.width - 1 ≠ 0 ∧ r.bbox.height - 1 ≠ 0 := by
  rcases solver_calls inImage maxInterpolationError fuel ⟨outImage, []⟩ st' region hmin hrun r hr
    with h | h
  · simp at h
  · omega

/-- C10 as amended, at a concrete region: 9×8 with minimum interpolation size 4
and adequate interpolation; the first subregion, 4×4, is passed on. -/
theorem C10_interpolated_regions_at_least_two_witness :
    ∃ st', convolveRegionWithRecursiveInterpolation 1 ⟨zeroImage, []⟩ rampY region98 0 =
        some st' ∧
      Call.interpolation (region98.cell 2 2 0 0) ∈ st'.calls ∧
      2 ≤ (region98.cell 2 2 0 0).bbox.width ∧ 2 ≤ (region98.cell 2 2 0 0).bbox.height ∧
      (region98.cell 2 2 0 0).bbox.width - 1 ≠ 0 ∧ (region98.cell 2 2 0 0).bbox.height - 1 ≠ 0 :=
  have hrun : convolveRegionWithRecursiveInterpolation 1 ⟨zeroImage, []⟩ rampY region98 0 =
      some ((((ConvState.mk zeroImage []).interpolation rampY
        (region98.cell 2 2 0 0)).interpolation rampY (region98.cell 2 2 1 0)).interpolation rampY
        (region98.cell 2 2 0 1) |>.interpolation rampY (region98.cell 2 2 1 1)) := by
    rw [solver_step, if_neg (by decide), if_pos (by decide)]
  have hmem : Call.interpolation (region98.cell 2 2 0 0) ∈
      ((((ConvState.mk zeroImage []).interpolation rampY
        (region98.cell 2 2 0 0)).interpolation rampY (region98.cell 2 2 1 0)).interpolation rampY
        (region98.cell 2 2 0 1) |>.interpolation rampY (region98.cell 2 2 1 1)).calls := by
    simp [ConvState.interpolation]
  ⟨_, hrun, hmem,
    C10_interpolated_regions_at_least_two 1 zeroImage rampY region98 0 _ (by decide) hrun _ hmem⟩

/-! ## Claims about CoordinateExpr -/

theorem allLoop_eq_true {N : Nat} (expr : CoordinateExpr N) (k n : Nat) :
    CoordinateExpr.allLoop expr k n = true ↔
      ∀ m : Fin N, n ≤ m.val → m.val < n + k → expr m = false := by
  induction k generalizing n with
  | zero =>
    simp only [CoordinateExpr.allLoop, true_iff]
    intro m h1 h2
    omega
  | succ k ih =>
    rw [CoordinateExpr.allLoop]
    by_cases h : n < N
    · rw [dif_pos h]
      by_cases he : expr ⟨n, h⟩ = true
      · rw [if_pos he]
        constructor
        · intro hf; cases hf
        · intro hall
          have := hall ⟨n, h⟩ (Nat.le_refl _) (by simp)
          rw [he] at this
          cases this
      · rw [if_neg he, ih]
        constructor
        · intro hall m h1 h2
          by_cases hm : m.val = n
          · have : m = ⟨n, h⟩ := Fin.ext hm
            rw [this]
            simpa using he
          · exact hall m (by omega) (by omega)
        · intro hall m h1 h2
          exact hall m (by omega) (by omega)
    · rw [dif_neg h]
      simp only [true_iff]
      intro m h1 h2
      have := m.isLt
      omega

theorem anyLoop_eq_true {N : Nat} (expr : CoordinateExpr N) (k n : Nat) :
    CoordinateExpr.anyLoop expr k n = true ↔
      ∃ m : Fin N, n ≤ m.val ∧ m.val < n + k ∧ expr m = true := by
  induction k generalizing n with
  | zero =>
    simp only [CoordinateExpr.anyLoop, Bool.false_eq_true, false_iff]
    rintro ⟨m, h1, h2, _⟩
    omega
  | succ k ih =>
    rw [CoordinateExpr.anyLoop]
    by_cases h : n < N
    · rw [dif_pos h]
      by_cases he : expr ⟨n, h⟩ = true
      · rw [if_pos he]
        simp only [true_iff]
        exact ⟨⟨n, h⟩, Nat.le_refl _, by simp, he⟩
      · rw [if_neg he, ih]
        constructor
        · rintro ⟨m, h1, h2, h3⟩
          exact ⟨m, by omega, by omega, h3⟩
        · rintro ⟨m, h1, h2, h3⟩
          have hm : m.val ≠ n := by
            intro hm
            have : m = ⟨n, h⟩ := Fin.ext hm
            rw [this] at h3
            exact he h3
          exact ⟨m, by omega, by omega, h3⟩
    · rw [dif_neg h]
      simp only [Bool.false_eq_true, false_iff]
      rintro ⟨m, h1, _, _⟩
      have := m.isLt
      omega

theorem all_eq_true_iff {N : Nat} (expr : CoordinateExpr N) :
    expr.all = true ↔ ∀ m : Fin N, expr m = false := by
  rw [CoordinateExpr.all, allLoop_eq_true]
  constructor
  · intro h m
    exact h m (Nat.zero_le _) (by have := m.isLt; omega)
  · intro h m _ _
    exact h m

/-- C18 (code defect): `all` returns `false` as soon as it meets a true element,
so on (true, true) it returns `false` and on (false, false) it returns `true`:
it is true exactly when no element is true, not when every element is. -/
theorem C18_all_of_true_elements_is_false :
    bothTrue.all = false ∧ (∀ n : Fin 2, bothTrue n = true) ∧
    bothFalse.all = true ∧ (∀ n : Fin 2, bothFalse n = false) := by
  refine ⟨by decide, fun _ => rfl, by decide, fun _ => rfl⟩

/-- C19: for every `N` and every `CoordinateExpr<N>`, `any` returns true if and
only if at least one element `expr[n]`, `0 ≤ n < N`, is true. -/
theorem C19_any_iff_some_element_true {N : Nat} (expr : CoordinateExpr N) :
    expr.any = true ↔ ∃ n : Fin N, expr n = true := by
  rw [CoordinateExpr.any, anyLoop_eq_true]
  constructor
  · rintro ⟨m, _, _, h⟩
    exact ⟨m, h⟩
  · rintro ⟨m, h⟩
    exact ⟨m, Nat.zero_le _, by have := m.isLt; omega, h⟩

theorem any_eq_coordinateExpr_any (e : CoordinateExpr2) :
    any e = CoordinateExpr.any (fun n : Fin 2 => e.get n.val) := by
  cases e with
  | mk x y => cases x <;> cases y <;> rfl

/-! ## Claims about warpImageGPU -/

/-- C20: `warpImageGPU` requires `interpLength > 0`. For every
`interpLength < 1` it ends with the invalid-parameter error having made no call
at all, whatever the other arguments and the environment are; for
`interpLength ≥ 1` it does not end with that error and goes on to the
GPU-build check. -/
theorem C20_interpLength_check (env : GpuEnv) (destWidth destHeight srcWidth srcHeight : Int)
    (order interpLength : Int) (padValue : ℚ) (forceProcessing : Bool) :
    (interpLength < 1 →
      warpImageGPU env destWidth destHeight srcWidth srcHeight order interpLength padValue
        forceProcessing = (WarpOutcome.invalidParameter, [])) ∧
    (1 ≤ interpLength →
      (warpImageGPU env destWidth destHeight srcWidth srcHeight order interpLength padValue
        forceProcessing).1 ≠ WarpOutcome.invalidParameter ∧
      (warpImageGPU env destWidth destHeight srcWidth srcHeight order interpLength padValue
        forceProcessing).2.head? = some WarpStep.isGpuBuild) := by
  constructor
  · intro h
    rw [warpImageGPU, if_pos h]
  · intro h
    rw [warpImageGPU, if_neg (by omega)]
    split_ifs
    · exact ⟨by simp, rfl⟩
    · exact ⟨by simp, rfl⟩
    · exact ⟨by simp, rfl⟩
    · exact ⟨by simp, rfl⟩
    · cases env.warpImageGpuWrapper destWidth destHeight srcWidth srcHeight order interpLength
        padValue <;> exact ⟨by simp, rfl⟩

/-- C20 at concrete calls: `interpLength = 0` with `forceProcessing` set fails
without a call; `interpLength = 5` on a GPU build returns the wrapper's count. -/
theorem C20_interpLength_check_witness :
    warpImageGPU gpuEnv 10 10 10 10 3 0 0 true = (WarpOutcome.invalidParameter, []) ∧
    (warpImageGPU gpuEnv 10 10 10 10 3 5 0 false).1 ≠ WarpOutcome.invalidParameter ∧
    (warpImageGPU gpuEnv 10 10 10 10 3 5 0 false).2.head? = some WarpStep.isGpuBuild :=
  ⟨(C20_interpLength_check gpuEnv 10 10 10 10 3 0 0 true).1 (by decide),
    (C20_interpLength_check gpuEnv 10 10 10 10 3 5 0 false).2 (by decide)⟩

/-! ## The running kernel image after the undo steps -/

theorem sweepRows_tail {α β : Type}
    (conv : (Int → Int → β) → Int → Int → KernelImage → Nat → Nat → α)
    (inView : Int → Int → β) (outBBox : BoxI) (kWidth kHeight : Nat) (xfrac : ℚ)
    (leftDelta rightDelta : KernelImage) (width : Nat) (height : Int) (n : Nat) :
    ∀ (row : Int) (outImage : Image α) (left right : KernelImage)
      (fits : List (String × KernelImage)),
      (height - row).toNat = n → 0 < row → row < height →
      (sweepRows conv inView outBBox kWidth kHeight xfrac leftDelta rightDelta width height row
        outImage left right left fits).kernelImage =
        sweptKernelImage xfrac leftDelta rightDelta left right ((width : Int) - 1)
          (height - 1 - row) ∧
      (sweepRows conv inView outBBox kWidth kHeight xfrac leftDelta rightDelta width height row
        outImage left right left fits).fits =
        fits ++ [("deltaKernelImageTopRow.fits",
            scaledPlus xfrac
              (fun i j => right i j + ((height - 1 - row : Int) : ℚ) * rightDelta i j) (-xfrac)
              (fun i j => left i j + ((height - 1 - row : Int) : ℚ) * leftDelta i j)),
          ("kernelImageAtTopRight.fits",
            sweptKernelImage xfrac leftDelta rightDelta left right ((width : Int) - 1)
              (height - 1 - row))] := by
  induction n with
  | zero => intro row _ _ _ _ hn _ hlt; omega
  | succ n ih =>
    intro row outImage left right fits hn hrow hlt
    have hrow0 : ¬ row = 0 := by omega
    rw [sweepRows]
    simp only []
    rw [if_neg hrow0, if_neg hrow0]
    by_cases hlast : row + 1 ≥ height
    · rw [if_pos hlast]
      simp only []
      have e : height - 1 - row = 0 := by omega
      have hk : minusAssign (sweepRow conv inView outBBox kWidth kHeight row
            (scaledPlus xfrac right (-xfrac) left) width 0 row 0 outImage left).2
            (scaledPlus xfrac right (-xfrac) left) =
          sweptKernelImage xfrac leftDelta rightDelta left right ((width : Int) - 1)
            (height - 1 - row) := by
        rw [sweepRow_kernelImage, e]
        funext i j
        simp only [minusAssign, sweptKernelImage, scaledPlus]
        push_cast
        ring
      have hd : scaledPlus xfrac right (-xfrac) left =
          scaledPlus xfrac
            (fun i j => right i j + ((height - 1 - row : Int) : ℚ) * rightDelta i j) (-xfrac)
            (fun i j => left i j + ((height - 1 - row : Int) : ℚ) * leftDelta i j) := by
        rw [e]
        funext i j
        simp [scaledPlus]
      rw [hk, ← hd]
      exact ⟨rfl, rfl⟩
    · rw [if_neg hlast]
      obtain ⟨h1, h2⟩ := ih (row + 1)
        (sweepRow conv inView outBBox kWidth kHeight row
          (scaledPlus xfrac right (-xfrac) left) width 0 row 0 outImage left).1
        (plusAssign left leftDelta) (plusAssign right rightDelta) fits (by omega) (by omega)
        (by omega)
      have e : sweptKernelImage xfrac leftDelta rightDelta (plusAssign left leftDelta)
          (plusAssign right rightDelta) ((width : Int) - 1) (height - 1 - (row + 1)) =
          sweptKernelImage xfrac leftDelta rightDelta left right ((width : Int) - 1)
            (height - 1 - row) := by
        funext i j
        simp only [sweptKernelImage, plusAssign]
        push_cast
        ring
      have el : (fun i j => plusAssign left leftDelta i j +
          ((height - 1 - (row + 1) : Int) : ℚ) * leftDelta i j) =
          (fun i j => left i j + ((height - 1 - row : Int) : ℚ) * leftDelta i j) := by
        funext i j
        simp only [plusAssign]
        push_cast
        ring
      have er : (fun i j => plusAssign right rightDelta i j +
          ((height - 1 - (row + 1) : Int) : ℚ) * rightDelta i j) =
          (fun i j => right i j + ((height - 1 - row : Int) : ℚ) * rightDelta i j) := by
        funext i j
        simp only [plusAssign]
        push_cast
        ring
      rw [e] at h1 h2
      rw [el, er] at h2
      exact ⟨h1, h2⟩

theorem sweepRows_from_zero {α β : Type}
    (conv : (Int → Int → β) → Int → Int → KernelImage → Nat → Nat → α)
    (inView : Int → Int → β) (outBBox : BoxI) (kWidth kHeight : Nat) (xfrac : ℚ)
    (leftDelta rightDelta : KernelImage) (width : Nat) (height : Int)
    (outImage : Image α) (left right : KernelImage) (fits : List (String × KernelImage))
    (hH : 2 ≤ height) :
    (sweepRows conv inView outBBox kWidth kHeight xfrac leftDelta rightDelta width height 0
      outImage left right left fits).kernelImage =
      sweptKernelImage xfrac leftDelta rightDelta left right ((width : Int) - 1) (height - 1) ∧
    (sweepRows conv inView outBBox kWidth kHeight xfrac leftDelta rightDelta width height 0
      outImage left right left fits).fits =
      fits ++ [("kernelImageAtBottomRight.fits",
          sweptKernelImage xfrac leftDelta rightDelta left right ((width : Int) - 1) 0),
        ("deltaKernelImageBottomRow.fits", scaledPlus xfrac right (-xfrac) left),
        ("deltaKernelImageTopRow.fits",
          scaledPlus xfrac (fun i j => right i j + ((height - 1 : Int) : ℚ) * rightDelta i j)
            (-xfrac) (fun i j => left i j + ((height - 1 : Int) : ℚ) * leftDelta i j)),
        ("kernelImageAtTopRight.fits",
          sweptKernelImage xfrac leftDelta rightDelta left right ((width : Int) - 1)
            (height - 1))] := by
  rw [sweepRows]
  simp only [if_true]
  rw [if_neg (show ¬ (0 + 1 ≥ height) by omega)]
  have hk : minusAssign (sweepRow conv inView outBBox kWidth kHeight 0
        (scaledPlus xfrac right (-xfrac) left) width 0 0 0 outImage left).2
        (scaledPlus xfrac right (-xfrac) left) =
      sweptKernelImage xfrac leftDelta rightDelta left right ((width : Int) - 1) 0 := by
    rw [sweepRow_kernelImage]
    funext i j
    simp only [minusAssign, sweptKernelImage, scaledPlus]
    push_cast
    ring
  rw [hk]
  obtain ⟨h1, h2⟩ := sweepRows_tail conv inView outBBox kWidth kHeight xfrac leftDelta
    rightDelta width height (height - (0 + 1)).toNat (0 + 1)
    (sweepRow conv inView outBBox kWidth kHeight 0
      (scaledPlus xfrac right (-xfrac) left) width 0 0 0 outImage left).1
    (plusAssign left leftDelta) (plusAssign right rightDelta)
    (fits ++ [("kernelImageAtBottomRight.fits",
        sweptKernelImage xfrac leftDelta rightDelta left right ((width : Int) - 1) 0),
      ("deltaKernelImageBottomRow.fits", scaledPlus xfrac right (-xfrac) left)])
    rfl (by omega) (by omega)
  have e : sweptKernelImage xfrac leftDelta rightDelta (plusAssign left leftDelta)
      (plusAssign right rightDelta) ((width : Int) - 1) (height - 1 - (0 + 1)) =
      sweptKernelImage xfrac leftDelta rightDelta left right ((width : Int) - 1)
        (height - 1) := by
    funext i j
    simp only [sweptKernelImage, plusAssign]
    push_cast
    ring
  have el : (fun i j => plusAssign left leftDelta i j +
      ((height - 1 - (0 + 1) : Int) : ℚ) * leftDelta i j) =
      (fun i j => left i j + ((height - 1 : Int) : ℚ) * leftDelta i j) := by
    funext i j
    simp only [plusAssign]
    push_cast
    ring
  have er : (fun i j => plusAssign right rightDelta i j +
      ((height - 1 - (0 + 1) : Int) : ℚ) * rightDelta i j) =
      (fun i j => right i j + ((height - 1 : Int) : ℚ) * rightDelta i j) := by
    funext i j
    simp only [plusAssign]
    push_cast
    ring
  rw [e] at h1 h2
  rw [el, er] at h2
  refine ⟨h1, ?_⟩
  rw [h2]
  simp

/-- C17: for a region with `W ≥ 2` and `H ≥ 2`, the running `kernelImage` written
to `kernelImageAtBottomRight.fits` after the undo that follows the bottom row
is the BOTTOM_RIGHT corner image, and the running `kernelImage` after the undo
that follows the top row, written to `kernelImageAtTopRight.fits`, is the
TOP_RIGHT corner image. -/
theorem C17_undo_restores_right_corners (outImage inImage : Image ℚ)
    (region : KernelImagesForRegion)
    (hW : 2 ≤ region.bbox.width) (hH : 2 ≤ region.bbox.height) :
    (convolveRegionWithInterpolation outImage inImage region).fits.lookup
        "kernelImageAtBottomRight.fits" = some (region.getImage .BOTTOM_RIGHT) ∧
    (convolveRegionWithInterpolation outImage inImage region).fits.lookup
        "kernelImageAtTopRight.fits" = some (region.getImage .TOP_RIGHT) ∧
    (convolveRegionWithInterpolation outImage inImage region).kernelImage =
      region.getImage .TOP_RIGHT := by
  have hwn : (((region.bbox.width.toNat : Nat) : Int) - 1) = region.bbox.width - 1 := by
    rw [Int.toNat_of_nonneg (by omega)]
  have hbr := sweptKernelImage_eq_bilinear region.bbox.width region.bbox.height hW hH
    (region.getImage .BOTTOM_LEFT) (region.getImage .BOTTOM_RIGHT) (region.getImage .TOP_LEFT)
    (region.getImage .TOP_RIGHT) (region.bbox.width - 1) 0
  have htr := sweptKernelImage_eq_bilinear region.bbox.width region.bbox.height hW hH
    (region.getImage .BOTTOM_LEFT) (region.getImage .BOTTOM_RIGHT) (region.getImage .TOP_LEFT)
    (region.getImage .TOP_RIGHT) (region.bbox.width - 1) (region.bbox.height - 1)
  have hw' : ((region.bbox.width : ℚ) - 1) ≠ 0 := by
    have : (2 : ℚ) ≤ (region.bbox.width : ℚ) := by exact_mod_cast hW
    linarith
  have hh' : ((region.bbox.height : ℚ) - 1) ≠ 0 := by
    have : (2 : ℚ) ≤ (region.bbox.height : ℚ) := by exact_mod_cast hH
    linarith
  have hbr' : bilinear (((region.bbox.width - 1 : Int) : ℚ) / ((region.bbox.width : ℚ) - 1))
      (((0 : Int) : ℚ) / ((region.bbox.height : ℚ) - 1))
      (region.getImage .BOTTOM_LEFT) (region.getImage .BOTTOM_RIGHT) (region.getImage .TOP_LEFT)
      (region.getImage .TOP_RIGHT) = region.getImage .BOTTOM_RIGHT := by
    funext i j
    simp [bilinear, div_self hw']
  have htr' : bilinear (((region.bbox.width - 1 : Int) : ℚ) / ((region.bbox.width : ℚ) - 1))
      (((region.bbox.height - 1 : Int) : ℚ) / ((region.bbox.height : ℚ) - 1))
      (region.getImage .BOTTOM_LEFT) (region.getImage .BOTTOM_RIGHT) (region.getImage .TOP_LEFT)
      (region.getImage .TOP_RIGHT) = region.getImage .TOP_RIGHT := by
    funext i j
    simp [bilinear, div_self hw', div_self hh']
  rw [hbr'] at hbr
  rw [htr'] at htr
  unfold convolveRegionWithInterpolation convolveRegionWithInterpolationWith
  simp only []
  rw [(sweepRows_from_zero _ _ _ _ _ _ _ _ _ _ _ _ _ _ hH).1,
    (sweepRows_from_zero _ _ _ _ _ _ _ _ _ _ _ _ _ _ hH).2, hwn, hbr, htr]
  refine ⟨?_, ?_, rfl⟩
  · simp [List.lookup]
  · simp [List.lookup]

/-- C17 at a concrete region: the 3×4 region at (5, 7) under the varying kernel. -/
theorem C17_undo_restores_right_corners_witness :
    (convolveRegionWithInterpolation zeroImage rampY region34).fits.lookup
        "kernelImageAtBottomRight.fits" = some (region34.getImage .BOTTOM_RIGHT) ∧
    (convolveRegionWithInterpolation zeroImage rampY region34).fits.lookup
        "kernelImageAtTopRight.fits" = some (region34.getImage .TOP_RIGHT) ∧
    (convolveRegionWithInterpolation zeroImage rampY region34).kernelImage =
      region34.getImage .TOP_RIGHT :=
  C17_undo_restores_right_corners zeroImage rampY region34 (by decide) (by decide)

/-! ## Tiling -/

theorem cellStart_zero (w : Int) (n : Nat) : cellStart w n 0 = 0 := by
  simp [cellStart]

theorem cellStart_self (w : Int) (n : Nat) (hn : 0 < n) : cellStart w n n = w := by
  unfold cellStart
  exact Int.mul_ediv_cancel_left w (by omega)

theorem cellStart_mono (w : Int) (n : Nat) (hw : 0 ≤ w) (i j : Nat) (hij : i ≤ j) :
    cellStart w n i ≤ cellStart w n j := by
  unfold cellStart
  rcases Nat.eq_zero_or_pos n with hn | hn
  · subst hn
    simp
  · apply Int.ediv_le_ediv (by omega)
    have : (i : Int) ≤ (j : Int) := by omega
    exact Int.mul_le_mul_of_nonneg_right this hw

theorem cellStart_cover (w : Int) (n : Nat) (t : Int) (h0 : 0 ≤ t) (k : Nat) :
    t < cellStart w n k → ∃ i : Nat, i < k ∧ cellStart w n i ≤ t ∧ t < cellStart w n (i + 1) := by
  induction k with
  | zero =>
    intro h
    rw [cellStart_zero] at h
    omega
  | succ k ih =>
    intro h
    by_cases hk : t < cellStart w n k
    · obtain ⟨i, hi, h1, h2⟩ := ih hk
      exact ⟨i, by omega, h1, h2⟩
    · exact ⟨k, by omega, by omega, h⟩

theorem cellStart_unique (w : Int) (n i j : Nat) (hi : i < n) (t : Int)
    (hi1 : cellStart w n i ≤ t) (hi2 : t < cellStart w n (i + 1))
    (hj1 : cellStart w n j ≤ t) (hj2 : t < cellStart w n (j + 1)) : i = j := by
  have hr := cellStart_range w n i hi t hi1 hi2
  have hw : 0 ≤ w := by omega
  by_contra hne
  rcases Nat.lt_or_gt_of_ne hne with h | h
  · have := cellStart_mono w n hw (i + 1) j (by omega)
    omega
  · have := cellStart_mono w n hw (j + 1) i (by omega)
    omega

theorem cell_cover (region : KernelImagesForRegion) (nx ny : Nat) (hx : 0 < nx) (hy : 0 < ny)
    (x y : Int) (h : region.bbox.contains x y) :
    ∃ ix iy : Nat, ix < nx ∧ iy < ny ∧ (region.cell nx ny ix iy).bbox.contains x y := by
  unfold BoxI.contains at h
  obtain ⟨ix, hix, hx1, hx2⟩ := cellStart_cover region.bbox.width nx (x - region.bbox.minX)
    (by omega) nx (by rw [cellStart_self _ _ hx]; omega)
  obtain ⟨iy, hiy, hy1, hy2⟩ := cellStart_cover region.bbox.height ny (y - region.bbox.minY)
    (by omega) ny (by rw [cellStart_self _ _ hy]; omega)
  refine ⟨ix, iy, hix, hiy, ?_⟩
  simp only [KernelImagesForRegion.cell, BoxI.contains]
  omega

theorem cell_disjoint (region : KernelImagesForRegion) (nx ny ix iy jx jy : Nat)
    (hix : ix < nx) (hiy : iy < ny) (hne : ix ≠ jx ∨ iy ≠ jy) :
    (region.cell nx ny ix iy).bbox.disjoint (region.cell nx ny jx jy).bbox := by
  intro x y h
  simp only [KernelImagesForRegion.cell, BoxI.contains] at h
  obtain ⟨⟨a1, a2, a3, a4⟩, b1, b2, b3, b4⟩ := h
  have ex := cellStart_unique region.bbox.width nx ix jx hix (x - region.bbox.minX)
    (by omega) (by omega) (by omega) (by omega)
  have ey := cellStart_unique region.bbox.height ny iy jy hiy (y - region.bbox.minY)
    (by omega) (by omega) (by omega) (by omega)
  omega

theorem grid_pairwise_disjoint (region : KernelImagesForRegion) (nx ny : Int) :
    (region.getSubregionsGrid nx ny).Pairwise (fun a b => a.bbox.disjoint b.bbox) := by
  unfold KernelImagesForRegion.getSubregionsGrid
  rw [List.pairwise_flatMap]
  constructor
  · intro iy hiy
    rw [List.pairwise_map]
    refine (List.pairwise_lt_range nx.toNat).imp_of_mem ?_
    intro a b ha hb hab
    exact cell_disjoint region _ _ a iy b iy (List.mem_range.1 ha) (List.mem_range.1 hiy)
      (Or.inl (by omega))
  · refine (List.pairwise_lt_range ny.toNat).imp_of_mem ?_
    intro a b ha hb hab c hc d hd
    obtain ⟨ix, hix, rfl⟩ := List.mem_map.1 hc
    obtain ⟨jx, hjx, rfl⟩ := List.mem_map.1 hd
    exact cell_disjoint region _ _ ix a jx b (List.mem_range.1 hix) (List.mem_range.1 ha)
      (Or.inr (by omega))

theorem grid_union (region : KernelImagesForRegion) (nx ny : Int)
    (hn : (0 < nx ∧ 0 < ny) ∨ region.bbox.width ≤ 0 ∨ region.bbox.height ≤ 0) (x y : Int) :
    region.bbox.contains x y ↔ ∃ c ∈ region.getSubregionsGrid nx ny, c.bbox.contains x y := by
  constructor
  · intro h
    rcases hn with ⟨hx, hy⟩ | hw | hh
    · obtain ⟨ix, iy, hix, hiy, hc⟩ := cell_cover region nx.toNat ny.toNat (by omega) (by omega)
        x y h
      refine ⟨region.cell nx.toNat ny.toNat ix iy, ?_, hc⟩
      simp only [KernelImagesForRegion.getSubregionsGrid, List.mem_flatMap, List.mem_map,
        List.mem_range]
      exact ⟨iy, hiy, ix, hix, rfl⟩
    · unfold BoxI.contains at h
      omega
    · unfold BoxI.contains at h
      omega
  · rintro ⟨c, hc, hcont⟩
    obtain ⟨ix, iy, hx, hy, rfl⟩ := mem_getSubregionsGrid _ _ _ c hc
    exact cell_contains _ _ _ ix iy hx hy x y hcont

/-- C11: the four subregions of a region are pairwise disjoint and their union is
the region's box; and for `maxInterpolationDistance ≥ 1` the cells of the grid
`convolveWithInterpolation` builds are pairwise disjoint and their union is
`goodBBox`. -/
theorem C11_subregions_tile (region : KernelImagesForRegion) (outImage : Image ℚ)
    (kernel : Kernel) (ctrl : ConvolutionControl) (hd : 1 ≤ ctrl.maxInterpolationDistance) :
    (∀ x y : Int, region.bbox.contains x y ↔
      ∃ c ∈ region.getSubregions, c.bbox.contains x y) ∧
    region.getSubregions.Pairwise (fun a b => a.bbox.disjoint b.bbox) ∧
    (∀ x y : Int, (goodBBox outImage kernel).contains x y ↔
      ∃ c ∈ subregionList outImage kernel ctrl, c.bbox.contains x y) ∧
    (subregionList outImage kernel ctrl).Pairwise (fun a b => a.bbox.disjoint b.bbox) := by
  refine ⟨fun x y => grid_union region 2 2 (Or.inl ⟨by decide, by decide⟩) x y,
    grid_pairwise_disjoint region 2 2, fun x y => ?_, grid_pairwise_disjoint _ _ _⟩
  refine grid_union ⟨kernel, goodBBox outImage kernel, ctrl.doNormalize⟩ _ _ ?_ x y
  by_cases hw : (goodBBox outImage kernel).width ≤ 0
  · exact Or.inr (Or.inl hw)
  · by_cases hh : (goodBBox outImage kernel).height ≤ 0
    · exact Or.inr (Or.inr hh)
    · left
      have h1 := subregionCount_eq_floor (goodBBox outImage kernel).width
        ctrl.maxInterpolationDistance (by omega) hd
      have h2 := subregionCount_eq_floor (goodBBox outImage kernel).height
        ctrl.maxInterpolationDistance (by omega) hd
      have f1 : (0 : Int) ≤ ⌊((goodBBox outImage kernel).width : ℚ) /
          (ctrl.maxInterpolationDistance : ℚ)⌋ := by
        rw [floor_div_eq_ediv _ _ hd]
        exact Int.ediv_nonneg (by omega) (by omega)
      have f2 : (0 : Int) ≤ ⌊((goodBBox outImage kernel).height : ℚ) /
          (ctrl.maxInterpolationDistance : ℚ)⌋ := by
        rw [floor_div_eq_ediv _ _ hd]
        exact Int.ediv_nonneg (by omega) (by omega)
      constructor <;> omega

/-- C11 at a concrete input: the 5×4 region, and the grid over the 96×96 good box
of a 100×100 image under a 5×5 kernel with `maxInterpolationDistance = 50`; pixel
(50, 2) of the good box lies in a cell. -/
theorem C11_subregions_tile_witness :
    region54.getSubregions.Pairwise (fun a b => a.bbox.disjoint b.bbox) ∧
    (subregionList zeroImage100 boxKernel5 control50).Pairwise
      (fun a b => a.bbox.disjoint b.bbox) ∧
    ∃ c ∈ subregionList zeroImage100 boxKernel5 control50, c.bbox.contains 50 2 :=
  ⟨(C11_subregions_tile region54 zeroImage100 boxKernel5 control50 (by decide)).2.1,
    (C11_subregions_tile region54 zeroImage100 boxKernel5 control50 (by decide)).2.2.2,
    ((C11_subregions_tile region54 zeroImage100 boxKernel5 control50 (by decide)).2.2.1 50 2).1
      (by decide)⟩

/-! ## The interpolation distance is not checked -/

/-- C16 as stated fails: with `maxInterpolationDistance = -10`, a 4×4 image pair
and a 3×3 kernel, `convolveWithInterpolation` returns normally and has written
output pixel (1, 1); with distance 0 the call ends in the division by zero, not
in a configuration error. -/
theorem C16_negative_distance_is_processed :
    (∃ r, convolveWithInterpolation 1 zeroImage44 countImage44 (boxKernel3 10 true)
        controlNeg10 = some r ∧ r.1 = Outcome.ok ∧ r.2.outImage.pix 1 1 = 5 ∧
        zeroImage44.pix 1 1 = 0) ∧
    convolveWithInterpolation 1 zeroImage44 countImage44 (boxKernel3 10 true) controlZero =
      some (Outcome.undefinedBehaviour, ⟨zeroImage44, []⟩) := by
  have hrun : convolveWithInterpolation 1 zeroImage44 countImage44 (boxKernel3 10 true)
      controlNeg10 = some (Outcome.ok, (ConvState.mk zeroImage44 []).bruteForce countImage44
        ⟨boxKernel3 10 true, ⟨1, 1, 2, 2⟩, false⟩) := rfl
  refine ⟨⟨_, hrun, rfl, ?_, rfl⟩, rfl⟩
  simp only [ConvState.bruteForce, convolveWithBruteForce, shrinkBBox_growBBox]
  rw [if_pos (by decide)]
  simp [convolveAtAPoint, boxKernel3, countImage44, Finset.sum_range_succ]
  norm_num

/-- C16 as amended: `convolveWithInterpolation` makes no check of
`maxInterpolationDistance`. For images of equal dimensions and a distance
`d ≤ 0` the call never ends with the invalid-parameter error: either `d = 0` and
it ends in the integer division by `d`, the output image as it was, or `d < 0`
and it goes on to the regions of the grid with the counts `1 + w / d`. -/
theorem C16_distance_is_not_checked (fuel : Nat) (outImage inImage : Image ℚ) (kernel : Kernel)
    (ctrl : ConvolutionControl)
    (hdim : (outImage.width, outImage.height) = (inImage.width, inImage.height))
    (hd : ctrl.maxInterpolationDistance ≤ 0) :
    (∀ r, convolveWithInterpolation fuel outImage inImage kernel ctrl = some r →
      r.1 ≠ Outcome.invalidParameter) ∧
    ((ctrl.maxInterpolationDistance = 0 ∧
      convolveWithInterpolation fuel outImage inImage kernel ctrl =
        some (Outcome.undefinedBehaviour, ⟨outImage, []⟩)) ∨
    (ctrl.maxInterpolationDistance < 0 ∧
      convolveWithInterpolation fuel outImage inImage kernel ctrl =
        ((subregionList outImage kernel ctrl).foldlM
          (fun s r => convolveRegionWithRecursiveInterpolation fuel s inImage r
            ctrl.maxInterpolationError) ⟨outImage, []⟩).map fun s => (Outcome.ok, s))) := by
  refine ⟨?_, ?_⟩
  · intro r hr
    rw [convolveWithInterpolation, if_neg (fun hne => hne hdim)] at hr
    by_cases h0 : ctrl.maxInterpolationDistance = 0
    · rw [if_pos h0] at hr
      cases hr
      simp
    · rw [if_neg h0] at hr
      rcases Option.map_eq_some'.1 hr with ⟨s, _, hs⟩
      rw [← hs]
      simp
  · by_cases h0 : ctrl.maxInterpolationDistance = 0
    · left
      refine ⟨h0, ?_⟩
      rw [convolveWithInterpolation, if_neg (fun hne => hne hdim), if_pos h0]
    · right
      refine ⟨by omega, ?_⟩
      rw [convolveWithInterpolation, if_neg (fun hne => hne hdim), if_neg h0]

/-- C16 as amended, at concrete calls: distances 0 and -10 on a 4×4 image pair. -/
theorem C16_distance_is_not_checked_witness :
    (∀ r, convolveWithInterpolation 1 zeroImage44 countImage44 (boxKernel3 10 true)
        controlZero = some r → r.1 ≠ Outcome.invalidParameter) ∧
    ∀ r, convolveWithInterpolation 1 zeroImage44 countImage44 (boxKernel3 10 true)
        controlNeg10 = some r → r.1 ≠ Outcome.invalidParameter :=
  ⟨(C16_distance_is_not_checked 1 zeroImage44 countImage44 (boxKernel3 10 true) controlZero rfl
      (by decide)).1,
    (C16_distance_is_not_checked 1 zeroImage44 countImage44 (boxKernel3 10 true) controlNeg10 rfl
      (by decide)).1⟩

/-! ## A linear ramp on the interpolated path -/

/-- C14 (code defect): a 6×6 ramp image (pixel `(x, y)` holds `x`) under the 3×3
box kernel of weights `1/9` (symmetric, sum 1). On the interpolated path
(minimum interpolation size 2) `convolveWithInterpolation` writes `2` at pixel
`(1, 2)` of the good box, where the input holds `1`; on the brute-force path
(minimum interpolation size 10) it writes `1`. -/
theorem C14_ramp_shifted_on_interpolated_rows :
    (goodBBox zeroImage66 (boxKernel3 2 true)).contains 1 2 ∧
    rampX66.pix 1 2 = 1 ∧
    kernelSum ((boxKernel3 2 true).computeImage 1 2 false) 3 3 = 1 ∧
    (∃ r, convolveWithInterpolation 1 zeroImage66 rampX66 (boxKernel3 2 true) control10 =
        some r ∧ r.1 = Outcome.ok ∧
        Call.interpolation (goodRegion66.cell 2 2 0 0) ∈ r.2.calls ∧
        r.2.outImage.pix 1 2 = 2) ∧
    (∃ r, convolveWithInterpolation 1 zeroImage66 rampX66 (boxKernel3 10 true) control10 =
        some r ∧ r.1 = Outcome.ok ∧ r.2.outImage.pix 1 2 = 1) := by
  have hrun : convolveWithInterpolation 1 zeroImage66 rampX66 (boxKernel3 2 true) control10 =
      some (Outcome.ok, ((((ConvState.mk zeroImage66 []).interpolation rampX66
        (goodRegion66.cell 2 2 0 0)).interpolation rampX66
        (goodRegion66.cell 2 2 1 0)).interpolation rampX66
        (goodRegion66.cell 2 2 0 1)).interpolation rampX66 (goodRegion66.cell 2 2 1 1)) := rfl
  have hbf : convolveWithInterpolation 1 zeroImage66 rampX66 (boxKernel3 10 true) control10 =
      some (Outcome.ok, (ConvState.mk zeroImage66 []).bruteForce rampX66
        ⟨boxKernel3 10 true, ⟨1, 1, 4, 4⟩, false⟩) := rfl
  refine ⟨by decide, ?_, ?_, ⟨_, hrun, rfl, ?_, ?_⟩, ⟨_, hbf, rfl, ?_⟩⟩
  · simp [rampX66]
  · simp [kernelSum, boxKernel3, Finset.sum_range_succ]
    norm_num
  · simp [ConvState.interpolation]
  · simp only []
    rw [interpolation_frame _ _ _ _ _ (by decide), interpolation_frame _ _ _ _ _ (by decide),
      interpolation_frame _ _ _ _ _ (by decide)]
    simp only [ConvState.interpolation, convolveRegionWithInterpolation]
    rw [convolveRegionWithInterpolationWith_pix _ _ _ _ (by decide), if_pos (by decide)]
    simp [convolveAtAPoint, goodRegion66, boxKernel3, rampX66, Image.view, Kernel.growBBox,
      KernelImagesForRegion.cell, cellStart, sweptKernelImage, scaledPlus,
      KernelImagesForRegion.getImage, Finset.sum_range_succ]
    norm_num
  · simp only [ConvState.bruteForce, convolveWithBruteForce, shrinkBBox_growBBox]
    rw [if_pos (by decide)]
    simp [convolveAtAPoint, boxKernel3, rampX66, Finset.sum_range_succ]
    norm_num

/-! ## Interpolation error -/

/-- C12 as stated fails: 1×1 kernel of weight `x²`, constant input 10, tolerance
1. The 6×6 region passes the adequacy test and is interpolated; at pixel (1, 0)
the kernel image used is within 1 of the exact one, and the value written, 20,
differs from the brute-force value, 10, by more than the tolerance. -/
theorem C12_output_error_exceeds_tolerance :
    ∃ st', convolveRegionWithRecursiveInterpolation 1 ⟨zeroImage66, []⟩ constImage66 region66 1 =
        some st' ∧
      Call.interpolation (region66.cell 2 2 0 0) ∈ st'.calls ∧
      (region66.cell 2 2 0 0).bbox.contains 1 0 ∧
      |kernelImageUsed (region66.cell 2 2 0 0) 1 0 0 0 -
        squareKernel.computeImage 1 0 false 0 0| ≤ 1 ∧
      st'.outImage.pix 1 0 = 20 ∧
      (convolveWithBruteForce zeroImage66 constImage66 (squareKernel.growBBox region66.bbox)
        squareKernel false).pix 1 0 = 10 ∧
      ¬ |st'.outImage.pix 1 0 -
        (convolveWithBruteForce zeroImage66 constImage66 (squareKernel.growBBox region66.bbox)
          squareKernel false).pix 1 0| ≤ 1 := by
  have hrun : convolveRegionWithRecursiveInterpolation 1 ⟨zeroImage66, []⟩ constImage66
      region66 1 =
      some ((((ConvState.mk zeroImage66 []).interpolation constImage66
        (region66.cell 2 2 0 0)).interpolation constImage66
        (region66.cell 2 2 1 0)).interpolation constImage66
        (region66.cell 2 2 0 1) |>.interpolation constImage66 (region66.cell 2 2 1 1)) := by
    rw [solver_step, if_neg (by decide), if_pos (by decide)]
  have hpix : ((((ConvState.mk zeroImage66 []).interpolation constImage66
        (region66.cell 2 2 0 0)).interpolation constImage66
        (region66.cell 2 2 1 0)).interpolation constImage66
        (region66.cell 2 2 0 1) |>.interpolation constImage66
        (region66.cell 2 2 1 1)).outImage.pix 1 0 = 20 := by
    rw [interpolation_frame _ _ _ _ _ (by decide), interpolation_frame _ _ _ _ _ (by decide),
      interpolation_frame _ _ _ _ _ (by decide)]
    simp only [ConvState.interpolation, convolveRegionWithInterpolation]
    rw [convolveRegionWithInterpolationWith_pix _ _ _ _ (by decide), if_pos (by decide)]
    simp [convolveAtAPoint, region66, squareKernel, constImage66, Image.view, Kernel.growBBox,
      KernelImagesForRegion.cell, cellStart, sweptKernelImage, scaledPlus,
      KernelImagesForRegion.getImage, Finset.sum_range_succ]
    norm_num
  have hbf : (convolveWithBruteForce zeroImage66 constImage66
      (squareKernel.growBBox region66.bbox) squareKernel false).pix 1 0 = 10 := by
    simp only [convolveWithBruteForce, shrinkBBox_growBBox]
    rw [if_pos (by decide)]
    simp [convolveAtAPoint, squareKernel, constImage66, Finset.sum_range_succ]
  refine ⟨_, hrun, ?_, by decide, ?_, hpix, hbf, ?_⟩
  · simp [ConvState.interpolation]
  · rw [kernelImageUsed_eq _ 1 0 (by decide) (by decide) (by decide) (by decide)]
    simp [bilinear, region66, squareKernel, KernelImagesForRegion.cell, cellStart,
      KernelImagesForRegion.getImage]
    norm_num
  · rw [hpix, hbf]
    norm_num

theorem convolveAtAPoint_sub_le (inView : Int → Int → ℚ) (locX locY : Int)
    (k1 k2 : KernelImage) (kWidth kHeight : Nat) (e : ℚ)
    (h : ∀ i j : Nat, i < kWidth → j < kHeight → |k1 i j - k2 i j| ≤ e) :
    |convolveAtAPoint inView locX locY k1 kWidth kHeight -
      convolveAtAPoint inView locX locY k2 kWidth kHeight| ≤
      e * blockAbsSum inView locX locY kWidth kHeight := by
  unfold convolveAtAPoint blockAbsSum
  rw [← Finset.sum_sub_distrib, Finset.mul_sum]
  refine le_trans (Finset.abs_sum_le_sum_abs _ _) (Finset.sum_le_sum fun kRow hRow => ?_)
  rw [← Finset.sum_sub_distrib, Finset.mul_sum]
  refine le_trans (Finset.abs_sum_le_sum_abs _ _) (Finset.sum_le_sum fun kCol hCol => ?_)
  rw [← mul_sub, abs_mul, mul_comm]
  exact mul_le_mul_of_nonneg_right
    (h kCol kRow (Finset.mem_range.1 hCol) (Finset.mem_range.1 hRow)) (abs_nonneg _)

/-- The bottom row of one call of `convolveRegionWithInterpolation`: when linear
interpolation is adequate on the region, each pixel of the row is within
`maxInterpolationError` times the absolute sum of its input block of the value
brute force gives it. -/
theorem interpolation_bottom_row (st : ConvState) (inImage : Image ℚ)
    (q : KernelImagesForRegion) (e : ℚ) (hW : 2 ≤ q.bbox.width) (hH : 2 ≤ q.bbox.height)
    (hq : q.interpolationWithin e) (c : Nat) (hc : (c : Int) < q.bbox.width) :
    |(st.interpolation inImage q).outImage.pix (q.bbox.minX + c) q.bbox.minY -
      bruteForceValue inImage q.kernel q.doNormalize (q.bbox.minX + c) q.bbox.minY| ≤
    e * blockAbsSum inImage.pix (q.bbox.minX + c - q.kernel.ctrX) (q.bbox.minY - q.kernel.ctrY)
      q.kernel.width q.kernel.height := by
  have hin : q.bbox.contains (q.bbox.minX + c) q.bbox.minY := by
    unfold BoxI.contains; omega
  simp only [ConvState.interpolation, convolveRegionWithInterpolation]
  rw [convolveRegionWithInterpolationWith_pix _ _ _ _ (by omega), if_pos hin,
    sweptKernelImage_eq_bilinear _ _ hW hH]
  have hx : q.bbox.minY - q.bbox.minY + (q.bbox.minX + c - q.bbox.minX) = c := by omega
  have h1 : q.bbox.minX + (c : Int) - q.bbox.minX = (c : Int) := by omega
  have h2 : q.bbox.minY - q.bbox.minY = (0 : Int) := by omega
  rw [hx, h1, h2]
  have hview : ∀ k : KernelImage,
      convolveAtAPoint (inImage.view (q.kernel.growBBox q.bbox)) c 0 k q.kernel.width
        q.kernel.height =
      convolveAtAPoint inImage.pix (q.bbox.minX + c - q.kernel.ctrX)
        (q.bbox.minY - q.kernel.ctrY) k q.kernel.width q.kernel.height := by
    intro k
    unfold convolveAtAPoint Image.view Kernel.growBBox
    refine Finset.sum_congr rfl fun kRow _ => Finset.sum_congr rfl fun kCol _ => ?_
    have e1 : q.bbox.minX - q.kernel.ctrX + ((c : Int) + kCol) =
        q.bbox.minX + c - q.kernel.ctrX + kCol := by ring
    have e2 : q.bbox.minY - q.kernel.ctrY + (0 + (kRow : Int)) =
        q.bbox.minY - q.kernel.ctrY + kRow := by ring
    simp only [e1, e2]
  rw [hview]
  unfold bruteForceValue
  refine convolveAtAPoint_sub_le _ _ _ _ _ _ _ _ ?_
  intro i j hi hj
  have h := hq c 0 hc (by omega) i j hi hj
  simpa using h

/-- A pixel of a quarter of a region is outside the rows and columns that
`convolveRegionWithInterpolation` writes for another quarter, when the first
quarter has at least two rows and two columns. -/
theorem quarter_not_written (region : KernelImagesForRegion) (ix iy jx jy : Nat)
    (hix : ix < 2) (hiy : iy < 2) (hjx : jx < 2) (hjy : jy < 2) (hne : ix ≠ jx ∨ iy ≠ jy)
    (hW : 2 ≤ (region.cell 2 2 ix iy).bbox.width) (hH : 2 ≤ (region.cell 2 2 ix iy).bbox.height)
    (x y : Int) (hxy : (region.cell 2 2 ix iy).bbox.contains x y) :
    ¬ ((region.cell 2 2 jx jy).bbox.minX ≤ x ∧
      x < (region.cell 2 2 jx jy).bbox.minX + (region.cell 2 2 jx jy).bbox.width ∧
      (region.cell 2 2 jx jy).bbox.minY ≤ y ∧
      y < (region.cell 2 2 jx jy).bbox.minY + max (region.cell 2 2 jx jy).bbox.height 1) := by
  obtain ⟨w0, w1, w2⟩ := cellStart_two region.bbox.width
  obtain ⟨h0, h1, h2⟩ := cellStart_two region.bbox.height
  have hix2 : ix = 0 ∨ ix = 1 := by omega
  have hiy2 : iy = 0 ∨ iy = 1 := by omega
  have hjx2 : jx = 0 ∨ jx = 1 := by omega
  have hjy2 : jy = 0 ∨ jy = 1 := by omega
  unfold BoxI.contains at hxy
  rcases hix2 with rfl | rfl <;> rcases hiy2 with rfl | rfl <;>
    rcases hjx2 with rfl | rfl <;> rcases hjy2 with rfl | rfl <;>
    simp only [KernelImagesForRegion.cell, Nat.zero_add, Nat.reduceAdd, w0, w1, w2, h0, h1,
      h2] at hW hH hxy ⊢ <;>
    omega

/-- C12 as amended, in exact arithmetic: when `convolveRegionWithRecursiveInterpolation`
finds a region not too small and its interpolation adequate, and the adequacy
test keeps its promise for the region, the function returns having interpolated
the four subregions, and for each subregion of at least two rows and two
columns every pixel of its bottom row differs from the value brute force gives
it by at most `maxInterpolationError` times the sum of the absolute values of
the input pixels under the kernel. -/
theorem C12_output_error_bound (fuel : Nat) (st : ConvState) (inImage : Image ℚ)
    (region : KernelImagesForRegion) (maxInterpolationError : ℚ)
    (hbig : ¬ (region.bbox.width < region.kernel.minInterpolationSize ∨
      region.bbox.height < region.kernel.minInterpolationSize))
    (hok : region.isInterpolationOk maxInterpolationError = true)
    (hsound : region.adequacyIsSound maxInterpolationError) :
    ∃ st', convolveRegionWithRecursiveInterpolation (fuel + 1) st inImage region
        maxInterpolationError = some st' ∧
      ∀ q ∈ region.getSubregions, 2 ≤ q.bbox.width → 2 ≤ q.bbox.height →
        Call.interpolation q ∈ st'.calls ∧
        ∀ c : Nat, (c : Int) < q.bbox.width →
          |st'.outImage.pix (q.bbox.minX + c) q.bbox.minY -
            bruteForceValue inImage region.kernel region.doNormalize (q.bbox.minX + c)
              q.bbox.minY| ≤
          maxInterpolationError *
            blockAbsSum inImage.pix (q.bbox.minX + c - region.kernel.ctrX)
              (q.bbox.minY - region.kernel.ctrY) region.kernel.width region.kernel.height := by
  rw [solver_step, if_neg hbig, if_pos hok]
  refine ⟨_, rfl, ?_⟩
  intro q hq hW hH
  have hwithin := hsound hok q hq
  rw [getSubregions_eq] at hq
  simp only [List.mem_cons, List.mem_singleton, List.not_mem_nil, or_false] at hq
  have hrow : ∀ c : Nat, (c : Int) < q.bbox.width →
      q.bbox.contains (q.bbox.minX + c) q.bbox.minY := by
    intro c hc
    unfold BoxI.contains
    omega
  rcases hq with rfl | rfl | rfl | rfl
  · refine ⟨by simp [ConvState.interpolation], fun c hc => ?_⟩
    rw [interpolation_frame _ _ _ _ _
        (quarter_not_written region 0 0 1 1 (by omega) (by omega) (by omega) (by omega)
          (by omega) hW hH _ _ (hrow c hc)),
      interpolation_frame _ _ _ _ _
        (quarter_not_written region 0 0 0 1 (by omega) (by omega) (by omega) (by omega)
          (by omega) hW hH _ _ (hrow c hc)),
      interpolation_frame _ _ _ _ _
        (quarter_not_written region 0 0 1 0 (by omega) (by omega) (by omega) (by omega)
          (by omega) hW hH _ _ (hrow c hc))]
    exact interpolation_bottom_row _ inImage _ _ hW hH hwithin c hc
  · refine ⟨by simp [ConvState.interpolation], fun c hc => ?_⟩
    rw [interpolation_frame _ _ _ _ _
        (quarter_not_written region 1 0 1 1 (by omega) (by omega) (by omega) (by omega)
          (by omega) hW hH _ _ (hrow c hc)),
      interpolation_frame _ _ _ _ _
        (quarter_not_written region 1 0 0 1 (by omega) (by omega) (by omega) (by omega)
          (by omega) hW hH _ _ (hrow c hc))]
    exact interpolation_bottom_row _ inImage _ _ hW hH hwithin c hc
  · refine ⟨by simp [ConvState.interpolation], fun c hc => ?_⟩
    rw [interpolation_frame _ _ _ _ _
        (quarter_not_written region 0 1 1 1 (by omega) (by omega) (by omega) (by omega)
          (by omega) hW hH _ _ (hrow c hc))]
    exact interpolation_bottom_row _ inImage _ _ hW hH hwithin c hc
  · refine ⟨by simp [ConvState.interpolation], fun c hc => ?_⟩
    exact interpolation_bottom_row _ inImage _ _ hW hH hwithin c hc

theorem region66_adequacyIsSound : region66.adequacyIsSound 1 := by
  intro _ q hq c r hc hr i j _ _
  rw [getSubregions_eq] at hq
  simp only [List.mem_cons, List.mem_singleton, List.not_mem_nil, or_false] at hq
  have hc3 : c < 3 := by
    rcases hq with rfl | rfl | rfl | rfl <;>
      simp [KernelImagesForRegion.cell, cellStart, region66] at hc <;> omega
  rcases hq with rfl | rfl | rfl | rfl <;> interval_cases c <;>
    simp [bilinear, region66, squareKernel, KernelImagesForRegion.cell, cellStart,
      KernelImagesForRegion.getImage] <;>
    norm_num <;> ring_nf <;> norm_num

/-- C12 as amended, at the input of the counterexample: the 6×6 region under the
square kernel, tolerance 1, constant input 10. The adequacy test keeps its
promise there, and pixel (1, 0), in the bottom row of the first 3×3 subregion,
is within `1 * 10` of the brute-force value. -/
theorem C12_output_error_bound_witness :
    region66.adequacyIsSound 1 ∧
    ∃ st', convolveRegionWithRecursiveInterpolation 1 ⟨zeroImage66, []⟩ constImage66 region66 1 =
        some st' ∧
      Call.interpolation (region66.cell 2 2 0 0) ∈ st'.calls ∧
      |st'.outImage.pix 1 0 - bruteForceValue constImage66 squareKernel false 1 0| ≤
        1 * blockAbsSum constImage66.pix 1 0 1 1 := by
  obtain ⟨st', hrun, hall⟩ := C12_output_error_bound 0 ⟨zeroImage66, []⟩ constImage66 region66 1
    (by decide) rfl region66_adequacyIsSound
  have h := hall (region66.cell 2 2 0 0) (by rw [getSubregions_eq]; simp) (by decide) (by decide)
  exact ⟨region66_adequacyIsSound, st', hrun, h.1, h.2 1 (by decide)⟩

/-! ## States painted with a pixel function -/

theorem Paints.trans {v : Int → Int → ℚ} {s0 s1 s2 : ConvState} (h1 : Paints v s0 s1)
    (h2 : Paints v s1 s2) : Paints v s0 s2 := by
  intro x y
  rcases h2 x y with h | h
  · exact Or.inl h
  · rcases h1 x y with h' | h'
    · exact Or.inl (h.trans h')
    · exact Or.inr (h.trans h')

theorem Covers.step {v : Int → Int → ℚ} {b : BoxI} {s1 s2 : ConvState} (h1 : Covers v b s1)
    (h2 : Paints v s1 s2) : Covers v b s2 := by
  intro x y hb
  rcases h2 x y with h | h
  · exact h
  · exact h.trans (h1 x y hb)

theorem foldlM_paints (v : Int → Int → ℚ)
    (f : ConvState → KernelImagesForRegion → Option ConvState)
    (regions : List KernelImagesForRegion) :
    (∀ r ∈ regions, ∀ s s', f s r = some s' → Paints v s s' ∧ Covers v r.bbox s') →
    ∀ st st', regions.foldlM f st = some st' →
      Paints v st st' ∧ ∀ r ∈ regions, Covers v r.bbox st' := by
  induction regions with
  | nil =>
    intro _ st st' hrun
    simp only [List.foldlM, Option.pure_def, Option.some.injEq] at hrun
    subst hrun
    exact ⟨fun x y => Or.inr rfl, fun r hr => absurd hr (List.not_mem_nil r)⟩
  | cons r rest ih =>
    intro hstep st st' hrun
    rw [List.foldlM_cons] at hrun
    obtain ⟨s, hs, hrest⟩ := Option.bind_eq_some.1 hrun
    obtain ⟨hp, hc⟩ := hstep r (List.mem_cons_self _ _) st s hs
    obtain ⟨hp', hc'⟩ := ih (fun r' hr' => hstep r' (List.mem_cons_of_mem _ hr')) s st' hrest
    refine ⟨hp.trans hp', ?_⟩
    intro r' hr'
    rcases List.mem_cons.1 hr' with rfl | hmem
    · exact hc.step hp'
    · exact hc' r' hmem

theorem subregionCount_pos (w d : Int) (hw : 0 ≤ w) (hd : 1 ≤ d) : 0 < subregionCount w d := by
  rw [subregionCount, Int.tdiv_eq_ediv hw (by omega)]
  have := Int.ediv_nonneg hw (show 0 ≤ d by omega)
  omega

theorem subregionList_union (outImage : Image ℚ) (kernel : Kernel) (ctrl : ConvolutionControl)
    (hd : 1 ≤ ctrl.maxInterpolationDistance) (x y : Int) :
    (goodBBox outImage kernel).contains x y ↔
      ∃ c ∈ subregionList outImage kernel ctrl, c.bbox.contains x y := by
  refine grid_union ⟨kernel, goodBBox outImage kernel, ctrl.doNormalize⟩ _ _ ?_ x y
  by_cases hw : (goodBBox outImage kernel).width ≤ 0
  · exact Or.inr (Or.inl hw)
  · by_cases hh : (goodBBox outImage kernel).height ≤ 0
    · exact Or.inr (Or.inr hh)
    · exact Or.inl ⟨subregionCount_pos _ _ (by omega) hd, subregionCount_pos _ _ (by omega) hd⟩

/-! ## Interpolation distance 1 -/

/-- C15 as stated fails: with minimum interpolation size 1, a 2×2 image pair, a
1×1 kernel and `maxInterpolationDistance = 1`, the grid has a 1×1 cell, which is
not smaller than the minimum interpolation size, and the 1×1 box at the origin
is handed to `convolveRegionWithInterpolation`. -/
theorem C15_unit_cell_is_interpolated :
    ∃ r, convolveWithInterpolation 1 zeroImage rampY (unitKernel 1 true) controlOne = some r ∧
      r.1 = Outcome.ok ∧
      some (⟨0, 0, 1, 1⟩ : BoxI) ∈ r.2.calls.map Call.interpolatedBox ∧
      ∃ cell ∈ subregionList zeroImage (unitKernel 1 true) controlOne,
        ¬ (cell.bbox.width < cell.getMinInterpolationSize ∨
          cell.bbox.height < cell.getMinInterpolationSize) :=
  ⟨_, rfl, rfl, by decide,
    (⟨unitKernel 1 true, ⟨0, 0, 2, 2⟩, false⟩ : KernelImagesForRegion).cell 3 3 1 1,
    by simp [subregionList, KernelImagesForRegion.getSubregionsGrid, goodBBox, subregionCount,
      Kernel.shrinkBBox, unitKernel, controlOne, zeroImage, List.range_succ], by decide⟩

theorem cellStart_antitone (w : Int) (n i : Nat) (hw : w ≤ 0) :
    cellStart w n (i + 1) - cellStart w n i ≤ 0 := by
  unfold cellStart
  rcases Nat.eq_zero_or_pos n with hn | hn
  · subst hn
    simp
  · have : (((i + 1 : Nat) : Int) * w) / (n : Int) ≤ ((i : Int) * w) / (n : Int) := by
      apply Int.ediv_le_ediv (by omega)
      push_cast
      nlinarith
    omega

theorem cell_length_le_distance (w d : Int) (hd : 1 ≤ d) (i : Nat) :
    cellStart w (subregionCount w d).toNat (i + 1) - cellStart w (subregionCount w d).toNat i ≤
      d := by
  by_cases hw : 1 ≤ w
  · have hceil := ceil_div_subregionCount_le w d hw hd
    have hcount := subregionCount_pos w d (by omega) hd
    have hcast : (((subregionCount w d).toNat : Nat) : ℚ) = ((subregionCount w d : Int) : ℚ) := by
      have := Int.toNat_of_nonneg (le_of_lt hcount)
      exact_mod_cast congrArg (fun z : Int => (z : ℚ)) this
    have hb := cell_length_bounds w (subregionCount w d).toNat i
    rw [hcast] at hb
    exact le_trans hb.2 hceil
  · have := cellStart_antitone w (subregionCount w d).toNat i (by omega)
    omega

theorem bruteForce_value (st : ConvState) (inImage : Image ℚ) (region : KernelImagesForRegion) :
    Paints (bruteForceValue inImage region.kernel region.doNormalize) st
        (st.bruteForce inImage region) ∧
      Covers (bruteForceValue inImage region.kernel region.doNormalize) region.bbox
        (st.bruteForce inImage region) := by
  have hpix : ∀ x y : Int, (st.bruteForce inImage region).outImage.pix x y =
      if region.bbox.contains x y then
        bruteForceValue inImage region.kernel region.doNormalize x y
      else st.outImage.pix x y := by
    intro x y
    simp only [ConvState.bruteForce, convolveWithBruteForce, shrinkBBox_growBBox, bruteForceValue]
  constructor
  · intro x y
    rw [hpix]
    split_ifs
    · exact Or.inl rfl
    · exact Or.inr rfl
  · intro x y h
    rw [hpix, if_pos h]

theorem solver_small (fuel : Nat) (st : ConvState) (inImage : Image ℚ)
    (region : KernelImagesForRegion) (maxInterpolationError : ℚ)
    (hsmall : region.bbox.width < region.kernel.minInterpolationSize ∨
      region.bbox.height < region.kernel.minInterpolationSize) :
    convolveRegionWithRecursiveInterpolation (fuel + 1) st inImage region
      maxInterpolationError = some (st.bruteForce inImage region) := by
  rw [solver_step, if_pos hsmall]

theorem foldlM_small (fuel : Nat) (inImage : Image ℚ) (maxInterpolationError : ℚ)
    (regions : List KernelImagesForRegion) :
    (∀ r ∈ regions, r.bbox.width < r.kernel.minInterpolationSize ∨
      r.bbox.height < r.kernel.minInterpolationSize) →
    ∀ st : ConvState, ∃ st',
      regions.foldlM (fun s r => convolveRegionWithRecursiveInterpolation (fuel + 1) s inImage r
        maxInterpolationError) st = some st' ∧
      st'.calls = st.calls ++ regions.map Call.bruteForce := by
  induction regions with
  | nil =>
    intro _ st
    exact ⟨st, rfl, by simp⟩
  | cons r rest ih =>
    intro hsmall st
    obtain ⟨st', h1, h2⟩ := ih (fun r' hr' => hsmall r' (List.mem_cons_of_mem _ hr'))
      (st.bruteForce inImage r)
    refine ⟨st', ?_, ?_⟩
    · rw [List.foldlM_cons, solver_small fuel st inImage r maxInterpolationError
        (hsmall r (List.mem_cons_self _ _))]
      exact h1
    · rw [h2]
      simp [ConvState.bruteForce]

theorem mem_subregionList_kernel (outImage : Image ℚ) (kernel : Kernel)
    (ctrl : ConvolutionControl) (cell : KernelImagesForRegion)
    (hcell : cell ∈ subregionList outImage kernel ctrl) :
    cell.kernel = kernel ∧ cell.doNormalize = ctrl.doNormalize := by
  obtain ⟨ix, iy, _, _, rfl⟩ := mem_getSubregionsGrid _ _ _ cell hcell
  exact ⟨rfl, rfl⟩

/-- C15 as amended: when the minimum interpolation size is at least 2 and
`maxInterpolationDistance = 1`, every grid cell `convolveWithInterpolation`
dispatches is smaller than the minimum interpolation size, the call returns
having made exactly one brute-force call per cell and no other, and the output
image equals, pixel for pixel, a direct brute-force convolution of the whole
image. -/
theorem C15_distance_one_is_brute_force (fuel : Nat) (outImage inImage : Image ℚ)
    (kernel : Kernel) (ctrl : ConvolutionControl)
    (hdim : (outImage.width, outImage.height) = (inImage.width, inImage.height))
    (hd : ctrl.maxInterpolationDistance = 1) (hmin : 2 ≤ kernel.minInterpolationSize) :
    (∀ cell ∈ subregionList outImage kernel ctrl,
      cell.bbox.width < cell.getMinInterpolationSize ∨
        cell.bbox.height < cell.getMinInterpolationSize) ∧
    ∃ st', convolveWithInterpolation (fuel + 1) outImage inImage kernel ctrl =
        some (Outcome.ok, st') ∧
      st'.calls = (subregionList outImage kernel ctrl).map Call.bruteForce ∧
      ∀ x y : Int, st'.outImage.pix x y =
        (convolveWithBruteForce outImage inImage ⟨0, 0, outImage.width, outImage.height⟩ kernel
          ctrl.doNormalize).pix x y := by
  have hsmall : ∀ cell ∈ subregionList outImage kernel ctrl,
      cell.bbox.width < cell.kernel.minInterpolationSize ∨
        cell.bbox.height < cell.kernel.minInterpolationSize := by
    intro cell hcell
    obtain ⟨ix, iy, _, _, rfl⟩ := mem_getSubregionsGrid _ _ _ cell hcell
    left
    have := cell_length_le_distance (goodBBox outImage kernel).width ctrl.maxInterpolationDistance
      (by omega) ix
    simp only [KernelImagesForRegion.cell]
    omega
  refine ⟨hsmall, ?_⟩
  obtain ⟨st', hrun, hcalls⟩ := foldlM_small fuel inImage ctrl.maxInterpolationError
    (subregionList outImage kernel ctrl) hsmall ⟨outImage, []⟩
  refine ⟨st', ?_, by simpa using hcalls, ?_⟩
  · rw [convolveWithInterpolation, if_neg (fun hne => hne hdim), if_neg (by omega), hrun]
    rfl
  · intro x y
    have hfold := foldlM_paints (bruteForceValue inImage kernel ctrl.doNormalize)
      (fun s r => convolveRegionWithRecursiveInterpolation (fuel + 1) s inImage r
        ctrl.maxInterpolationError) (subregionList outImage kernel ctrl)
      (by
        intro cell hcell s1 s2 hstep
        have hs := hsmall cell hcell
        have hk := mem_subregionList_kernel outImage kernel ctrl cell hcell
        have hstep' : some (s1.bruteForce inImage cell) = some s2 :=
          (solver_small fuel s1 inImage cell ctrl.maxInterpolationError hs).symm.trans hstep
        have hv := bruteForce_value s1 inImage cell
        rw [hk.1, hk.2, Option.some.inj hstep'] at hv
        exact hv)
      ⟨outImage, []⟩ st' hrun
    simp only [convolveWithBruteForce]
    by_cases hxy : (kernel.shrinkBBox ⟨0, 0, outImage.width, outImage.height⟩).contains x y
    · rw [if_pos hxy]
      obtain ⟨cell, hcell, hc⟩ := (subregionList_union outImage kernel ctrl (by omega) x y).1 hxy
      exact hfold.2 cell hcell x y hc
    · rw [if_neg hxy]
      refine foldlM_frame inImage ctrl.maxInterpolationError (fuel + 1) x y _ ⟨outImage, []⟩ st'
        ?_ hrun
      intro cell hcell
      obtain ⟨ix, iy, hx, hy, rfl⟩ := mem_getSubregionsGrid _ _ _ cell hcell
      exact ⟨by simp only [KernelImagesForRegion.cell]; omega,
        fun h => hxy (cell_contains _ _ _ ix iy hx hy x y h)⟩

/-- C15 as amended, at a concrete call: a 4×4 image pair under the 3×3 box
kernel with minimum interpolation size 10 and distance 1. -/
theorem C15_distance_one_is_brute_force_witness :
    ∃ st', convolveWithInterpolation 1 zeroImage44 countImage44 (boxKernel3 10 true)
        controlOne = some (Outcome.ok, st') ∧
      st'.calls = (subregionList zeroImage44 (boxKernel3 10 true) controlOne).map
        Call.bruteForce ∧
      ∀ x y : Int, st'.outImage.pix x y =
        (convolveWithBruteForce zeroImage44 countImage44
          ⟨0, 0, zeroImage44.width, zeroImage44.height⟩ (boxKernel3 10 true)
          controlOne.doNormalize).pix x y :=
  (C15_distance_one_is_brute_force 0 zeroImage44 countImage44 (boxKernel3 10 true) controlOne rfl
    rfl (by decide)).2

/-! ## Claims about the GPU wrappers and the Transform names -/

/-- C22 (code and comment disagree): for the prefixes `Generic` and `Point3`,
`declareTransform` registers the class as `TransformGenericToPoint3`, not as
`TransformFromGenericToPoint3`, the name its own comment gives. -/
theorem C22_registered_name_has_no_From :
    declareTransform [] "Generic" "Point3" = ["TransformGenericToPoint3"] ∧
    pyClassName "Generic" "Point3" ≠ "TransformFrom" ++ "Generic" ++ "To" ++ "Point3" ∧
    formatStr 4 3 (pyClassName "Generic" "Point3") = "TransformGenericToPoint3[4->3]" := by
  refine ⟨by decide, by decide, by decide⟩

theorem warpImageGPU_wrapper_reached (env : GpuEnv)
    (destWidth destHeight srcWidth srcHeight : Int) (order interpLength : Int) (padValue : ℚ)
    (forceProcessing : Bool) (o i : Int)
    (h : WarpStep.warpImageGpuWrapper o i ∈
      (warpImageGPU env destWidth destHeight srcWidth srcHeight order interpLength padValue
        forceProcessing).2) :
    o = order ∧ order * 2 ≤ env.cWarpingKernelMaxSize := by
  unfold warpImageGPU at h
  split_ifs at h with h1 h2 h3 h4 h5
  · simp at h
  · simp at h
  · simp at h
  · simp at h
  · simp at h
  · cases hw : env.warpImageGpuWrapper destWidth destHeight srcWidth srcHeight order interpLength
      padValue <;> rw [hw] at h <;> simp at h <;> exact ⟨h.1, by omega⟩

/-- C23 (code defect): with `cWarpingKernelMaxSize = 100` and a kernel of order
50, `warpImageGPU` calls `WarpImageGpuWrapper` although `order * 2 < 100`, the
wrapper's stated precondition, does not hold: the guard before the call is
`order * 2 > cWarpingKernelMaxSize`, which lets equality through. -/
theorem C23_wrapper_reached_at_equality :
    WarpStep.warpImageGpuWrapper 50 5 ∈ (warpImageGPU gpuEnv 10 10 10 10 50 5 0 false).2 ∧
    ¬ ((50 : Int) * 2 < gpuEnv.cWarpingKernelMaxSize) := by
  refine ⟨by decide, by decide⟩

/-- C24 (code defect): in both overloads of `WarpImageGpuWrapper`, when every
buffer is obtained except the interpolation data (`srcPosInterpGpu.ptr` is
NULL), no exception is thrown and the GPU kernel is called: the test after the
transfer looks at `srcBlkGpu.ptr` again. -/
theorem C24_failed_interp_transfer_is_not_detected :
    interpTransferFailsImage.srcPosInterp = false ∧
    (warpImageGpuWrapperImage interpTransferFailsImage).result = Except.ok 42 ∧
    (warpImageGpuWrapperImage interpTransferFailsImage).kernelCalled = true ∧
    interpTransferFailsMaskedImage.srcPosInterp = false ∧
    (warpImageGpuWrapperMaskedImage interpTransferFailsMaskedImage).result = Except.ok 42 ∧
    (warpImageGpuWrapperMaskedImage interpTransferFailsMaskedImage).kernelCalled = true := by
  refine ⟨rfl, rfl, rfl, rfl, rfl, rfl⟩

/-! ## More cells than pixels -/

/-- C26: for a side of length `w ≥ 1` and `maxInterpolationDistance = d ≥ 1`, the
cell count `nx = 1 + w / d` is at most `w` if and only if `d ≥ 2`; for `d = 1` it
is `w + 1`, and the first of the `w + 1` cells is empty. -/
theorem C26_cell_count_against_side (w d : Int) (hw : 1 ≤ w) (hd : 1 ≤ d) :
    (subregionCount w d ≤ w ↔ 2 ≤ d) ∧
    (d = 1 → subregionCount w d = w + 1 ∧
      cellStart w (subregionCount w d).toNat 1 - cellStart w (subregionCount w d).toNat 0 = 0) := by
  have hcount : subregionCount w d = 1 + w / d := by
    rw [subregionCount, Int.tdiv_eq_ediv (by omega) (by omega)]
  constructor
  · rw [hcount]
    constructor
    · intro h
      by_contra hd2
      have h1 : d = 1 := by omega
      subst h1
      simp at h
    · intro h2
      have hq : 0 ≤ w / d := Int.ediv_nonneg (by omega) (by omega)
      have hm : w / d * d ≤ w := Int.ediv_mul_le w (by omega)
      have hle : w / d ≤ w / 2 := by
        apply Int.le_ediv_of_mul_le (by omega)
        have : w / d * 2 ≤ w / d * d := by nlinarith
        omega
      omega
  · intro h1
    subst h1
    have hc : subregionCount w 1 = w + 1 := by
      rw [hcount]; simp; omega
    refine ⟨hc, ?_⟩
    rw [hc]
    have hn : (((w + 1).toNat : Nat) : Int) = w + 1 := Int.toNat_of_nonneg (by omega)
    simp only [cellStart, hn]
    have h0 : w / (w + 1) = 0 := Int.ediv_eq_zero_of_lt (by omega) (by omega)
    simp [h0]

/-- C26 at concrete sides: length 96 with distance 50 gives 2 cells; length 4 with
distance 1 gives 5 cells, the first one empty. -/
theorem C26_cell_count_against_side_witness :
    (subregionCount 96 50 ≤ 96 ↔ (2 : Int) ≤ 50) ∧
    subregionCount 4 1 = 4 + 1 ∧
    cellStart 4 (subregionCount 4 1).toNat 1 - cellStart 4 (subregionCount 4 1).toNat 0 = 0 :=
  ⟨(C26_cell_count_against_side 96 50 (by decide) (by decide)).1,
    (C26_cell_count_against_side 4 1 (by decide) (by decide)).2 rfl⟩

/-! ## Claims about TanWcsFormatter -/

theorem encodeSipRow_eq (which : String) (m : SipMatrix) (i : Nat) (k : Nat) :
    ∀ (j : Nat) (wcsProps : PropertyList),
      encodeSipRow which m i k j wcsProps =
        wcsProps ++ ((List.range' j k).filter fun j => decide (m.coeff i j ≠ 0)).map fun j =>
          (⟨sipKey which i j, .double (m.coeff i j), ""⟩ : Property) := by
  induction k with
  | zero => intro j wcsProps; simp [encodeSipRow]
  | succ k ih =>
    intro j wcsProps
    rw [encodeSipRow, ih, List.range'_succ, List.filter_cons]
    by_cases h : m.coeff i j ≠ 0
    · simp [h, PropertyList.add]
    · simp [h]

theorem encodeSipRows_eq (which : String) (m : SipMatrix) (order : Nat) (k : Nat) :
    ∀ (i : Nat) (wcsProps : PropertyList),
      encodeSipRows which m order k i wcsProps =
        wcsProps ++ (List.range' i k).flatMap fun i =>
          ((List.range (order + 1)).filter fun j => decide (m.coeff i j ≠ 0)).map fun j =>
            (⟨sipKey which i j, .double (m.coeff i j), ""⟩ : Property) := by
  induction k with
  | zero => intro i wcsProps; simp [encodeSipRows]
  | succ k ih =>
    intro i wcsProps
    rw [encodeSipRows, ih, encodeSipRow_eq, ← List.range_eq_range', List.range'_succ,
      List.flatMap_cons, List.append_assoc]

theorem mem_sipEntries (which : String) (m : SipMatrix) (n : Nat) (p : Property) :
    p ∈ sipEntries which m n ↔
      ∃ i j : Nat, i < n ∧ j < n ∧ m.coeff i j ≠ 0 ∧
        p = ⟨sipKey which i j, .double (m.coeff i j), ""⟩ := by
  simp only [sipEntries, List.mem_flatMap, List.mem_map, List.mem_filter, List.mem_range,
    decide_eq_true_eq]
  constructor
  · rintro ⟨i, hi, j, ⟨hj, hne⟩, rfl⟩
    exact ⟨i, j, hi, hj, hne, rfl⟩
  · rintro ⟨i, j, hi, hj, hne, rfl⟩
    exact ⟨i, hi, j, ⟨hj, hne⟩, rfl⟩

/-- C21: `encodeSipHeader(props, which, m)`. A matrix that is not square gives the
domain error and leaves `props` as it was; a 0×0 matrix adds nothing; an n×n
matrix with `n ≥ 1` adds `<which>_ORDER = n - 1` and then, for `i, j ≤ n - 1`,
the key `<which>_<i>_<j>` with value `m(i, j)` exactly when `m(i, j) ≠ 0`, and
nothing else. -/
theorem C21_encodeSipHeader (wcsProps : PropertyList) (which : String) (m : SipMatrix) :
    (m.cols ≠ m.rows →
      encodeSipHeader wcsProps which m =
        (SipOutcome.domainError ("sip" ++ which ++ " matrix is not square"), wcsProps)) ∧
    (m.cols = m.rows → m.rows = 0 →
      encodeSipHeader wcsProps which m = (SipOutcome.ok, wcsProps)) ∧
    (m.cols = m.rows → 1 ≤ m.rows →
      encodeSipHeader wcsProps which m =
        (SipOutcome.ok,
          wcsProps ++ ⟨which ++ "_ORDER", .int ((m.rows : Int) - 1), ""⟩ ::
            sipEntries which m m.rows) ∧
      (∀ i j : Nat, i ≤ m.rows - 1 → j ≤ m.rows - 1 →
        ((⟨sipKey which i j, .double (m.coeff i j), ""⟩ : Property) ∈
          sipEntries which m m.rows ↔ m.coeff i j ≠ 0)) ∧
      ∀ p ∈ sipEntries which m m.rows, ∃ i j : Nat, i ≤ m.rows - 1 ∧ j ≤ m.rows - 1 ∧
        m.coeff i j ≠ 0 ∧ p = ⟨sipKey which i j, .double (m.coeff i j), ""⟩) := by
  refine ⟨?_, ?_, ?_⟩
  · intro h
    simp only [encodeSipHeader]
    rw [if_pos h]
  · intro h h0
    simp only [encodeSipHeader]
    rw [if_neg (fun hne => hne h), if_neg (by omega)]
  · intro h h1
    refine ⟨?_, ?_, ?_⟩
    · simp only [encodeSipHeader]
      rw [if_neg (fun hne => hne h), if_pos (by omega), encodeSipRows_eq]
      have hn : m.rows - 1 + 1 = m.rows := by omega
      have hc : ((m.rows - 1 : Nat) : Int) = (m.rows : Int) - 1 := by omega
      rw [hn, hc, ← List.range_eq_range']
      simp [PropertyList.add, sipEntries]
    · intro i j hi hj
      rw [mem_sipEntries]
      constructor
      · rintro ⟨i', j', _, _, hne, heq⟩
        have hv : m.coeff i j = m.coeff i' j' := by
          have := congrArg Property.value heq
          simpa using this
        rw [hv]
        exact hne
      · intro hne
        exact ⟨i, j, by omega, by omega, hne, rfl⟩
    · intro p hp
      obtain ⟨i, j, hi, hj, hne, rfl⟩ := (mem_sipEntries which m m.rows p).1 hp
      exact ⟨i, j, by omega, by omega, hne, rfl⟩

/-- C21 at concrete matrices: a 2×3 matrix fails; the empty matrix adds nothing;
the 2×2 matrix with coefficients 0, 3 / 0, 5 adds `A_ORDER = 1`, `A_0_1 = 3` and
`A_1_1 = 5`. -/
theorem C21_encodeSipHeader_witness :
    encodeSipHeader [] "A" sipNotSquare =
      (SipOutcome.domainError ("sip" ++ "A" ++ " matrix is not square"), []) ∧
    encodeSipHeader [] "A" sipEmpty = (SipOutcome.ok, []) ∧
    encodeSipHeader [] "A" sipExample =
      (SipOutcome.ok,
        [] ++ ⟨"A" ++ "_ORDER", .int ((sipExample.rows : Int) - 1), ""⟩ ::
          sipEntries "A" sipExample sipExample.rows) :=
  ⟨(C21_encodeSipHeader [] "A" sipNotSquare).1 (by decide),
    (C21_encodeSipHeader [] "A" sipEmpty).2.1 rfl rfl,
    ((C21_encodeSipHeader [] "A" sipExample).2.2 rfl (by decide)).1⟩

theorem rfind_eq_none_iff (s pat : String) :
    rfind s pat = none ↔ ¬ pat.data <:+: s.data := by
  unfold rfind
  rw [List.find?_eq_none]
  constructor
  · intro h hinfix
    obtain ⟨a, b, hab⟩ := hinfix
    have hmem : a.length ∈ (List.range (s.data.length + 1)).reverse := by
      rw [List.mem_reverse, List.mem_range, ← hab]
      simp only [List.length_append]
      omega
    apply h a.length hmem
    unfold occursAt
    rw [List.isPrefixOf_iff_prefix, ← hab, List.append_assoc, List.drop_left]
    exact List.prefix_append _ _
  · intro h i _ hocc
    apply h
    unfold occursAt at hocc
    rw [List.isPrefixOf_iff_prefix] at hocc
    exact hocc.isInfix.trans (List.drop_suffix i s.data).isInfix

theorem addWithComment_twice (props : PropertyList) (k1 : String) (v1 : PropertyValue)
    (c1 k2 : String) (v2 : PropertyValue) (c2 : String) :
    (props.addWithComment k1 v1 c1).addWithComment k2 v2 c2 =
      props ++ [⟨k1, v1, c1⟩, ⟨k2, v2, c2⟩] := by
  simp [PropertyList.addWithComment]

theorem appendSip_eq (ctype : String) :
    appendSip ctype = if "-SIP".data <:+: ctype.data then ctype else ctype ++ "-SIP" := by
  unfold appendSip
  by_cases h : "-SIP".data <:+: ctype.data
  · rw [if_pos h, if_neg (fun hn => (rfind_eq_none_iff ctype "-SIP").1 hn h)]
  · rw [if_neg h, if_pos ((rfind_eq_none_iff ctype "-SIP").2 h)]

theorem appendSip_suffix (ctype : String)
    (h : ¬ "-SIP".data <:+: ctype.data ∨ "-SIP".data <:+ ctype.data) :
    "-SIP".data <:+ (appendSip ctype).data := by
  rw [appendSip_eq]
  by_cases hin : "-SIP".data <:+: ctype.data
  · rw [if_pos hin]
    rcases h with h | h
    · exact absurd hin h
    · exact h
  · rw [if_neg hin, String.data_append]
    exact List.suffix_append _ _

/-- C25 as stated fails: a Wcs with distortion whose stored first coordinate type
is `RA-SIP-X` is written with `CTYPE1 = RA-SIP-X`, which does not end with
`-SIP`: the suffix is appended only when `-SIP` occurs nowhere in the stored
type. -/
theorem C25_inner_sip_is_written_as_stored :
    wcsInnerSip.hasDistortion = true ∧
    ¬ "-SIP".data <:+ "RA-SIP-X".data ∧
    ∃ props, generatePropertySet wcsInnerSip = Except.ok props ∧
      props.filter (fun p => p.key == "CTYPE1") =
        [⟨"CTYPE1", .string "RA-SIP-X", "WCS Coordinate type"⟩] := by
  refine ⟨rfl, by decide, _, rfl, by decide⟩

theorem encodeSipHeader_cases (wcsProps : PropertyList) (which : String) (m : SipMatrix) :
    (m.cols ≠ m.rows ∧ encodeSipHeader wcsProps which m =
      (SipOutcome.domainError ("sip" ++ which ++ " matrix is not square"), wcsProps)) ∨
    (m.cols = m.rows ∧ ∃ q, encodeSipHeader wcsProps which m = (SipOutcome.ok, q)) := by
  by_cases h : m.cols ≠ m.rows
  · left
    refine ⟨h, ?_⟩
    simp only [encodeSipHeader]
    rw [if_pos h]
  · right
    refine ⟨not_not.1 h, ?_⟩
    simp only [encodeSipHeader]
    rw [if_neg h]
    split_ifs
    · exact ⟨_, rfl⟩
    · exact ⟨_, rfl⟩

theorem encodeSipHeaders_ok_iff (wcsProps : PropertyList) (wcs : TanWcs) :
    (∃ q, encodeSipHeaders wcsProps wcs = Except.ok q) ↔
      wcs.sipA.cols = wcs.sipA.rows ∧ wcs.sipB.cols = wcs.sipB.rows ∧
      wcs.sipAp.cols = wcs.sipAp.rows ∧ wcs.sipBp.cols = wcs.sipBp.rows := by
  unfold encodeSipHeaders
  rcases encodeSipHeader_cases wcsProps "A" wcs.sipA with ⟨h1, e1⟩ | ⟨h1, p1, e1⟩
  · rw [e1]
    simp [h1]
  rw [e1]
  simp only []
  rcases encodeSipHeader_cases p1 "B" wcs.sipB with ⟨h2, e2⟩ | ⟨h2, p2, e2⟩
  · rw [e2]
    simp [h2]
  rw [e2]
  simp only []
  rcases encodeSipHeader_cases p2 "AP" wcs.sipAp with ⟨h3, e3⟩ | ⟨h3, p3, e3⟩
  · rw [e3]
    simp [h3]
  rw [e3]
  simp only []
  rcases encodeSipHeader_cases p3 "BP" wcs.sipBp with ⟨h4, e4⟩ | ⟨h4, p4, e4⟩
  · rw [e4]
    simp [h4]
  rw [e4]
  simp [h1, h2, h3, h4]

/-- C25 as amended: for a Wcs with WCS data, `generatePropertySet` returns a
property list exactly when the Wcs has no distortion or its four SIP matrices
are square, and the last two entries of the list are then `CTYPE1` and
`CTYPE2`. Without distortion their values are the stored types. With distortion
each value is the stored type when `-SIP` occurs in it and the stored type
followed by `-SIP` when it does not (so never twice); the value ends with
`-SIP` whenever the stored type does not hold `-SIP` or ends with it. -/
theorem C25_ctype_correction (wcs : TanWcs) (info : WcsInfo)
    (hinfo : wcs.wcsInfo = some info) :
    ((∃ props, generatePropertySet wcs = Except.ok props) ↔
      (wcs.hasDistortion = true →
        wcs.sipA.cols = wcs.sipA.rows ∧ wcs.sipB.cols = wcs.sipB.rows ∧
        wcs.sipAp.cols = wcs.sipAp.rows ∧ wcs.sipBp.cols = wcs.sipBp.rows)) ∧
    ∀ props, generatePropertySet wcs = Except.ok props →
    ∃ (pre : PropertyList) (c1 c2 : String),
      props = pre ++ [⟨"CTYPE1", .string c1, "WCS Coordinate type"⟩,
        ⟨"CTYPE2", .string c2, "WCS Coordinate type"⟩] ∧
      (wcs.hasDistortion = false → c1 = info.ctype1 ∧ c2 = info.ctype2) ∧
      (wcs.hasDistortion = true →
        (c1 = if "-SIP".data <:+: info.ctype1.data then info.ctype1
          else info.ctype1 ++ "-SIP") ∧
        (c2 = if "-SIP".data <:+: info.ctype2.data then info.ctype2
          else info.ctype2 ++ "-SIP") ∧
        ((¬ "-SIP".data <:+: info.ctype1.data ∨ "-SIP".data <:+ info.ctype1.data) →
          "-SIP".data <:+ c1.data) ∧
        ((¬ "-SIP".data <:+: info.ctype2.data ∨ "-SIP".data <:+ info.ctype2.data) →
          "-SIP".data <:+ c2.data)) := by
  constructor
  · unfold generatePropertySet
    rw [hinfo]
    simp only []
    cases hd : wcs.hasDistortion with
    | false => simp
    | true =>
      simp only [if_true, true_implies]
      constructor
      · rintro ⟨props, hrun⟩
        split at hrun
        · cases hrun
        · rename_i q hq
          exact (encodeSipHeaders_ok_iff _ wcs).1 ⟨q, hq⟩
      · intro hsq
        have key := fun p => (encodeSipHeaders_ok_iff p wcs).2 hsq
        split
        · rename_i msg heq
          have hne := (Exists.choose_spec (key _)).symm.trans heq
          cases hne
        · exact ⟨_, rfl⟩
  intro props hrun
  unfold generatePropertySet at hrun
  rw [hinfo] at hrun
  simp only [] at hrun
  cases hd : wcs.hasDistortion with
  | false =>
    rw [hd] at hrun
    simp only [Bool.false_eq_true, if_false, Except.ok.injEq] at hrun
    exact ⟨_, info.ctype1, info.ctype2, hrun ▸ addWithComment_twice _ _ _ _ _ _ _,
      fun _ => ⟨rfl, rfl⟩, fun h => Bool.noConfusion h⟩
  | true =>
    rw [hd] at hrun
    simp only [if_true] at hrun
    split at hrun
    · cases hrun
    · rename_i q _
      simp only [Except.ok.injEq] at hrun
      exact ⟨q, appendSip info.ctype1, appendSip info.ctype2,
        hrun ▸ addWithComment_twice _ _ _ _ _ _ _,
        fun h => Bool.noConfusion h, fun _ => ⟨appendSip_eq _, appendSip_eq _,
          appendSip_suffix _, appendSip_suffix _⟩⟩

/-- C25 as amended, at a concrete Wcs with distortion, square SIP matrices and
stored types `RA---TAN` and `DEC--TAN-SIP`: `generatePropertySet` returns, and
the list ends with `CTYPE1 = RA---TAN-SIP` and `CTYPE2 = DEC--TAN-SIP`. -/
theorem C25_ctype_correction_witness :
    wcsTanSip.wcsInfo = some (wcsInfoWith "RA---TAN" "DEC--TAN-SIP") ∧
    ∃ (props pre : PropertyList), generatePropertySet wcsTanSip = Except.ok props ∧
      props = pre ++ [⟨"CTYPE1", .string "RA---TAN-SIP", "WCS Coordinate type"⟩,
        ⟨"CTYPE2", .string "DEC--TAN-SIP", "WCS Coordinate type"⟩] :=
  have h := C25_ctype_correction wcsTanSip (wcsInfoWith "RA---TAN" "DEC--TAN-SIP") rfl
  match h.1.2 (fun _ => by decide) with
  | ⟨props, hrun⟩ =>
    match h.2 props hrun with
    | ⟨pre, c1, c2, hp, _, hdist⟩ =>
      have h1 : c1 = "RA---TAN-SIP" := (hdist rfl).1.trans (by decide)
      have h2 : c2 = "DEC--TAN-SIP" := (hdist rfl).2.1.trans (by decide)
      ⟨rfl, props, pre, hrun, by rw [hp, h1, h2]⟩

/-! ## Scenario A on the interpolated path -/

end afw
